import Mathlib

/-!
Verification development for the gsc cryptographic toolkit.

Shallow embedding conventions:
  * a Go byte is a `Nat` (invariants `< 256` carried as hypotheses where needed);
  * a Go byte slice is a `List Nat`;
  * Go `uint32`/`uint64` values are `Nat` with explicit reduction `% 2^32` /
    `% 2^64` wherever Go arithmetic can overflow;
  * fallible Go functions (returning `(T, error)`) become `Option`-valued
    functions, `none` standing for a non-nil error or a runtime panic;
  * Go methods that could mutate their receiver are embedded in state-passing
    style: the function returns the updated receiver next to its result, so a
    frame property (the receiver is unchanged) is an actual theorem about the
    definition.
-/

namespace GSC

/-! ## Word utilities (modes/internal/utils.go and math/bits helpers) -/

/-- Reduction of a Go `uint32` expression. -/
def mask32 (x : Nat) : Nat := x % 4294967296

/-- Go `uint32` addition. -/
def add32 (a b : Nat) : Nat := (a + b) % 4294967296

/-- Go `bits.RotateLeft32` on a value `x < 2^32`. -/
def rotl32 (x n : Nat) : Nat :=
  let s := n % 32
  ((x <<< s) % 4294967296) ||| (x >>> (32 - s))

/-- XORBytes from modes/internal/utils.go: byte-wise xor, result length is the
    minimum of the two input lengths. -/
def XORBytes (a b : List Nat) : List Nat := List.zipWith (fun x y => x ^^^ y) a b

/-- Increment from modes/internal/utils.go: increments the counter from the
    rightmost byte, with carry into the next byte while a byte wraps to zero. -/
def Increment (counter : List Nat) : List Nat :=
  (incAux counter.reverse).reverse
where
  /-- Carry propagation along the reversed counter. -/
  incAux : List Nat → List Nat
  | [] => []
  | b :: rest =>
      let b' := (b + 1) % 256
      if b' = 0 then b' :: incAux rest else b' :: rest

/-! ## Padding package, files padding/pkcs7.go and padding/zero.go -/

namespace padding

/-- PKCS7Padding from padding/pkcs7.go.  The `if padding == 0` branch of the Go
    code is kept even though `blockSize - len % blockSize` is never zero for a
    positive block size. -/
def PKCS7Padding (data : List Nat) (blockSize : Nat) : List Nat :=
  let padding := blockSize - data.length % blockSize
  let padding := if padding = 0 then blockSize else padding
  data ++ List.replicate padding (padding % 256)

/-- PKCS7Unpadding from padding/pkcs7.go: reads the count byte, rejects a count
    larger than the input, and checks that every one of the last `padding`
    bytes equals the count byte. -/
def PKCS7Unpadding (data : List Nat) : Option (List Nat) :=
  if data.length = 0 then none
  else
    let padding := data.getLastD 0
    if padding > data.length then none
    else if (data.drop (data.length - padding)).all (fun b => b = padding % 256) then
      some (data.take (data.length - padding))
    else none

/-- ZeroPadding from padding/zero.go.  As in the Go code the `if padding == 0`
    branch is dead: when the data length is already a multiple of the block
    size, `blockSize - len % blockSize` equals `blockSize`, so a full block of
    zero bytes is appended. -/
def ZeroPadding (data : List Nat) (blockSize : Nat) : List Nat :=
  let padding := blockSize - data.length % blockSize
  let padding := if padding = 0 then blockSize else padding
  data ++ List.replicate padding 0

/-- ZeroUnpadding from padding/zero.go: scan from the end for the first nonzero
    byte and keep everything up to it; an all-zero input yields the empty
    slice. -/
def ZeroUnpadding (data : List Nat) : List Nat :=
  ((data.reverse.dropWhile (fun b => b = 0)).reverse)

end padding

/-! ## Padding package, consolidated file (src/unnamed/part_006) -/

namespace paddingPkg

/-- PKCS7Padding from the consolidated padding file (part_006); it never
    returns an error. -/
def PKCS7Padding (data : List Nat) (blockSize : Nat) : List Nat :=
  let padding := blockSize - data.length % blockSize
  data ++ List.replicate padding (padding % 256)

/-- PKCS7UnPadding from the consolidated padding file (part_006).  Only the
    count byte is validated against the input length; the fill bytes are not
    inspected. -/
def PKCS7UnPadding (data : List Nat) : Option (List Nat) :=
  if data.length = 0 then none
  else
    let unpadding := data.getLastD 0
    if unpadding > data.length then none
    else some (data.take (data.length - unpadding))

/-- ZeroPadding from the consolidated padding file (part_006): appends
    `blockSize - len % blockSize` zero bytes, which is a full block when the
    length is already aligned. -/
def ZeroPadding (data : List Nat) (blockSize : Nat) : List Nat :=
  data ++ List.replicate (blockSize - data.length % blockSize) 0

/-- M2Padding from the consolidated padding file (part_006): like ZeroPadding
    but the full-block case is mapped to zero appended bytes. -/
def M2Padding (data : List Nat) (blockSize : Nat) : List Nat :=
  let padding := blockSize - data.length % blockSize
  let padding := if padding = blockSize then 0 else padding
  data ++ List.replicate padding 0

/-- TBCPadding from the consolidated padding file (part_006): appends
    `blockSize - len % blockSize` copies of the bitwise complement of the last
    data byte (`0x00` is used as the last byte of empty data). -/
def TBCPadding (data : List Nat) (blockSize : Nat) : List Nat :=
  let padding := blockSize - data.length % blockSize
  let lastByte := if data.length > 0 then data.getLastD 0 else 0
  let complement := 255 ^^^ lastByte
  data ++ List.replicate padding complement

/-- Scan of TBCUnPadding, walking the input from its end: the first byte that
    differs from `c` ends the scan and everything up to and including it is
    returned; if every byte equals `c` the Go code returns an error. -/
def tbcScan (c : Nat) : List Nat → Option (List Nat)
  | [] => none
  | b :: rest => if b ≠ c then some ((b :: rest).reverse) else tbcScan c rest

/-- TBCUnPadding from the consolidated padding file (part_006).  The Go code
    takes the complement of the final byte of the padded input and strips the
    trailing run of bytes equal to that complement. -/
def TBCUnPadding (data : List Nat) : Option (List Nat) :=
  if data.length = 0 then none
  else
    let lastByte := data.getLastD 0
    let complement := 255 ^^^ lastByte
    tbcScan complement data.reverse

end paddingPkg

/-! ## SM3 hash (sm3/sm3.go with constants from sm3/internal) -/

namespace sm3

/-- Initial hash value from sm3/internal. -/
def IV : List Nat :=
  [0x7380166F, 0x4914B2B9, 0x172442D7, 0xDA8A0600,
   0xA96F30BC, 0x163138AA, 0xE38DEE4D, 0xB0FB0E4E]

/-- Round constants from sm3/internal. -/
def T (j : Nat) : Nat := if j < 16 then 0x79CC4519 else 0x7A879D8A

/-- Boolean function ff of sm3.go. -/
def ff (x y z j : Nat) : Nat :=
  if j ≤ 15 then x ^^^ y ^^^ z else (x &&& y) ||| (x &&& z) ||| (y &&& z)

/-- Boolean function gg of sm3.go; the Go complement `^x` on `uint32` is the
    xor with `2^32 - 1`. -/
def gg (x y z j : Nat) : Nat :=
  if j ≤ 15 then x ^^^ y ^^^ z else (x &&& y) ||| ((4294967295 ^^^ x) &&& z)

/-- Permutation p0 of sm3.go. -/
def p0 (x : Nat) : Nat := x ^^^ rotl32 x 9 ^^^ rotl32 x 17

/-- Permutation p1 of sm3.go. -/
def p1 (x : Nat) : Nat := x ^^^ rotl32 x 15 ^^^ rotl32 x 23

/-- Big-endian 32-bit word from four bytes (binary.BigEndian.Uint32). -/
def beWord (b0 b1 b2 b3 : Nat) : Nat :=
  ((b0 % 256) <<< 24) ||| ((b1 % 256) <<< 16) ||| ((b2 % 256) <<< 8) ||| (b3 % 256)

/-- Splits a byte slice into big-endian 32-bit words. -/
def wordsOfBytes : List Nat → List Nat
  | b0 :: b1 :: b2 :: b3 :: rest => beWord b0 b1 b2 b3 :: wordsOfBytes rest
  | _ => []

/-- Big-endian bytes of a 32-bit word (binary.BigEndian.PutUint32). -/
def wordBytes (w : Nat) : List Nat :=
  [(w >>> 24) % 256, (w >>> 16) % 256, (w >>> 8) % 256, w % 256]

/-- Big-endian bytes of a 64-bit length (binary.BigEndian.PutUint64). -/
def putUint64BE (v : Nat) : List Nat :=
  [(v >>> 56) % 256, (v >>> 48) % 256, (v >>> 40) % 256, (v >>> 32) % 256,
   (v >>> 24) % 256, (v >>> 16) % 256, (v >>> 8) % 256, v % 256]

/-- Message expansion of sm3.go: starting from the 16 block words, `fuel`
    further words are appended by the recurrence for `w[16..67]`. -/
def expandW (w : List Nat) : Nat → List Nat
  | 0 => w
  | fuel + 1 =>
      let i := w.length
      let next := p1 (w.getD (i - 16) 0 ^^^ w.getD (i - 9) 0 ^^^
                      rotl32 (w.getD (i - 3) 0) 15) ^^^
                  rotl32 (w.getD (i - 13) 0) 7 ^^^ w.getD (i - 6) 0
      expandW (w ++ [next]) fuel

/-- One application of the sm3.go compression function to a 64-byte block. -/
def compressBlock (h : List Nat) (blk : List Nat) : List Nat :=
  let w := expandW (wordsOfBytes (blk.take 64)) 52
  let w1 := (List.range 64).map (fun i => w.getD i 0 ^^^ w.getD (i + 4) 0)
  let s0 := (h.getD 0 0, h.getD 1 0, h.getD 2 0, h.getD 3 0,
             h.getD 4 0, h.getD 5 0, h.getD 6 0, h.getD 7 0)
  let s := (List.range 64).foldl (fun s j =>
    let (a, b, c, d, e, f, g, hh) := s
    let ss1 := rotl32 (add32 (add32 (rotl32 a 12) e) (rotl32 (T j) j)) 7
    let ss2 := ss1 ^^^ rotl32 a 12
    let tt1 := add32 (add32 (add32 (ff a b c j) d) ss2) (w1.getD j 0)
    let tt2 := add32 (add32 (add32 (gg e f g j) hh) ss1) (w.getD j 0)
    (tt1, a, rotl32 b 9, c, p0 tt2, e, rotl32 f 19, g)) s0
  [h.getD 0 0 ^^^ s.1, h.getD 1 0 ^^^ s.2.1, h.getD 2 0 ^^^ s.2.2.1,
   h.getD 3 0 ^^^ s.2.2.2.1, h.getD 4 0 ^^^ s.2.2.2.2.1,
   h.getD 5 0 ^^^ s.2.2.2.2.2.1, h.getD 6 0 ^^^ s.2.2.2.2.2.2.1,
   h.getD 7 0 ^^^ s.2.2.2.2.2.2.2]

/-- The loop of the block method of sm3.go, with an iteration bound: each
    pass compresses one 64-byte chunk.  A bound of at least `p.length`
    iterations makes the bound irrelevant, since every pass consumes 64
    bytes. -/
def blockFnAux (h : List Nat) : Nat → List Nat → List Nat
  | 0, _ => h
  | fuel + 1, p =>
      if 64 ≤ p.length then blockFnAux (compressBlock h (p.take 64)) fuel (p.drop 64)
      else h

/-- The block method of sm3.go: compresses 64-byte chunks while at least a
    full block remains. -/
def blockFn (h : List Nat) (p : List Nat) : List Nat := blockFnAux h p.length p

/-- SM3 digest state: chaining words, pending buffer bytes (the first `nx`
    bytes of the Go 64-byte array) and total input length. -/
structure Digest where
  h : List Nat
  x : List Nat
  len : Nat
deriving DecidableEq, Repr

/-- The state produced by Reset in sm3.go. -/
def initDigest : Digest := { h := IV, x := [], len := 0 }

/-- Write from sm3.go: tops up the pending buffer, compresses it when full,
    compresses the full 64-byte chunks of the rest, and stores the tail in the
    buffer. -/
def write (d : Digest) (p : List Nat) : Digest :=
  let len' := d.len + p.length
  let fill :=
    if 0 < d.x.length then
      let n := min (64 - d.x.length) p.length
      let buf := d.x ++ p.take n
      if buf.length = 64 then (blockFn d.h buf, ([] : List Nat), p.drop n)
      else (d.h, buf, p.drop n)
    else (d.h, d.x, p)
  let h1 := fill.1
  let x1 := fill.2.1
  let p1 := fill.2.2
  let nfull := (p1.length / 64) * 64
  let h2 := if 64 ≤ p1.length then blockFn h1 (p1.take nfull) else h1
  let p2 := if 64 ≤ p1.length then p1.drop nfull else p1
  let x2 := if 0 < p2.length then p2 else x1
  { h := h2, x := x2, len := len' }

/-- The padding length computed by checkSum in sm3.go, as the signed Go `int`
    expression `BlockSize - ((len+1+8) % BlockSize)` with its (dead)
    non-positive guard. -/
def checkPadLen (len : Nat) : Int :=
  let padLen : Int := 64 - ((Int.ofNat len + 1 + 8) % 64)
  if padLen ≤ 0 then padLen + 64 else padLen

/-- checkSum from sm3.go: writes `0x80` followed by `padLen` zero bytes, then
    the bit length as eight big-endian bytes, and serialises the state.
    Slicing `tmp[:1+padLen]` of the 64-byte array panics when `1 + padLen`
    exceeds 64, which is `none` here; the Go `panic("d.nx != 0")` is also
    `none`. -/
def checkSum (d : Digest) : Option (List Nat) :=
  let len := d.len
  let padLen := checkPadLen len
  if 1 + padLen ≤ 64 then
    let pad := 128 :: List.replicate padLen.toNat 0
    let d1 := write d pad
    let lenBits := (len * 8) % 18446744073709551616
    let d2 := write d1 (putUint64BE lenBits)
    if d2.x.length ≠ 0 then none
    else some (d2.h.flatMap wordBytes)
  else none

/-- The package-level Sum of sm3.go: a fresh state, one Write, one checkSum. -/
def Sum (data : List Nat) : Option (List Nat) := checkSum (write initDigest data)

end sm3

/-! ## Modes of operation (modes/modes.go, cfb.go, ofb.go, ctr.go, gcm.go) -/

namespace modes

/-- Go `copy(dst, src)` into a fixed-length destination buffer: the first
    `min` bytes come from `src`, the rest of `dst` is kept. -/
def copyInto (dst src : List Nat) : List Nat :=
  src.take dst.length ++ dst.drop src.length

/-- The BlockCipher interface of modes.go. -/
structure BlockCipher where
  encrypt : List Nat → Option (List Nat)
  decrypt : List Nat → Option (List Nat)
  blockSize : Nat

/-- The CBC adapter: a cipher and the stored IV copy. -/
structure CBC where
  cipher : BlockCipher
  iv : List Nat


/-- NewCBC: rejects an IV whose length differs from the block size and stores
    a copy of the IV. -/
def NewCBC (cipher : BlockCipher) (iv : List Nat) : Option CBC :=
  if iv.length ≠ cipher.blockSize then none else some ⟨cipher, iv⟩

/-- The block loop of CBC.Encrypt, carrying the local `prev` register.  The Go
    loop cannot terminate when the block size is zero (the length check `len %
    0` panics first in Go); that case is `none`. -/
def cbcEncLoopAux (enc : List Nat → Option (List Nat)) (bs : Nat) :
    Nat → List Nat → List Nat → Option (List Nat)
  | 0, _, pt => if pt = [] then some [] else none
  | fuel + 1, prev, pt =>
      if pt = [] then some []
      else if bs = 0 then none
      else do
        let block := copyInto (List.replicate bs 0) (XORBytes (pt.take bs) prev)
        let eb ← enc block
        let rest ← cbcEncLoopAux enc bs fuel (copyInto prev eb) (pt.drop bs)
        some (copyInto (List.replicate bs 0) eb ++ rest)

/-- The CBC.Encrypt loop with the bound instantiated so it never binds: each
    pass consumes at least one byte, so `pt.length` passes always reach the
    empty list. -/
def cbcEncLoop (enc : List Nat → Option (List Nat)) (bs : Nat) (prev pt : List Nat) :
    Option (List Nat) :=
  cbcEncLoopAux enc bs pt.length prev pt

/-- CBC.Encrypt from modes.go: validates block alignment, copies the stored IV
    into the local `prev` register and chains the blocks. -/
def CBC.Encrypt (c : CBC) (plaintext : List Nat) : Option (List Nat) :=
  let bs := c.cipher.blockSize
  if plaintext.length % bs ≠ 0 then none
  else cbcEncLoop c.cipher.encrypt bs (copyInto (List.replicate bs 0) c.iv) plaintext

/-- The block loop of CBC.Decrypt, with an iteration bound. -/
def cbcDecLoopAux (dec : List Nat → Option (List Nat)) (bs : Nat) :
    Nat → List Nat → List Nat → Option (List Nat)
  | 0, _, ct => if ct = [] then some [] else none
  | fuel + 1, prev, ct =>
      if ct = [] then some []
      else if bs = 0 then none
      else do
        let db ← dec (ct.take bs)
        let ptBlock := copyInto (List.replicate bs 0) (XORBytes db prev)
        let rest ← cbcDecLoopAux dec bs fuel (copyInto prev (ct.take bs)) (ct.drop bs)
        some (ptBlock ++ rest)

/-- The block loop of CBC.Decrypt. -/
def cbcDecLoop (dec : List Nat → Option (List Nat)) (bs : Nat) (prev ct : List Nat) :
    Option (List Nat) :=
  cbcDecLoopAux dec bs ct.length prev ct

/-- CBC.Decrypt from modes.go. -/
def CBC.Decrypt (c : CBC) (ciphertext : List Nat) : Option (List Nat) :=
  let bs := c.cipher.blockSize
  if ciphertext.length % bs ≠ 0 then none
  else cbcDecLoop c.cipher.decrypt bs (copyInto (List.replicate bs 0) c.iv) ciphertext

/-- A method call on the CBC adapter in state-passing form.  CBC.Encrypt in
    the Go source writes only to the local buffers `prev`, `block` and
    `ciphertext`, never to the receiver fields, so the receiver after the call
    is the unchanged `c`. -/
def CBC.EncryptCall (c : CBC) (plaintext : List Nat) : Option (List Nat) × CBC :=
  (CBC.Encrypt c plaintext, c)

/-- CBC.Decrypt likewise leaves the receiver untouched. -/
def CBC.DecryptCall (c : CBC) (ciphertext : List Nat) : Option (List Nat) × CBC :=
  (CBC.Decrypt c ciphertext, c)

/-- The CFB adapter of cfb.go: cipher, stored IV copy and segment size. -/
structure CFB where
  cipher : BlockCipher
  iv : List Nat
  segmentSize : Nat


/-- NewCFB: IV length must equal the block size; the segment size defaults to
    the block size. -/
def NewCFB (cipher : BlockCipher) (iv : List Nat) : Option CFB :=
  if iv.length ≠ cipher.blockSize then none
  else some ⟨cipher, iv, cipher.blockSize⟩

/-- The segment loop shared by CFB.Encrypt and CFB.Decrypt: `feedCt` selects
    which bytes are fed back into the shift register (the just-produced output
    on encrypt, the observed input on decrypt — both are the ciphertext). -/
def cfbLoopAux (enc : List Nat → Option (List Nat)) (bs seg : Nat) (feedOut : Bool) :
    Nat → List Nat → List Nat → Option (List Nat)
  | 0, _, data => if data = [] then some [] else none
  | fuel + 1, register, data =>
      if data = [] then some []
      else if seg = 0 then none
      else do
        let encrypted ← enc register
        let n := min seg data.length
        if encrypted.length < n then none
        else
          let outSeg := XORBytes (data.take n) (encrypted.take n)
          let fed := if feedOut then outSeg else data.take n
          let register' :=
            if seg < bs then register.drop seg ++ copyInto (register.drop (bs - seg)) fed
            else copyInto register fed
          do
            let rest ← cfbLoopAux enc bs seg feedOut fuel register' (data.drop n)
            some (outSeg ++ rest)

/-- The CFB segment loop with the iteration bound instantiated so it never
    binds. -/
def cfbLoop (enc : List Nat → Option (List Nat)) (bs seg : Nat) (feedOut : Bool)
    (register data : List Nat) : Option (List Nat) :=
  cfbLoopAux enc bs seg feedOut data.length register data

/-- CFB.Encrypt from cfb.go: copies the stored IV into the local register and
    processes the input segment by segment. -/
def CFB.Encrypt (c : CFB) (plaintext : List Nat) : Option (List Nat) :=
  let bs := c.cipher.blockSize
  cfbLoop c.cipher.encrypt bs c.segmentSize true
    (copyInto (List.replicate bs 0) c.iv) plaintext

/-- CFB.Decrypt from cfb.go. -/
def CFB.Decrypt (c : CFB) (ciphertext : List Nat) : Option (List Nat) :=
  let bs := c.cipher.blockSize
  cfbLoop c.cipher.encrypt bs c.segmentSize false
    (copyInto (List.replicate bs 0) c.iv) ciphertext

/-- CFB.Encrypt in state-passing form; the Go method mutates only the local
    `register` buffer. -/
def CFB.EncryptCall (c : CFB) (plaintext : List Nat) : Option (List Nat) × CFB :=
  (CFB.Encrypt c plaintext, c)

/-- CFB.Decrypt in state-passing form. -/
def CFB.DecryptCall (c : CFB) (ciphertext : List Nat) : Option (List Nat) × CFB :=
  (CFB.Decrypt c ciphertext, c)

/-- The OFB adapter of ofb.go. -/
structure OFB where
  cipher : BlockCipher
  iv : List Nat


/-- NewOFB: IV length must equal the block size. -/
def NewOFB (cipher : BlockCipher) (iv : List Nat) : Option OFB :=
  if iv.length ≠ cipher.blockSize then none else some ⟨cipher, iv⟩

/-- The block loop of OFB.Encrypt: full blocks update the register with the
    keystream block, a final partial block only xors. -/
def ofbLoopAux (enc : List Nat → Option (List Nat)) (bs : Nat) :
    Nat → List Nat → List Nat → Option (List Nat)
  | 0, _, data => if data = [] then some [] else none
  | fuel + 1, register, data =>
      if data = [] then some []
      else if bs = 0 then none
      else if bs ≤ data.length then do
        let er ← enc register
        let rest ← ofbLoopAux enc bs fuel (copyInto register er) (data.drop bs)
        some (XORBytes (data.take bs) er ++ rest)
      else do
        let er ← enc register
        some (XORBytes data er)

/-- The OFB block loop with the iteration bound instantiated so it never
    binds. -/
def ofbLoop (enc : List Nat → Option (List Nat)) (bs : Nat) (register data : List Nat) :
    Option (List Nat) :=
  ofbLoopAux enc bs data.length register data

/-- OFB.Encrypt from ofb.go. -/
def OFB.Encrypt (o : OFB) (plaintext : List Nat) : Option (List Nat) :=
  let bs := o.cipher.blockSize
  ofbLoop o.cipher.encrypt bs (copyInto (List.replicate bs 0) o.iv) plaintext

/-- OFB.Decrypt is OFB.Encrypt. -/
def OFB.Decrypt (o : OFB) (ciphertext : List Nat) : Option (List Nat) :=
  OFB.Encrypt o ciphertext

/-- OFB.Encrypt in state-passing form; only the local register is mutated. -/
def OFB.EncryptCall (o : OFB) (plaintext : List Nat) : Option (List Nat) × OFB :=
  (OFB.Encrypt o plaintext, o)

/-- OFB.Decrypt in state-passing form. -/
def OFB.DecryptCall (o : OFB) (ciphertext : List Nat) : Option (List Nat) × OFB :=
  (OFB.Decrypt o ciphertext, o)

/-- The CTR adapter of ctr.go. -/
structure CTR where
  cipher : BlockCipher
  counter : List Nat


/-- NewCTR: the initial counter length must equal the block size; a copy is
    stored. -/
def NewCTR (cipher : BlockCipher) (initialCounter : List Nat) : Option CTR :=
  if initialCounter.length ≠ cipher.blockSize then none
  else some ⟨cipher, initialCounter⟩

/-- The block loop of CTR.Encrypt, carrying the local counter copy.  A cipher
    output shorter than the chunk would be a Go index panic, hence `none`. -/
def ctrProcessAux (enc : List Nat → Option (List Nat)) (bs : Nat) :
    Nat → List Nat → List Nat → Option (List Nat)
  | 0, _, data => if data = [] then some [] else none
  | fuel + 1, counter, data =>
      if data = [] then some []
      else if bs = 0 then none
      else do
        let ec ← enc counter
        let n := min bs data.length
        if ec.length < n then none
        else do
          let rest ← ctrProcessAux enc bs fuel (Increment counter) (data.drop n)
          some (XORBytes (data.take n) (ec.take n) ++ rest)

/-- The CTR block loop with the iteration bound instantiated so it never
    binds. -/
def ctrProcess (enc : List Nat → Option (List Nat)) (bs : Nat) (counter data : List Nat) :
    Option (List Nat) :=
  ctrProcessAux enc bs data.length counter data

/-- CTR.Encrypt from ctr.go: copies the stored counter into a local buffer and
    xors the input with the encrypted counter stream. -/
def CTR.Encrypt (c : CTR) (plaintext : List Nat) : Option (List Nat) :=
  ctrProcess c.cipher.encrypt c.cipher.blockSize
    (copyInto (List.replicate c.cipher.blockSize 0) c.counter) plaintext

/-- CTR.Decrypt is CTR.Encrypt. -/
def CTR.Decrypt (c : CTR) (ciphertext : List Nat) : Option (List Nat) :=
  CTR.Encrypt c ciphertext

/-- CTR.Encrypt in state-passing form; only the local counter is mutated. -/
def CTR.EncryptCall (c : CTR) (plaintext : List Nat) : Option (List Nat) × CTR :=
  (CTR.Encrypt c plaintext, c)

/-- CTR.Decrypt in state-passing form. -/
def CTR.DecryptCall (c : CTR) (ciphertext : List Nat) : Option (List Nat) × CTR :=
  (CTR.Decrypt c ciphertext, c)

/-! ### GHASH and GCM (modes/internal/ghash.go and modes/gcm.go) -/

/-- One Horner step on the multiplier `v` of GHASH.multiply: remember the low
    bit, shift the 16 bytes right by one bit, and fold the reduction byte
    `0xe1` into the top byte when the low bit fell off. -/
def ghashVStep (v : List Nat) : List Nat :=
  let bit := v.getD 15 0 &&& 1
  let v' := List.zipWith (fun prev cur => ((cur % 256) >>> 1) ||| (((prev % 256) <<< 7) % 256))
    (0 :: v) v
  if bit = 1 then v'.set 0 (v'.getD 0 0 ^^^ 0xe1) else v'

/-- The 128 message bits of a GHASH block, most significant bit of each byte
    first, as scanned by GHASH.multiply. -/
def ghashBitsOf (y : List Nat) : List Bool :=
  (List.range 16).flatMap (fun i =>
    (List.range 8).map (fun j => (y.getD i 0 &&& (1 <<< (7 - j))) ≠ 0))

/-- GHASH.multiply: the product `y * H` in GF(2^128) by conditional
    accumulation of the successive multiples of `H`. -/
def ghashMul (h y : List Nat) : List Nat :=
  let zv := (ghashBitsOf y).foldl (fun (zv : List Nat × List Nat) bit =>
    ((if bit then XORBytes zv.1 zv.2 else zv.1), ghashVStep zv.2))
    (List.replicate 16 0, h)
  zv.1

/-- GHASH.Update: xor each 16-byte chunk (a trailing chunk only over its
    actual bytes) into the state and multiply by `H`. -/
def ghashUpdateAux (h : List Nat) : Nat → List Nat → List Nat → List Nat
  | 0, y, _ => y
  | fuel + 1, y, data =>
      if data = [] then y
      else
        let chunk := data.take 16
        let y' := XORBytes (y.take chunk.length) chunk ++ y.drop chunk.length
        ghashUpdateAux h fuel (ghashMul h y') (data.drop 16)

/-- GHASH.Update with the iteration bound instantiated so it never binds:
    every pass consumes at least one byte. -/
def ghashUpdate (h y data : List Nat) : List Nat :=
  ghashUpdateAux h data.length y data

/-- GMAC from modes/internal/ghash.go: absorbs the (already padded) AAD and
    ciphertext, then the block of bit lengths, and xors the result with `j0`.
    `NewGHASH` copies `h` into a fixed 16-byte buffer. -/
def GMAC (h j0 aad ciphertext : List Nat) : List Nat :=
  let hC := copyInto (List.replicate 16 0) h
  let y0 : List Nat := List.replicate 16 0
  let y1 :=
    if 0 < aad.length then
      let ya := ghashUpdate hC y0 aad
      let padding := 16 - aad.length % 16
      if padding < 16 then ghashUpdate hC ya (List.replicate padding 0) else ya
    else y0
  let y2 :=
    if 0 < ciphertext.length then
      let yc := ghashUpdate hC y1 ciphertext
      let padding := 16 - ciphertext.length % 16
      if padding < 16 then ghashUpdate hC yc (List.replicate padding 0) else yc
    else y1
  let lengthBytes := putUint64BE ((aad.length * 8) % 18446744073709551616) ++
    putUint64BE ((ciphertext.length * 8) % 18446744073709551616)
  let y3 := ghashUpdate hC y2 lengthBytes
  XORBytes y3 j0
where
  /-- binary.BigEndian bytes of a 64-bit value, as written by GMAC. -/
  putUint64BE (v : Nat) : List Nat :=
    [(v >>> 56) % 256, (v >>> 48) % 256, (v >>> 40) % 256, (v >>> 32) % 256,
     (v >>> 24) % 256, (v >>> 16) % 256, (v >>> 8) % 256, v % 256]

/-- The GCM adapter of gcm.go: the cipher, the configured tag size and the
    hash subkey `H = E(0^128)` derived at construction. -/
structure GCM where
  cipher : BlockCipher
  tagSize : Nat
  h : List Nat

/-- NewGCMWithTagSize from gcm.go: tag sizes outside `[4, 16]` and block sizes
    other than 16 are rejected, then `H = E(0^128)` is computed. -/
def NewGCMWithTagSize (cipher : BlockCipher) (tagSize : Nat) : Option GCM :=
  if tagSize < 4 ∨ 16 < tagSize then none
  else if cipher.blockSize ≠ 16 then none
  else (cipher.encrypt (List.replicate 16 0)).map (fun h => ⟨cipher, tagSize, h⟩)

/-- NewGCM uses the default 16-byte tag. -/
def NewGCM (cipher : BlockCipher) : Option GCM := NewGCMWithTagSize cipher 16

/-- deriveJ0 from gcm.go: for a 12-byte nonce, `J0 = nonce ‖ 0x00000001`; any
    other length yields the nil slice. -/
def GCM.deriveJ0 (nonce : List Nat) : List Nat :=
  if nonce.length = 12 then (copyInto (List.replicate 16 0) nonce).set 15 1
  else []

/-- computeTag from gcm.go: zero-pads AAD and ciphertext to 16-byte multiples
    and feeds them to GMAC. -/
def GCM.computeTag (g : GCM) (j0 aad ciphertext : List Nat) : List Nat :=
  let paddedAAD :=
    if aad.length % 16 ≠ 0 then aad ++ List.replicate (16 - aad.length % 16) 0 else aad
  let paddedCiphertext :=
    if ciphertext.length % 16 ≠ 0 then
      ciphertext ++ List.replicate (16 - ciphertext.length % 16) 0
    else ciphertext
  GMAC g.h j0 paddedAAD paddedCiphertext

/-- Seal from gcm.go: a 12-byte nonce is required; the plaintext is encrypted
    with CTR starting at `inc(J0)` and the truncated tag is appended. -/
def GCM.Seal (g : GCM) (nonce plaintext additionalData : List Nat) : Option (List Nat) :=
  if nonce.length ≠ 12 then none
  else
    let j0 := GCM.deriveJ0 nonce
    let counter := Increment (copyInto (List.replicate 16 0) j0)
    do
      let ctrMode ← NewCTR g.cipher counter
      let ciphertext ← CTR.Encrypt ctrMode plaintext
      let tag := g.computeTag j0 additionalData ciphertext
      some (ciphertext ++ tag.take g.tagSize)

/-- Open from gcm.go: splits off the tag, recomputes it over the received
    ciphertext and AAD, and only on a match decrypts with the same CTR
    stream. -/
def GCM.Open (g : GCM) (nonce ciphertext additionalData : List Nat) : Option (List Nat) :=
  if nonce.length ≠ 12 then none
  else if ciphertext.length < g.tagSize then none
  else
    let tagStart := ciphertext.length - g.tagSize
    let actualCiphertext := ciphertext.take tagStart
    let tag := ciphertext.drop tagStart
    let j0 := GCM.deriveJ0 nonce
    let expectedTag := g.computeTag j0 additionalData actualCiphertext
    if expectedTag.take g.tagSize ≠ tag then none
    else
      let counter := Increment (copyInto (List.replicate 16 0) j0)
      do
        let ctrMode ← NewCTR g.cipher counter
        let plaintext ← CTR.Decrypt ctrMode actualCiphertext
        some plaintext

/-- A well-behaved 16-byte block cipher (the identity on blocks), used to
    instantiate theorems about the mode adapters at concrete inputs. -/
def idCipher16 : BlockCipher :=
  ⟨fun b => if b.length = 16 then some b else none,
   fun b => if b.length = 16 then some b else none, 16⟩

end modes

/-! ## SM4 block cipher (src/unnamed/part_017, package sm4)

The constant file sm4/internal (SBOX, FK, CK) is not part of the sources at
hand, so the embedding is parameterised by those tables; every theorem below
holds for arbitrary table contents with byte-valued S-box entries. -/

namespace sm4

/-- Modelled from the spec: the sm4/internal constants SBOX, FK and CK are
    missing from the sources, so they are carried as parameters. -/
structure Tables where
  sbox : List Nat
  fk : List Nat
  ck : List Nat

/-- The local rotateLeft of the sm4 package, on `uint32`. -/
def rotateLeft (x n : Nat) : Nat := ((x <<< n) % 4294967296) ||| (x >>> (32 - n))

/-- binary.BigEndian.Uint32 over four bytes. -/
def beUint32 (b0 b1 b2 b3 : Nat) : Nat :=
  ((b0 % 256) <<< 24) ||| ((b1 % 256) <<< 16) ||| ((b2 % 256) <<< 8) ||| (b3 % 256)

/-- binary.BigEndian.PutUint32. -/
def putUint32 (w : Nat) : List Nat :=
  [(w >>> 24) % 256, (w >>> 16) % 256, (w >>> 8) % 256, w % 256]

/-- The non-linear byte substitution τ shared by both transforms. -/
def tau (sbox : List Nat) (input : Nat) : Nat :=
  let a := sbox.getD ((input >>> 24) % 256) 0
  let b := sbox.getD ((input >>> 16) % 256) 0
  let c := sbox.getD ((input >>> 8) % 256) 0
  let d := sbox.getD (input % 256) 0
  (a <<< 24) ||| (b <<< 16) ||| (c <<< 8) ||| d

/-- feistelFunction of sm4: τ followed by the linear transform L. -/
def feistelFunction (sbox : List Nat) (input : Nat) : Nat :=
  let ret := tau sbox input
  ret ^^^ rotateLeft ret 2 ^^^ rotateLeft ret 10 ^^^ rotateLeft ret 18 ^^^ rotateLeft ret 24

/-- keyTransform of sm4: τ followed by the linear transform L'. -/
def keyTransform (sbox : List Nat) (input : Nat) : Nat :=
  let ret := tau sbox input
  ret ^^^ rotateLeft ret 13 ^^^ rotateLeft ret 23

/-- The extension loop of expandKey: appends `K[i+4]` while fuel lasts. -/
def expandAux (t : Tables) (K : List Nat) : Nat → List Nat
  | 0 => K
  | fuel + 1 =>
      let i := K.length - 4
      let next := K.getD i 0 ^^^
        keyTransform t.sbox (K.getD (i + 1) 0 ^^^ K.getD (i + 2) 0 ^^^ K.getD (i + 3) 0 ^^^
          t.ck.getD i 0)
      expandAux t (K ++ [next]) fuel

/-- expandKey of sm4: xor the key words with FK and run the 32 extension
    steps; the round keys are `K[4..36)`. -/
def expandKey (t : Tables) (key : List Nat) : List Nat :=
  let MK0 := beUint32 (key.getD 0 0) (key.getD 1 0) (key.getD 2 0) (key.getD 3 0)
  let MK1 := beUint32 (key.getD 4 0) (key.getD 5 0) (key.getD 6 0) (key.getD 7 0)
  let MK2 := beUint32 (key.getD 8 0) (key.getD 9 0) (key.getD 10 0) (key.getD 11 0)
  let MK3 := beUint32 (key.getD 12 0) (key.getD 13 0) (key.getD 14 0) (key.getD 15 0)
  let K0 := [MK0 ^^^ t.fk.getD 0 0, MK1 ^^^ t.fk.getD 1 0,
             MK2 ^^^ t.fk.getD 2 0, MK3 ^^^ t.fk.getD 3 0]
  (expandAux t K0 32).drop 4

/-- An SM4 instance holds its 32 round keys. -/
structure SM4 where
  roundKeys : List Nat

/-- New of sm4: only 16-byte keys are accepted. -/
def New (t : Tables) (key : List Nat) : Option SM4 :=
  if key.length ≠ 16 then none else some ⟨expandKey t key⟩

/-- One round of the sm4 cipher loop:
    `X0, X1, X2, X3 = X1, X2, X3, X0 ^ T(X1 ^ X2 ^ X3 ^ rk)`. -/
def round (sbox : List Nat) (s : Nat × Nat × Nat × Nat) (rk : Nat) : Nat × Nat × Nat × Nat :=
  (s.2.1, s.2.2.1, s.2.2.2,
   s.1 ^^^ feistelFunction sbox (s.2.1 ^^^ s.2.2.1 ^^^ s.2.2.2 ^^^ rk))

/-- The 32 encryption rounds as a fold over the round-key values. -/
def rounds (sbox : List Nat) (rks : List Nat) (s : Nat × Nat × Nat × Nat) :
    Nat × Nat × Nat × Nat :=
  rks.foldl (round sbox) s

/-- The round-key values `roundKeys[0..32)` that the Go loop indexes. -/
def rkSeq (s : SM4) : List Nat := (List.range 32).map (fun i => s.roundKeys.getD i 0)

/-- Encrypt of sm4: 32 rounds, then the final four words written back in
    reverse order, big-endian. -/
def Encrypt (t : Tables) (s : SM4) (plaintext : List Nat) : Option (List Nat) :=
  if plaintext.length ≠ 16 then none
  else
    let X0 := beUint32 (plaintext.getD 0 0) (plaintext.getD 1 0) (plaintext.getD 2 0)
      (plaintext.getD 3 0)
    let X1 := beUint32 (plaintext.getD 4 0) (plaintext.getD 5 0) (plaintext.getD 6 0)
      (plaintext.getD 7 0)
    let X2 := beUint32 (plaintext.getD 8 0) (plaintext.getD 9 0) (plaintext.getD 10 0)
      (plaintext.getD 11 0)
    let X3 := beUint32 (plaintext.getD 12 0) (plaintext.getD 13 0) (plaintext.getD 14 0)
      (plaintext.getD 15 0)
    let f := rounds t.sbox (rkSeq s) (X0, X1, X2, X3)
    some (putUint32 f.2.2.2 ++ putUint32 f.2.2.1 ++ putUint32 f.2.1 ++ putUint32 f.1)

/-- Decrypt of sm4: the same loop with the round keys in reverse order. -/
def Decrypt (t : Tables) (s : SM4) (ciphertext : List Nat) : Option (List Nat) :=
  if ciphertext.length ≠ 16 then none
  else
    let X0 := beUint32 (ciphertext.getD 0 0) (ciphertext.getD 1 0) (ciphertext.getD 2 0)
      (ciphertext.getD 3 0)
    let X1 := beUint32 (ciphertext.getD 4 0) (ciphertext.getD 5 0) (ciphertext.getD 6 0)
      (ciphertext.getD 7 0)
    let X2 := beUint32 (ciphertext.getD 8 0) (ciphertext.getD 9 0) (ciphertext.getD 10 0)
      (ciphertext.getD 11 0)
    let X3 := beUint32 (ciphertext.getD 12 0) (ciphertext.getD 13 0) (ciphertext.getD 14 0)
      (ciphertext.getD 15 0)
    let f := rounds t.sbox (rkSeq s).reverse (X0, X1, X2, X3)
    some (putUint32 f.2.2.2 ++ putUint32 f.2.2.1 ++ putUint32 f.2.1 ++ putUint32 f.1)

end sm4

/-! ## RC5 block cipher (rc5/rc5.go), 32-bit words -/

namespace rc5

/-- A Go `bits.RotateLeft32` by a negative amount `-n` is a right rotation. -/
def rotr32 (x n : Nat) : Nat := rotl32 x ((32 - n % 32) % 32)

/-- Go `uint32` subtraction. -/
def sub32 (a b : Nat) : Nat := (a + 4294967296 - b % 4294967296) % 4294967296

/-- binary.LittleEndian.Uint32. -/
def leUint32 (b0 b1 b2 b3 : Nat) : Nat :=
  (b0 % 256) ||| ((b1 % 256) <<< 8) ||| ((b2 % 256) <<< 16) ||| ((b3 % 256) <<< 24)

/-- binary.LittleEndian.PutUint32. -/
def lePutUint32 (w : Nat) : List Nat :=
  [w % 256, (w >>> 8) % 256, (w >>> 16) % 256, (w >>> 24) % 256]

/-- An RC5 instance: rounds and the expanded sub-key words. -/
structure RC5 where
  rounds : Nat
  subKeys : List Nat

/-- The initial sub-key array `S[0] = P`, `S[i] = S[i-1] + Q`. -/
def initSubKeys : Nat → List Nat
  | 0 => []
  | n + 1 => seed n 0xB7E15163
where
  /-- Builds `count` further entries starting from the current value. -/
  seed : Nat → Nat → List Nat
  | 0, cur => [cur]
  | n + 1, cur => cur :: seed n (add32 cur 0x9E3779B9)

/-- The key bytes packed little-endian into `ceil(b/4)` words, as the Go loop
    `c[i/4] |= key[i] << ((i%4)*8)` produces. -/
def keyWords (key : List Nat) : List Nat :=
  (List.range ((key.length + 3) / 4)).map (fun idx =>
    (List.range 4).foldl (fun acc j =>
      if idx * 4 + j < key.length then
        acc ||| ((key.getD (idx * 4 + j) 0 % 256) <<< (j * 8))
      else acc) 0)

/-- One step of the mixing loop of expandKey. -/
def mixStep (st : List Nat × List Nat × Nat × Nat × Nat × Nat) :
    List Nat × List Nat × Nat × Nat × Nat × Nat :=
  let (S, c, a, b, i, j) := st
  let a' := add32 (add32 (S.getD i 0) a) b
  let S' := S.set i (rotl32 a' 3)
  let i' := (i + 1) % S.length
  let b' := add32 (add32 (c.getD j 0) a') b
  let c' := c.set j (rotl32 b' (add32 a' b' % 32))
  let j' := (j + 1) % c.length
  (S', c', a', b', i', j')

/-- Iterated mixing. -/
def mixLoop : Nat → (List Nat × List Nat × Nat × Nat × Nat × Nat) →
    List Nat × List Nat × Nat × Nat × Nat × Nat
  | 0, st => st
  | n + 1, st => mixLoop n (mixStep st)

/-- expandKey of rc5.go: seed the sub-keys from P and Q, pack the key into
    words, and run `3 * max(|S|, |c|)` mixing steps. -/
def expandKey (rounds : Nat) (key : List Nat) : List Nat :=
  let S := initSubKeys (2 * (rounds + 1))
  let c := keyWords key
  let steps := 3 * max S.length c.length
  (mixLoop steps (S, c, 0, 0, 0, 0)).1

/-- NewWithParams of rc5.go for 32-bit words: validates the key length and
    round count and expands the key. -/
def NewWithParams (key : List Nat) (rounds wordSize : Nat) : Option RC5 :=
  if key.length < 1 ∨ 255 < key.length then none
  else if rounds < 1 ∨ 255 < rounds then none
  else if wordSize ≠ 32 then none
  else some ⟨rounds, expandKey rounds key⟩

/-- The encryption round loop for `i = 1..rounds`. -/
def encLoop (S : List Nat) (rounds : Nat) (AB : Nat × Nat) : Nat × Nat :=
  (List.range' 1 rounds).foldl (fun AB i =>
    let A := add32 (rotl32 (AB.1 ^^^ AB.2) (AB.2 % 32)) (S.getD (2 * i) 0)
    let B := add32 (rotl32 (AB.2 ^^^ A) (A % 32)) (S.getD (2 * i + 1) 0)
    (A, B)) AB

/-- Encrypt of rc5.go. -/
def Encrypt (r : RC5) (block : List Nat) : Option (List Nat) :=
  if block.length ≠ 8 then none
  else
    let A := leUint32 (block.getD 0 0) (block.getD 1 0) (block.getD 2 0) (block.getD 3 0)
    let B := leUint32 (block.getD 4 0) (block.getD 5 0) (block.getD 6 0) (block.getD 7 0)
    let A := add32 A (r.subKeys.getD 0 0)
    let B := add32 B (r.subKeys.getD 1 0)
    let f := encLoop r.subKeys r.rounds (A, B)
    some (lePutUint32 f.1 ++ lePutUint32 f.2)

/-- The decryption round loop for `i = rounds..1`. -/
def decLoop (S : List Nat) (rounds : Nat) (AB : Nat × Nat) : Nat × Nat :=
  ((List.range' 1 rounds).reverse).foldl (fun AB i =>
    let B := rotr32 (sub32 AB.2 (S.getD (2 * i + 1) 0)) (AB.1 % 32) ^^^ AB.1
    let A := rotr32 (sub32 AB.1 (S.getD (2 * i) 0)) (B % 32) ^^^ B
    (A, B)) AB

/-- Decrypt of rc5.go. -/
def Decrypt (r : RC5) (block : List Nat) : Option (List Nat) :=
  if block.length ≠ 8 then none
  else
    let A := leUint32 (block.getD 0 0) (block.getD 1 0) (block.getD 2 0) (block.getD 3 0)
    let B := leUint32 (block.getD 4 0) (block.getD 5 0) (block.getD 6 0) (block.getD 7 0)
    let f := decLoop r.subKeys r.rounds (A, B)
    let B := sub32 f.2 (r.subKeys.getD 1 0)
    let A := sub32 f.1 (r.subKeys.getD 0 0)
    some (lePutUint32 A ++ lePutUint32 B)

end rc5

/-! ## Blowfish block cipher (blowfish/blowfish.go)

The π-derived seed constants of blowfish/internal are not part of the sources
at hand; the box state is therefore carried as explicit data and the theorems
hold for every box state, in particular for the one `New` builds from the
missing constants. -/

namespace blowfish

/-- The mutable state of a Blowfish instance: the 18 P-words and the four
    256-entry S-boxes. -/
structure Boxes where
  p : List Nat
  s0 : List Nat
  s1 : List Nat
  s2 : List Nat
  s3 : List Nat

/-- The F function of blowfish.go: `((S0[a] + S1[b]) ^ S2[c]) + S3[d]` on the
    four bytes of `x`, with `uint32` addition. -/
def feistel (b : Boxes) (x : Nat) : Nat :=
  let a := (x >>> 24) &&& 255
  let b1 := (x >>> 16) &&& 255
  let c := (x >>> 8) &&& 255
  let d := x &&& 255
  add32 ((add32 (b.s0.getD a 0) (b.s1.getD b1 0)) ^^^ b.s2.getD c 0) (b.s3.getD d 0)

/-- One Feistel round of encryptBlock: `left ^= p; right ^= F(left); swap`. -/
def encRound (b : Boxes) (lr : Nat × Nat) (p : Nat) : Nat × Nat :=
  let left := lr.1 ^^^ p
  let right := lr.2 ^^^ feistel b left
  (right, left)

/-- The P-words `p[0..15]` that the encryption loop reads. -/
def encKeys (b : Boxes) : List Nat :=
  [b.p.getD 0 0, b.p.getD 1 0, b.p.getD 2 0, b.p.getD 3 0,
   b.p.getD 4 0, b.p.getD 5 0, b.p.getD 6 0, b.p.getD 7 0,
   b.p.getD 8 0, b.p.getD 9 0, b.p.getD 10 0, b.p.getD 11 0,
   b.p.getD 12 0, b.p.getD 13 0, b.p.getD 14 0, b.p.getD 15 0]

/-- The P-words `p[17..2]` that the decryption loop reads. -/
def decKeys (b : Boxes) : List Nat :=
  [b.p.getD 17 0, b.p.getD 16 0, b.p.getD 15 0, b.p.getD 14 0,
   b.p.getD 13 0, b.p.getD 12 0, b.p.getD 11 0, b.p.getD 10 0,
   b.p.getD 9 0, b.p.getD 8 0, b.p.getD 7 0, b.p.getD 6 0,
   b.p.getD 5 0, b.p.getD 4 0, b.p.getD 3 0, b.p.getD 2 0]

/-- encryptBlock of blowfish.go: sixteen rounds with `p[0..15]`, an extra
    swap, and the final whitening with `p[16]`, `p[17]`. -/
def encryptBlock (b : Boxes) (lr : Nat × Nat) : Nat × Nat :=
  let f := (encKeys b).foldl (encRound b) lr
  let f := (f.2, f.1)
  (f.1 ^^^ b.p.getD 17 0, f.2 ^^^ b.p.getD 16 0)

/-- decryptBlock of blowfish.go: sixteen rounds with `p[17..2]`, the swap, and
    the final whitening with `p[1]`, `p[0]`. -/
def decryptBlock (b : Boxes) (lr : Nat × Nat) : Nat × Nat :=
  let f := (decKeys b).foldl (encRound b) lr
  let f := (f.2, f.1)
  (f.1 ^^^ b.p.getD 0 0, f.2 ^^^ b.p.getD 1 0)

/-- binary.BigEndian.Uint32, as used by Encrypt and Decrypt. -/
def beUint32 (b0 b1 b2 b3 : Nat) : Nat :=
  ((b0 % 256) <<< 24) ||| ((b1 % 256) <<< 16) ||| ((b2 % 256) <<< 8) ||| (b3 % 256)

/-- binary.BigEndian.PutUint32. -/
def putUint32 (w : Nat) : List Nat :=
  [(w >>> 24) % 256, (w >>> 16) % 256, (w >>> 8) % 256, w % 256]

/-- Encrypt of blowfish.go. -/
def Encrypt (b : Boxes) (block : List Nat) : Option (List Nat) :=
  if block.length ≠ 8 then none
  else
    let left := beUint32 (block.getD 0 0) (block.getD 1 0) (block.getD 2 0) (block.getD 3 0)
    let right := beUint32 (block.getD 4 0) (block.getD 5 0) (block.getD 6 0) (block.getD 7 0)
    let f := encryptBlock b (left, right)
    some (putUint32 f.1 ++ putUint32 f.2)

/-- Decrypt of blowfish.go. -/
def Decrypt (b : Boxes) (block : List Nat) : Option (List Nat) :=
  if block.length ≠ 8 then none
  else
    let left := beUint32 (block.getD 0 0) (block.getD 1 0) (block.getD 2 0) (block.getD 3 0)
    let right := beUint32 (block.getD 4 0) (block.getD 5 0) (block.getD 6 0) (block.getD 7 0)
    let f := decryptBlock b (left, right)
    some (putUint32 f.1 ++ putUint32 f.2)

end blowfish

/-! ## Twofish block cipher (src/unnamed/part_001, package twofish)

The simplified key schedule of the source is self-contained, so the embedding
is fully concrete. -/

namespace twofish

/-- A Twofish instance: 40 round-key words and four 256-byte S-boxes. -/
structure Twofish where
  k : List Nat
  s0 : List Nat
  s1 : List Nat
  s2 : List Nat
  s3 : List Nat

/-- The simplified S-box derivation of expandKey:
    `s[i][j] = byte((j*i + key[j mod len]) mod 256)`. -/
def sboxOf (key : List Nat) (i : Nat) : List Nat :=
  (List.range 256).map (fun j => (j * i + key.getD (j % key.length) 0 % 256) % 256)

/-- The simplified round keys of expandKey:
    `k[i] = i * 0x01010101` xored with every key byte shifted into its lane. -/
def roundKeyOf (key : List Nat) (i : Nat) : Nat :=
  (List.range key.length).foldl (fun acc j =>
    acc ^^^ (((key.getD j 0 % 256) <<< ((j % 4) * 8)) % 4294967296))
    ((i * 0x01010101) % 4294967296)

/-- expandKey of the twofish source. -/
def expandKey (key : List Nat) : Twofish :=
  ⟨(List.range 40).map (roundKeyOf key),
   sboxOf key 0, sboxOf key 1, sboxOf key 2, sboxOf key 3⟩

/-- New of the twofish source: 16-, 24- or 32-byte keys. -/
def New (key : List Nat) : Option Twofish :=
  if key.length ≠ 16 ∧ key.length ≠ 24 ∧ key.length ≠ 32 then none
  else some (expandKey key)

/-- g0 of the twofish source. -/
def g0 (t : Twofish) (x : Nat) : Nat :=
  t.s0.getD (x % 256) 0 ^^^ t.s1.getD ((x >>> 8) % 256) 0 ^^^
  t.s2.getD ((x >>> 16) % 256) 0 ^^^ t.s3.getD ((x >>> 24) % 256) 0

/-- g1 of the twofish source (byte lanes rotated). -/
def g1 (t : Twofish) (x : Nat) : Nat :=
  t.s0.getD ((x >>> 8) % 256) 0 ^^^ t.s1.getD ((x >>> 16) % 256) 0 ^^^
  t.s2.getD ((x >>> 24) % 256) 0 ^^^ t.s3.getD (x % 256) 0

/-- Go `(w >> 1) | (w << 31)` on `uint32`: rotate right by one. -/
def ror1 (w : Nat) : Nat := (w >>> 1) ||| ((w <<< 31) % 4294967296)

/-- Go `(w << 1) | (w >> 31)` on `uint32`: rotate left by one. -/
def rol1 (w : Nat) : Nat := ((w <<< 1) % 4294967296) ||| (w >>> 31)

/-- One double round of Encrypt (rounds `r` and `r+1`), using
    `k[kk .. kk+3]`. -/
def encPair (t : Twofish) (w : Nat × Nat × Nat × Nat) (kk : Nat) : Nat × Nat × Nat × Nat :=
  let (w0, w1, w2, w3) := w
  let t0 := g0 t w0
  let t1 := g1 t w1
  let w2 := ror1 (w2 ^^^ add32 (add32 t0 t1) (t.k.getD kk 0))
  let w3 := rol1 w3 ^^^ add32 (add32 t0 (2 * t1)) (t.k.getD (kk + 1) 0)
  let t0 := g0 t w2
  let t1 := g1 t w3
  let w0 := ror1 (w0 ^^^ add32 (add32 t0 t1) (t.k.getD (kk + 2) 0))
  let w1 := rol1 w1 ^^^ add32 (add32 t0 (2 * t1)) (t.k.getD (kk + 3) 0)
  (w0, w1, w2, w3)

/-- One double round of Decrypt, inverting `encPair` for the same `kk`. -/
def decPair (t : Twofish) (w : Nat × Nat × Nat × Nat) (kk : Nat) : Nat × Nat × Nat × Nat :=
  let (w0, w1, w2, w3) := w
  let t0 := g0 t w2
  let t1 := g1 t w3
  let w1 := ror1 (w1 ^^^ add32 (add32 t0 (2 * t1)) (t.k.getD (kk + 3) 0))
  let w0 := rol1 w0 ^^^ add32 (add32 t0 t1) (t.k.getD (kk + 2) 0)
  let t0 := g0 t w0
  let t1 := g1 t w1
  let w3 := ror1 (w3 ^^^ add32 (add32 t0 (2 * t1)) (t.k.getD (kk + 1) 0))
  let w2 := rol1 w2 ^^^ add32 (add32 t0 t1) (t.k.getD kk 0)
  (w0, w1, w2, w3)

/-- bytesToUint32 of the twofish source (big-endian). -/
def beUint32 (b0 b1 b2 b3 : Nat) : Nat :=
  ((b0 % 256) <<< 24) ||| ((b1 % 256) <<< 16) ||| ((b2 % 256) <<< 8) ||| (b3 % 256)

/-- uint32ToBytes of the twofish source. -/
def putUint32 (w : Nat) : List Nat :=
  [(w >>> 24) % 256, (w >>> 16) % 256, (w >>> 8) % 256, w % 256]

/-- The `k` offsets `8, 12, ..., 36` of the eight encryption double rounds. -/
def encOffsets : List Nat := [8, 12, 16, 20, 24, 28, 32, 36]

/-- Encrypt of the twofish source: input whitening with `k[0..3]`, sixteen
    rounds, output whitening with `k[4..7]`, and the swapped word order on
    output. -/
def Encrypt (t : Twofish) (block : List Nat) : Option (List Nat) :=
  if block.length ≠ 16 then none
  else
    let w0 := beUint32 (block.getD 0 0) (block.getD 1 0) (block.getD 2 0) (block.getD 3 0) ^^^
      t.k.getD 0 0
    let w1 := beUint32 (block.getD 4 0) (block.getD 5 0) (block.getD 6 0) (block.getD 7 0) ^^^
      t.k.getD 1 0
    let w2 := beUint32 (block.getD 8 0) (block.getD 9 0) (block.getD 10 0) (block.getD 11 0) ^^^
      t.k.getD 2 0
    let w3 := beUint32 (block.getD 12 0) (block.getD 13 0) (block.getD 14 0) (block.getD 15 0) ^^^
      t.k.getD 3 0
    let f := encOffsets.foldl (encPair t) (w0, w1, w2, w3)
    let w2 := f.2.2.1 ^^^ t.k.getD 4 0
    let w3 := f.2.2.2 ^^^ t.k.getD 5 0
    let w0 := f.1 ^^^ t.k.getD 6 0
    let w1 := f.2.1 ^^^ t.k.getD 7 0
    some (putUint32 w2 ++ putUint32 w3 ++ putUint32 w0 ++ putUint32 w1)

/-- Decrypt of the twofish source: reads the swapped word order, removes the
    output whitening, runs the rounds backwards, removes the input
    whitening. -/
def Decrypt (t : Twofish) (block : List Nat) : Option (List Nat) :=
  if block.length ≠ 16 then none
  else
    let w2 := beUint32 (block.getD 0 0) (block.getD 1 0) (block.getD 2 0) (block.getD 3 0) ^^^
      t.k.getD 4 0
    let w3 := beUint32 (block.getD 4 0) (block.getD 5 0) (block.getD 6 0) (block.getD 7 0) ^^^
      t.k.getD 5 0
    let w0 := beUint32 (block.getD 8 0) (block.getD 9 0) (block.getD 10 0) (block.getD 11 0) ^^^
      t.k.getD 6 0
    let w1 := beUint32 (block.getD 12 0) (block.getD 13 0) (block.getD 14 0) (block.getD 15 0) ^^^
      t.k.getD 7 0
    let f := encOffsets.reverse.foldl (decPair t) (w0, w1, w2, w3)
    let w0 := f.1 ^^^ t.k.getD 0 0
    let w1 := f.2.1 ^^^ t.k.getD 1 0
    let w2 := f.2.2.1 ^^^ t.k.getD 2 0
    let w3 := f.2.2.2 ^^^ t.k.getD 3 0
    some (putUint32 w0 ++ putUint32 w1 ++ putUint32 w2 ++ putUint32 w3)

end twofish

/-! ## DES block cipher (src/unnamed/part_012, package des)

The table file des/internal is not part of the sources at hand.  The initial
and final permutations, on which the round trip depends, are modelled from the
spec as the published DES tables (the spec names them IP and FP = IP⁻¹); the
expansion, P-box, S-box and PC tables only feed the round function and the key
schedule and are carried as parameters. -/

namespace des

/-- Modelled from the spec: the standard DES initial permutation IP
    (des/internal is missing from the sources). -/
def IPtable : List Nat :=
  [58, 50, 42, 34, 26, 18, 10, 2, 60, 52, 44, 36, 28, 20, 12, 4,
   62, 54, 46, 38, 30, 22, 14, 6, 64, 56, 48, 40, 32, 24, 16, 8,
   57, 49, 41, 33, 25, 17, 9, 1, 59, 51, 43, 35, 27, 19, 11, 3,
   61, 53, 45, 37, 29, 21, 13, 5, 63, 55, 47, 39, 31, 23, 15, 7]

/-- Modelled from the spec: the standard DES final permutation FP = IP⁻¹. -/
def FPtable : List Nat :=
  [40, 8, 48, 16, 56, 24, 64, 32, 39, 7, 47, 15, 55, 23, 63, 31,
   38, 6, 46, 14, 54, 22, 62, 30, 37, 5, 45, 13, 53, 21, 61, 29,
   36, 4, 44, 12, 52, 20, 60, 28, 35, 3, 43, 11, 51, 19, 59, 27,
   34, 2, 42, 10, 50, 18, 58, 26, 33, 1, 41, 9, 49, 17, 57, 25]

/-- Modelled from the spec: the remaining des/internal tables (E, P, the eight
    S-boxes, PC-1, PC-2), carried as parameters. -/
structure Tables where
  e : List Nat
  p : List Nat
  sboxes : List (List Nat)
  pc1 : List Nat
  pc2 : List Nat

/-- The common shape of every bit-selection loop in des.go: for each `i` below
    `width`, bit `inBase - (tbl[i]-1)` of the input (the Go `getBit`
    convention) is placed at output position `width-1-i`. -/
def permute (tbl : List Nat) (width inBase : Nat) (input : Nat) : Nat :=
  (List.range width).foldl (fun out i =>
    if (input >>> (inBase - (tbl.getD i 0 - 1))) &&& 1 = 1 then
      out ||| (1 <<< (width - 1 - i))
    else out) 0

/-- initialPermutation of des.go. -/
def initialPermutation (input : Nat) : Nat := permute IPtable 64 63 input

/-- finalPermutation of des.go. -/
def finalPermutation (input : Nat) : Nat := permute FPtable 64 63 input

/-- feistelFunction of des.go: E-expansion, key mixing, eight S-box lookups,
    P-box.  S-box entries pass through the Go `byte` type, hence `% 256`. -/
def feistelFunction (t : Tables) (r key : Nat) : Nat :=
  let expanded := permute t.e 48 31 r
  let s := expanded ^^^ key
  let output := (List.range 8).foldl (fun out i =>
    let b := (s >>> (42 - i * 6)) &&& 63
    let row := ((b &&& 32) >>> 4) ||| (b &&& 1)
    let col := (b >>> 1) &&& 15
    (out <<< 4) ||| ((t.sboxes.getD i []).getD (row * 16 + col) 0 % 256)) 0
  permute t.p 32 31 output

/-- binary.BigEndian.Uint64 of an 8-byte block. -/
def beUint64 (bs : List Nat) : Nat :=
  ((bs.getD 0 0 % 256) <<< 56) ||| ((bs.getD 1 0 % 256) <<< 48) |||
  ((bs.getD 2 0 % 256) <<< 40) ||| ((bs.getD 3 0 % 256) <<< 32) |||
  ((bs.getD 4 0 % 256) <<< 24) ||| ((bs.getD 5 0 % 256) <<< 16) |||
  ((bs.getD 6 0 % 256) <<< 8) ||| (bs.getD 7 0 % 256)

/-- binary.BigEndian.PutUint64. -/
def putUint64 (v : Nat) : List Nat :=
  [(v >>> 56) % 256, (v >>> 48) % 256, (v >>> 40) % 256, (v >>> 32) % 256,
   (v >>> 24) % 256, (v >>> 16) % 256, (v >>> 8) % 256, v % 256]

/-- One step of generateRoundKeys: rotate both 28-bit halves and emit the
    PC-2 image of their concatenation. -/
def keyStep (t : Tables) (lr : Nat × Nat) (round : Nat) : (Nat × Nat) × Nat :=
  let shifts := if round = 0 ∨ round = 1 ∨ round = 8 ∨ round = 15 then 1 else 2
  let left := ((lr.1 <<< shifts) ||| (lr.1 >>> (28 - shifts))) &&& 0x0FFFFFFF
  let right := ((lr.2 <<< shifts) ||| (lr.2 >>> (28 - shifts))) &&& 0x0FFFFFFF
  let combined := (left <<< 28) ||| right
  ((left, right), permute t.pc2 48 63 combined)

/-- generateRoundKeys of des.go: PC-1, split into 28-bit halves, sixteen
    rotate-and-PC-2 steps. -/
def generateRoundKeys (t : Tables) (key : List Nat) : List Nat :=
  let k := beUint64 key
  let k56 := permute t.pc1 56 63 k
  let left := (k56 >>> 28) &&& 0x0FFFFFFF
  let right := k56 &&& 0x0FFFFFFF
  ((List.range 16).foldl (fun (acc : (Nat × Nat) × List Nat) round =>
    let s := keyStep t acc.1 round
    (s.1, acc.2 ++ [s.2])) ((left, right), [])).2

/-- A DES instance holds its sixteen 48-bit round keys. -/
structure DES where
  roundKeys : List Nat

/-- New of des.go: exactly 8 key bytes. -/
def New (t : Tables) (key : List Nat) : Option DES :=
  if key.length ≠ 8 then none else some ⟨generateRoundKeys t key⟩

/-- One Feistel round: `left, right = right, left ^ F(right, key)`. -/
def round (F : Nat → Nat → Nat) (lr : Nat × Nat) (k : Nat) : Nat × Nat :=
  (lr.2, lr.1 ^^^ F lr.2 k)

/-- The sixteen round-key values `roundKeys[0..15]` the encryption loop
    indexes. -/
def keySeq (d : DES) : List Nat := (List.range 16).map (fun i => d.roundKeys.getD i 0)

/-- Encrypt of des.go: IP, sixteen rounds, the half swap, FP. -/
def Encrypt (t : Tables) (d : DES) (block : List Nat) : Option (List Nat) :=
  if block.length ≠ 8 then none
  else
    let input := beUint64 block
    let state := initialPermutation input
    let lr := ((state >>> 32) % 4294967296, state % 4294967296)
    let f := (keySeq d).foldl (round (feistelFunction t)) lr
    let state := (f.2 <<< 32) ||| f.1
    some (putUint64 (finalPermutation state))

/-- Decrypt of des.go: the same pipeline with round keys in reverse order. -/
def Decrypt (t : Tables) (d : DES) (block : List Nat) : Option (List Nat) :=
  if block.length ≠ 8 then none
  else
    let input := beUint64 block
    let state := initialPermutation input
    let lr := ((state >>> 32) % 4294967296, state % 4294967296)
    let f := ((keySeq d).reverse).foldl (round (feistelFunction t)) lr
    let state := (f.2 <<< 32) ||| f.1
    some (putUint64 (finalPermutation state))

end des

/-! ## AES block cipher (aes/aes.go)

The table file aes/internal is missing from the sources; the S-boxes are
modelled from the spec as the FIPS-197 tables, and the `MUL_k` multiplication
tables as multiplication by `k` in GF(2^8) (which is what the spec says the
precomputed tables hold). -/

namespace aes

/-- Modelled from the spec: the FIPS-197 S-box of aes/internal (the table file is missing from the sources). -/
def SBOX : List Nat :=
  [0x63, 0x7C, 0x77, 0x7B, 0xF2, 0x6B, 0x6F, 0xC5, 0x30, 0x01, 0x67, 0x2B,
   0xFE, 0xD7, 0xAB, 0x76, 0xCA, 0x82, 0xC9, 0x7D, 0xFA, 0x59, 0x47, 0xF0,
   0xAD, 0xD4, 0xA2, 0xAF, 0x9C, 0xA4, 0x72, 0xC0, 0xB7, 0xFD, 0x93, 0x26,
   0x36, 0x3F, 0xF7, 0xCC, 0x34, 0xA5, 0xE5, 0xF1, 0x71, 0xD8, 0x31, 0x15,
   0x04, 0xC7, 0x23, 0xC3, 0x18, 0x96, 0x05, 0x9A, 0x07, 0x12, 0x80, 0xE2,
   0xEB, 0x27, 0xB2, 0x75, 0x09, 0x83, 0x2C, 0x1A, 0x1B, 0x6E, 0x5A, 0xA0,
   0x52, 0x3B, 0xD6, 0xB3, 0x29, 0xE3, 0x2F, 0x84, 0x53, 0xD1, 0x00, 0xED,
   0x20, 0xFC, 0xB1, 0x5B, 0x6A, 0xCB, 0xBE, 0x39, 0x4A, 0x4C, 0x58, 0xCF,
   0xD0, 0xEF, 0xAA, 0xFB, 0x43, 0x4D, 0x33, 0x85, 0x45, 0xF9, 0x02, 0x7F,
   0x50, 0x3C, 0x9F, 0xA8, 0x51, 0xA3, 0x40, 0x8F, 0x92, 0x9D, 0x38, 0xF5,
   0xBC, 0xB6, 0xDA, 0x21, 0x10, 0xFF, 0xF3, 0xD2, 0xCD, 0x0C, 0x13, 0xEC,
   0x5F, 0x97, 0x44, 0x17, 0xC4, 0xA7, 0x7E, 0x3D, 0x64, 0x5D, 0x19, 0x73,
   0x60, 0x81, 0x4F, 0xDC, 0x22, 0x2A, 0x90, 0x88, 0x46, 0xEE, 0xB8, 0x14,
   0xDE, 0x5E, 0x0B, 0xDB, 0xE0, 0x32, 0x3A, 0x0A, 0x49, 0x06, 0x24, 0x5C,
   0xC2, 0xD3, 0xAC, 0x62, 0x91, 0x95, 0xE4, 0x79, 0xE7, 0xC8, 0x37, 0x6D,
   0x8D, 0xD5, 0x4E, 0xA9, 0x6C, 0x56, 0xF4, 0xEA, 0x65, 0x7A, 0xAE, 0x08,
   0xBA, 0x78, 0x25, 0x2E, 0x1C, 0xA6, 0xB4, 0xC6, 0xE8, 0xDD, 0x74, 0x1F,
   0x4B, 0xBD, 0x8B, 0x8A, 0x70, 0x3E, 0xB5, 0x66, 0x48, 0x03, 0xF6, 0x0E,
   0x61, 0x35, 0x57, 0xB9, 0x86, 0xC1, 0x1D, 0x9E, 0xE1, 0xF8, 0x98, 0x11,
   0x69, 0xD9, 0x8E, 0x94, 0x9B, 0x1E, 0x87, 0xE9, 0xCE, 0x55, 0x28, 0xDF,
   0x8C, 0xA1, 0x89, 0x0D, 0xBF, 0xE6, 0x42, 0x68, 0x41, 0x99, 0x2D, 0x0F,
   0xB0, 0x54, 0xBB, 0x16]

/-- Modelled from the spec: the inverse FIPS-197 S-box of aes/internal. -/
def InvSBOX : List Nat :=
  [0x52, 0x09, 0x6A, 0xD5, 0x30, 0x36, 0xA5, 0x38, 0xBF, 0x40, 0xA3, 0x9E,
   0x81, 0xF3, 0xD7, 0xFB, 0x7C, 0xE3, 0x39, 0x82, 0x9B, 0x2F, 0xFF, 0x87,
   0x34, 0x8E, 0x43, 0x44, 0xC4, 0xDE, 0xE9, 0xCB, 0x54, 0x7B, 0x94, 0x32,
   0xA6, 0xC2, 0x23, 0x3D, 0xEE, 0x4C, 0x95, 0x0B, 0x42, 0xFA, 0xC3, 0x4E,
   0x08, 0x2E, 0xA1, 0x66, 0x28, 0xD9, 0x24, 0xB2, 0x76, 0x5B, 0xA2, 0x49,
   0x6D, 0x8B, 0xD1, 0x25, 0x72, 0xF8, 0xF6, 0x64, 0x86, 0x68, 0x98, 0x16,
   0xD4, 0xA4, 0x5C, 0xCC, 0x5D, 0x65, 0xB6, 0x92, 0x6C, 0x70, 0x48, 0x50,
   0xFD, 0xED, 0xB9, 0xDA, 0x5E, 0x15, 0x46, 0x57, 0xA7, 0x8D, 0x9D, 0x84,
   0x90, 0xD8, 0xAB, 0x00, 0x8C, 0xBC, 0xD3, 0x0A, 0xF7, 0xE4, 0x58, 0x05,
   0xB8, 0xB3, 0x45, 0x06, 0xD0, 0x2C, 0x1E, 0x8F, 0xCA, 0x3F, 0x0F, 0x02,
   0xC1, 0xAF, 0xBD, 0x03, 0x01, 0x13, 0x8A, 0x6B, 0x3A, 0x91, 0x11, 0x41,
   0x4F, 0x67, 0xDC, 0xEA, 0x97, 0xF2, 0xCF, 0xCE, 0xF0, 0xB4, 0xE6, 0x73,
   0x96, 0xAC, 0x74, 0x22, 0xE7, 0xAD, 0x35, 0x85, 0xE2, 0xF9, 0x37, 0xE8,
   0x1C, 0x75, 0xDF, 0x6E, 0x47, 0xF1, 0x1A, 0x71, 0x1D, 0x29, 0xC5, 0x89,
   0x6F, 0xB7, 0x62, 0x0E, 0xAA, 0x18, 0xBE, 0x1B, 0xFC, 0x56, 0x3E, 0x4B,
   0xC6, 0xD2, 0x79, 0x20, 0x9A, 0xDB, 0xC0, 0xFE, 0x78, 0xCD, 0x5A, 0xF4,
   0x1F, 0xDD, 0xA8, 0x33, 0x88, 0x07, 0xC7, 0x31, 0xB1, 0x12, 0x10, 0x59,
   0x27, 0x80, 0xEC, 0x5F, 0x60, 0x51, 0x7F, 0xA9, 0x19, 0xB5, 0x4A, 0x0D,
   0x2D, 0xE5, 0x7A, 0x9F, 0x93, 0xC9, 0x9C, 0xEF, 0xA0, 0xE0, 0x3B, 0x4D,
   0xAE, 0x2A, 0xF5, 0xB0, 0xC8, 0xEB, 0xBB, 0x3C, 0x83, 0x53, 0x99, 0x61,
   0x17, 0x2B, 0x04, 0x7E, 0xBA, 0x77, 0xD6, 0x26, 0xE1, 0x69, 0x14, 0x63,
   0x55, 0x21, 0x0C, 0x7D]

/-- Lookup in the S-box with the Go byte index. -/
def sbox (b : Nat) : Nat := SBOX.getD (b % 256) 0

/-- Lookup in the inverse S-box. -/
def invSbox (b : Nat) : Nat := InvSBOX.getD (b % 256) 0

/-- Multiplication by `x` in GF(2^8) modulo `x^8 + x^4 + x^3 + x + 1`. -/
def xtime (b : Nat) : Nat :=
  ((b <<< 1) % 256) ^^^ (if b.testBit 7 then 0x1B else 0)

/-- The peasant-multiplication core of GF(2^8) multiplication, recursing on
    eight bits of the constant `c`. -/
def gfmulAux : Nat -> Nat -> Nat -> Nat
  | 0, _, _ => 0
  | fuel + 1, c, x => (if c % 2 = 1 then x else 0) ^^^ gfmulAux fuel (c / 2) (xtime x)

/-- Multiplication by the constant `c` in GF(2^8). -/
def gfmul (c x : Nat) : Nat := gfmulAux 8 c x

/-- Modelled from the spec: the MUL_2 table of aes/internal is the ×2 table
    over GF(2^8); a lookup is multiplication of the byte index. -/
def MUL_2 (b : Nat) : Nat := gfmul 2 (b % 256)

/-- Modelled from the spec: the ×3 table. -/
def MUL_3 (b : Nat) : Nat := gfmul 3 (b % 256)

/-- Modelled from the spec: the ×9 table. -/
def MUL_9 (b : Nat) : Nat := gfmul 9 (b % 256)

/-- Modelled from the spec: the ×11 table. -/
def MUL_11 (b : Nat) : Nat := gfmul 11 (b % 256)

/-- Modelled from the spec: the ×13 table. -/
def MUL_13 (b : Nat) : Nat := gfmul 13 (b % 256)

/-- Modelled from the spec: the ×14 table. -/
def MUL_14 (b : Nat) : Nat := gfmul 14 (b % 256)

/-- The RCON table of aes/internal, per FIPS-197 (constants in the top
    byte, as the key expansion xors them against whole words). -/
def RCON : List Nat :=
  [0x01000000, 0x02000000, 0x04000000, 0x08000000, 0x10000000,
   0x20000000, 0x40000000, 0x80000000, 0x1B000000, 0x36000000]

/-- The 16-byte AES state, stored column-major as in aes.go. -/
structure St where
  b0 : Nat
  b1 : Nat
  b2 : Nat
  b3 : Nat
  b4 : Nat
  b5 : Nat
  b6 : Nat
  b7 : Nat
  b8 : Nat
  b9 : Nat
  b10 : Nat
  b11 : Nat
  b12 : Nat
  b13 : Nat
  b14 : Nat
  b15 : Nat

/-- Reads the 16 state bytes from a block. -/
def St.ofList (l : List Nat) : St :=
  ⟨l.getD 0 0, l.getD 1 0, l.getD 2 0, l.getD 3 0, l.getD 4 0, l.getD 5 0,
   l.getD 6 0, l.getD 7 0, l.getD 8 0, l.getD 9 0, l.getD 10 0, l.getD 11 0,
   l.getD 12 0, l.getD 13 0, l.getD 14 0, l.getD 15 0⟩

/-- Writes the 16 state bytes back to a block. -/
def St.toList (s : St) : List Nat :=
  [s.b0, s.b1, s.b2, s.b3, s.b4, s.b5, s.b6, s.b7,
   s.b8, s.b9, s.b10, s.b11, s.b12, s.b13, s.b14, s.b15]

/-- subBytes of aes.go. -/
def subBytes (s : St) : St :=
  ⟨sbox s.b0, sbox s.b1, sbox s.b2, sbox s.b3, sbox s.b4, sbox s.b5,
   sbox s.b6, sbox s.b7, sbox s.b8, sbox s.b9, sbox s.b10, sbox s.b11,
   sbox s.b12, sbox s.b13, sbox s.b14, sbox s.b15⟩

/-- invSubBytes of aes.go. -/
def invSubBytes (s : St) : St :=
  ⟨invSbox s.b0, invSbox s.b1, invSbox s.b2, invSbox s.b3, invSbox s.b4,
   invSbox s.b5, invSbox s.b6, invSbox s.b7, invSbox s.b8, invSbox s.b9,
   invSbox s.b10, invSbox s.b11, invSbox s.b12, invSbox s.b13, invSbox s.b14,
   invSbox s.b15⟩

/-- shiftRows of aes.go: rows 1, 2, 3 rotate left by 1, 2, 3. -/
def shiftRows (s : St) : St :=
  ⟨s.b0, s.b5, s.b10, s.b15, s.b4, s.b9, s.b14, s.b3,
   s.b8, s.b13, s.b2, s.b7, s.b12, s.b1, s.b6, s.b11⟩

/-- invShiftRows of aes.go. -/
def invShiftRows (s : St) : St :=
  ⟨s.b0, s.b13, s.b10, s.b7, s.b4, s.b1, s.b14, s.b11,
   s.b8, s.b5, s.b2, s.b15, s.b12, s.b9, s.b6, s.b3⟩

/-- One column of mixColumns. -/
def mixCol (a0 a1 a2 a3 : Nat) : Nat × Nat × Nat × Nat :=
  (MUL_2 a0 ^^^ MUL_3 a1 ^^^ a2 ^^^ a3,
   a0 ^^^ MUL_2 a1 ^^^ MUL_3 a2 ^^^ a3,
   a0 ^^^ a1 ^^^ MUL_2 a2 ^^^ MUL_3 a3,
   MUL_3 a0 ^^^ a1 ^^^ a2 ^^^ MUL_2 a3)

/-- One column of invMixColumns. -/
def invMixCol (a0 a1 a2 a3 : Nat) : Nat × Nat × Nat × Nat :=
  (MUL_14 a0 ^^^ MUL_11 a1 ^^^ MUL_13 a2 ^^^ MUL_9 a3,
   MUL_9 a0 ^^^ MUL_14 a1 ^^^ MUL_11 a2 ^^^ MUL_13 a3,
   MUL_13 a0 ^^^ MUL_9 a1 ^^^ MUL_14 a2 ^^^ MUL_11 a3,
   MUL_11 a0 ^^^ MUL_13 a1 ^^^ MUL_9 a2 ^^^ MUL_14 a3)

/-- mixColumns of aes.go, column by column. -/
def mixColumns (s : St) : St :=
  let c0 := mixCol s.b0 s.b1 s.b2 s.b3
  let c1 := mixCol s.b4 s.b5 s.b6 s.b7
  let c2 := mixCol s.b8 s.b9 s.b10 s.b11
  let c3 := mixCol s.b12 s.b13 s.b14 s.b15
  ⟨c0.1, c0.2.1, c0.2.2.1, c0.2.2.2, c1.1, c1.2.1, c1.2.2.1, c1.2.2.2,
   c2.1, c2.2.1, c2.2.2.1, c2.2.2.2, c3.1, c3.2.1, c3.2.2.1, c3.2.2.2⟩

/-- invMixColumns of aes.go. -/
def invMixColumns (s : St) : St :=
  let c0 := invMixCol s.b0 s.b1 s.b2 s.b3
  let c1 := invMixCol s.b4 s.b5 s.b6 s.b7
  let c2 := invMixCol s.b8 s.b9 s.b10 s.b11
  let c3 := invMixCol s.b12 s.b13 s.b14 s.b15
  ⟨c0.1, c0.2.1, c0.2.2.1, c0.2.2.2, c1.1, c1.2.1, c1.2.2.1, c1.2.2.2,
   c2.1, c2.2.1, c2.2.2.1, c2.2.2.2, c3.1, c3.2.1, c3.2.2.1, c3.2.2.2⟩

/-- addRoundKey of aes.go: xors the four bytes of round-key word `i` into
    column `i`. -/
def addRoundKey (rk : List Nat) (round : Nat) (s : St) : St :=
  let k0 := rk.getD (round * 4) 0
  let k1 := rk.getD (round * 4 + 1) 0
  let k2 := rk.getD (round * 4 + 2) 0
  let k3 := rk.getD (round * 4 + 3) 0
  ⟨s.b0 ^^^ (k0 >>> 24) % 256, s.b1 ^^^ (k0 >>> 16) % 256,
   s.b2 ^^^ (k0 >>> 8) % 256, s.b3 ^^^ k0 % 256,
   s.b4 ^^^ (k1 >>> 24) % 256, s.b5 ^^^ (k1 >>> 16) % 256,
   s.b6 ^^^ (k1 >>> 8) % 256, s.b7 ^^^ k1 % 256,
   s.b8 ^^^ (k2 >>> 24) % 256, s.b9 ^^^ (k2 >>> 16) % 256,
   s.b10 ^^^ (k2 >>> 8) % 256, s.b11 ^^^ k2 % 256,
   s.b12 ^^^ (k3 >>> 24) % 256, s.b13 ^^^ (k3 >>> 16) % 256,
   s.b14 ^^^ (k3 >>> 8) % 256, s.b15 ^^^ k3 % 256⟩

/-- rotWord of aes.go on `uint32`. -/
def rotWord (w : Nat) : Nat := ((w <<< 8) % 4294967296) ||| (w >>> 24)

/-- subWord of aes.go. -/
def subWord (w : Nat) : Nat :=
  (sbox ((w >>> 24) % 256) <<< 24) ||| (sbox ((w >>> 16) % 256) <<< 16) |||
  (sbox ((w >>> 8) % 256) <<< 8) ||| sbox (w % 256)

/-- binary packing of four key bytes into a word, as expandKey does. -/
def keyWord (key : List Nat) (i : Nat) : Nat :=
  ((key.getD (4 * i) 0 % 256) <<< 24) ||| ((key.getD (4 * i + 1) 0 % 256) <<< 16) |||
  ((key.getD (4 * i + 2) 0 % 256) <<< 8) ||| (key.getD (4 * i + 3) 0 % 256)

/-- The extension loop of expandKey, appending one word per fuel unit. -/
def expandAux (nk : Nat) (w : List Nat) : Nat -> List Nat
  | 0 => w
  | fuel + 1 =>
      let i := w.length
      let temp := w.getD (i - 1) 0
      let temp :=
        if i % nk = 0 then subWord (rotWord temp) ^^^ RCON.getD (i / nk - 1) 0
        else if 6 < nk ∧ i % nk = 4 then subWord temp
        else temp
      expandAux nk (w ++ [w.getD (i - nk) 0 ^^^ temp]) fuel

/-- expandKey of aes.go. -/
def expandKey (key : List Nat) (rounds : Nat) : List Nat :=
  let nk := key.length / 4
  let w0 := (List.range nk).map (keyWord key)
  expandAux nk w0 ((rounds + 1) * 4 - nk)

/-- An AES instance: expanded round keys and the round count. -/
structure AES where
  roundKeys : List Nat
  rounds : Nat

/-- New of aes.go: 16, 24 or 32 key bytes select 10, 12 or 14 rounds. -/
def New (key : List Nat) : Option AES :=
  if key.length = 16 then some ⟨expandKey key 10, 10⟩
  else if key.length = 24 then some ⟨expandKey key 12, 12⟩
  else if key.length = 32 then some ⟨expandKey key 14, 14⟩
  else none

/-- One main encryption round of aes.go. -/
def encRound (rk : List Nat) (s : St) (r : Nat) : St :=
  addRoundKey rk r (mixColumns (shiftRows (subBytes s)))

/-- One main decryption round of aes.go. -/
def decRound (rk : List Nat) (s : St) (r : Nat) : St :=
  invMixColumns (addRoundKey rk r (invSubBytes (invShiftRows s)))

/-- Encrypt of aes.go. -/
def Encrypt (a : AES) (plaintext : List Nat) : Option (List Nat) :=
  if plaintext.length ≠ 16 then none
  else
    let s := addRoundKey a.roundKeys 0 (St.ofList plaintext)
    let s := (List.range' 1 (a.rounds - 1)).foldl (encRound a.roundKeys) s
    let s := addRoundKey a.roundKeys a.rounds (shiftRows (subBytes s))
    some s.toList

/-- Decrypt of aes.go. -/
def Decrypt (a : AES) (ciphertext : List Nat) : Option (List Nat) :=
  if ciphertext.length ≠ 16 then none
  else
    let s := addRoundKey a.roundKeys a.rounds (St.ofList ciphertext)
    let s := ((List.range' 1 (a.rounds - 1)).reverse).foldl (decRound a.roundKeys) s
    let s := addRoundKey a.roundKeys 0 (invSubBytes (invShiftRows s))
    some s.toList

end aes

/-! ## SM2 elliptic-curve subsystem (src/unnamed/part_001, package sm2)

Field elements are `Int` values reduced modulo the curve prime, mirroring the
big.Int arithmetic of the source (the Go `Mod` is Euclidean, as is the Lean
`%` on `Int` with a positive modulus).  The curve constants of sm2/internal
are missing from the sources and are modelled from the spec as the published
sm2p256v1 parameters. -/

namespace sm2

/-- Modelled from the spec: the sm2p256v1 prime. -/
def P : Int := 0xFFFFFFFEFFFFFFFFFFFFFFFFFFFFFFFFFFFFFFFF00000000FFFFFFFFFFFFFFFF

/-- Modelled from the spec: the curve coefficient a. -/
def A : Int := 0xFFFFFFFEFFFFFFFFFFFFFFFFFFFFFFFFFFFFFFFF00000000FFFFFFFFFFFFFFFC

/-- Modelled from the spec: the curve coefficient b. -/
def B : Int := 0x28E9FA9E9D9F5E344D5A9E4BCF6509A7F39789F515AB8F92DDBCBD414D940E93

/-- Modelled from the spec: the group order n. -/
def N : Int := 0xFFFFFFFEFFFFFFFFFFFFFFFFFFFFFFFF7203DF6B21C6052B53BBF40939D54123

/-- Modelled from the spec: the base-point x coordinate. -/
def Gx : Int := 0x32C4AE2C1F1981195F9904466A39C9948FE30BBFF2660BE1715A4589334C74C7

/-- Modelled from the spec: the base-point y coordinate. -/
def Gy : Int := 0xBC3736A2F4F6779C59BDCEE36B692153D0A9877CC62A474002DF32E52139F0A0

/-- big.Int ModInverse: the inverse of `g` modulo `n` when it exists, `nil`
    (here `none`) otherwise. -/
def modInverse (g n : Int) : Option Int :=
  let a := ((g % n) + n) % n
  if Int.gcd a n = 1 then
    some ((((Nat.gcdA a.toNat n.toNat) % n) + n) % n)
  else none

/-- IsOnCurve of the sm2 source: coordinate range check and the Weierstrass
    equation modulo P. -/
def IsOnCurve (x y : Int) : Bool :=
  if x < 0 ∨ P ≤ x ∨ y < 0 ∨ P ≤ y then false
  else decide ((y * y) % P = ((x ^ 3 % P) + (A * x) % P + B) % P)

/-- Double of the sm2 source, with the point at infinity encoded as (0,0);
    `none` is the Go panic on a nil ModInverse result. -/
def DoublePt (x y : Int) : Option (Int × Int) :=
  if y = 0 then some (0, 0)
  else do
    let num := ((x ^ 2 % P) * 3 + A) % P
    let den := (2 * y) % P
    let inv ← modInverse den P
    let lam := (num * inv) % P
    let x3 := ((lam ^ 2 % P) - 2 * x) % P
    let y3 := ((x - x3) * lam - y) % P
    some (x3, y3)

/-- Add of the sm2 source: identity handling, opposite-point detection by
    equal x and distinct y, doubling for equal points, otherwise the chord
    formula. -/
def AddPt (x1 y1 x2 y2 : Int) : Option (Int × Int) :=
  if x1 = 0 ∧ y1 = 0 then some (x2, y2)
  else if x2 = 0 ∧ y2 = 0 then some (x1, y1)
  else if x1 = x2 then
    if y1 ≠ y2 then some (0, 0)
    else DoublePt x1 y1
  else do
    let num := (y2 - y1) % P
    let den := (x2 - x1) % P
    let inv ← modInverse den P
    let lam := (num * inv) % P
    let x3 := ((lam ^ 2 % P) - x1 - x2) % P
    let y3 := ((x1 - x3) * lam - y1) % P
    some (x3, y3)

/-- The bit-length loop of big.Int BitLen, with an iteration bound: halving
    `n` at most `n` times always reaches zero. -/
def bitLenAux : Nat → Nat → Nat
  | 0, _ => 0
  | fuel + 1, n => if n = 0 then 0 else bitLenAux fuel (n / 2) + 1

/-- big.Int BitLen of the scalar. -/
def bitLen (n : Nat) : Nat := bitLenAux n n

/-- The double-and-add loop of ScalarMult, from bit `fuel - 1` down to bit
    0 of `k`. -/
def scalarLoop (x y : Int) (k : Nat) : Nat → (Int × Int) → Option (Int × Int)
  | 0, acc => some acc
  | i + 1, acc => do
      let d ← DoublePt acc.1 acc.2
      let s ← if k.testBit i then AddPt d.1 d.2 x y else some d
      scalarLoop x y k i s

/-- ScalarMult of the sm2 source: zero scalar gives the point at infinity,
    otherwise double-and-add over the bit length. -/
def ScalarMult (x y : Int) (k : Nat) : Option (Int × Int) :=
  if k = 0 then some (0, 0) else scalarLoop x y k (bitLen k) (0, 0)

/-- ScalarBaseMult of the sm2 source. -/
def ScalarBaseMult (k : Nat) : Option (Int × Int) := ScalarMult Gx Gy k

/-- big.Int FillBytes into a 32-byte big-endian buffer. -/
def fillBytes32 (v : Int) : List Nat :=
  (List.range 32).map (fun i => (v.toNat >>> ((31 - i) * 8)) % 256)

/-- big.Int SetBytes: big-endian bytes to an integer. -/
def bytesToNat (bs : List Nat) : Nat :=
  bs.foldl (fun acc b => acc * 256 + b % 256) 0

/-- One byte of the simplified KDF of the sm2 source: the first 32 bytes come
    from `SM3(x2 ‖ y2)`, later bytes from `SM3(x2 ‖ y2 ‖ byte(i/32))` at index
    `i mod 32`.  `none` propagates an SM3 panic (unreachable at these
    lengths). -/
def kdfByte (x2B y2B : List Nat) (tmp0 : List Nat) (i : Nat) : Option Nat :=
  if i < 32 then some (tmp0.getD i 0)
  else do
    let t ← sm3.Sum (x2B ++ y2B ++ [(i / 32) % 256])
    some (t.getD (i % 32) 0)

/-- The full keystream of the simplified KDF. -/
def kdfStream (x2B y2B : List Nat) (len : Nat) : Option (List Nat) := do
  let tmp0 ← sm3.Sum (x2B ++ y2B)
  (List.range len).mapM (kdfByte x2B y2B tmp0)

/-- Encrypt of the sm2 source with the ephemeral scalar `k` injected for the
    sampled randomness.  An empty plaintext is replaced by the single byte
    0x00. -/
def Encrypt (pubX pubY : Int) (plaintext : List Nat) (k : Nat) : Option (List Nat) := do
  let plaintext := if plaintext.length = 0 then [0] else plaintext
  let c1 ← ScalarBaseMult k
  let p2 ← ScalarMult pubX pubY k
  let x2B := fillBytes32 p2.1
  let y2B := fillBytes32 p2.2
  let kdf ← kdfStream x2B y2B plaintext.length
  let c2 := XORBytes plaintext kdf
  let c3 ← sm3.Sum (x2B ++ plaintext ++ y2B)
  some (0x04 :: (fillBytes32 c1.1 ++ fillBytes32 c1.2 ++ c2 ++ c3))

/-- Decrypt of the sm2 source for a private scalar `d`. -/
def Decrypt (d : Nat) (ciphertext : List Nat) : Option (List Nat) :=
  if ciphertext.length < 1 + 64 + 32 then none
  else if ciphertext.getD 0 0 ≠ 0x04 then none
  else
    let x1 : Int := Int.ofNat (bytesToNat ((ciphertext.drop 1).take 32))
    let y1 : Int := Int.ofNat (bytesToNat ((ciphertext.drop 33).take 32))
    if ¬IsOnCurve x1 y1 then none
    else do
      let p2 ← ScalarMult x1 y1 d
      let c2Len := ciphertext.length - 97
      if c2Len = 0 then none
      else
        let x2B := fillBytes32 p2.1
        let y2B := fillBytes32 p2.2
        do
          let kdf ← kdfStream x2B y2B c2Len
          let c2 := (ciphertext.drop 65).take c2Len
          let plaintext := XORBytes c2 kdf
          let c3 ← sm3.Sum (x2B ++ plaintext ++ y2B)
          let receivedC3 := ciphertext.drop (65 + c2Len)
          if c3 ≠ receivedC3 then none
          else if plaintext.length = 1 ∧ plaintext.getD 0 0 = 0 then some []
          else some plaintext

/-- Sign of the sm2 source with the ephemeral scalar `k` injected; the retry
    conditions `r = 0`, `r + k = n` and `s = 0` surface as `none`. -/
def Sign (d : Nat) (digest : List Nat) (k : Nat) : Option (List Nat) := do
  let e : Int := Int.ofNat (bytesToNat digest)
  let p1 ← ScalarBaseMult k
  let r := (e + p1.1) % N
  if r = 0 ∨ r + k = N then none
  else do
    let dPlusOneInv ← modInverse (1 + Int.ofNat d) N
    let rd := (r * Int.ofNat d) % N
    let krd := (Int.ofNat k - rd) % N
    let sValue := (dPlusOneInv * krd) % N
    if sValue = 0 then none
    else some (fillBytes32 r ++ fillBytes32 sValue)

/-- Verify of the sm2 source; `none` stands for a Go panic inside the curve
    arithmetic, which the verification path cannot reach for on-curve
    inputs. -/
def Verify (pubX pubY : Int) (digest signature : List Nat) : Option Bool :=
  if ¬IsOnCurve pubX pubY then some false
  else if signature.length ≠ 64 then some false
  else
    let r : Int := Int.ofNat (bytesToNat (signature.take 32))
    let sValue : Int := Int.ofNat (bytesToNat (signature.drop 32))
    if r ≤ 0 ∨ N ≤ r ∨ sValue ≤ 0 ∨ N ≤ sValue then some false
    else
      let e : Int := Int.ofNat (bytesToNat digest)
      let t := (r + sValue) % N
      if t = 0 then some false
      else do
        let sG ← ScalarBaseMult sValue.toNat
        let tP ← ScalarMult pubX pubY t.toNat
        let x1 ← AddPt sG.1 sG.2 tP.1 tP.2
        let R := (e + x1.1) % N
        some (decide (R = r))

end sm2

/-! ## Helper lemmas -/

/-- An `or` with a value below the shift amount is an addition. -/
theorem or_shift_add (a b i : Nat) (hb : b < 2 ^ i) : (a <<< i) ||| b = a * 2 ^ i + b := by
  rw [Nat.shiftLeft_eq_mul_pow, Nat.mul_comm]
  exact (Nat.mul_add_lt_is_or hb a).symm

/-- Shifting distributes over `or`. -/
theorem shiftLeft_or_distrib (x y n : Nat) : (x ||| y) <<< n = (x <<< n) ||| (y <<< n) := by
  apply Nat.eq_of_testBit_eq
  intro i
  simp [Nat.testBit_shiftLeft, Nat.testBit_or, Bool.and_or_distrib_left]

/-- Shifting distributes over `xor`. -/
theorem shiftLeft_xor_distrib (x y n : Nat) : (x ^^^ y) <<< n = (x <<< n) ^^^ (y <<< n) := by
  apply Nat.eq_of_testBit_eq
  intro i
  simp [Nat.testBit_shiftLeft, Nat.testBit_xor, Bool.and_xor_distrib_left]

/-- The big-endian word assembly as plain arithmetic. -/
theorem beUint32_arith (b0 b1 b2 b3 : Nat) :
    sm4.beUint32 b0 b1 b2 b3 =
      (b0 % 256) * 16777216 + (b1 % 256) * 65536 + (b2 % 256) * 256 + b3 % 256 := by
  unfold sm4.beUint32
  rw [Nat.or_assoc, Nat.or_assoc]
  rw [or_shift_add (b2 % 256) (b3 % 256) 8 (by omega)]
  rw [or_shift_add (b1 % 256) _ 16 (by omega)]
  rw [or_shift_add (b0 % 256) _ 24 (by omega)]
  ring

/-- The word assemblies of the different cipher packages agree. -/
theorem blowfish_beUint32_eq : blowfish.beUint32 = sm4.beUint32 := rfl

/-- The word assemblies of the different cipher packages agree. -/
theorem twofish_beUint32_eq : twofish.beUint32 = sm4.beUint32 := rfl

/-- Words assembled from bytes are 32-bit values. -/
theorem beUint32_lt (b0 b1 b2 b3 : Nat) : sm4.beUint32 b0 b1 b2 b3 < 4294967296 := by
  rw [beUint32_arith]; omega

/-- Unpacking a 32-bit word and re-assembling it is the identity. -/
theorem beUint32_of_put (w : Nat) (hw : w < 4294967296) :
    sm4.beUint32 ((w >>> 24) % 256) ((w >>> 16) % 256) ((w >>> 8) % 256) (w % 256) = w := by
  rw [beUint32_arith]
  simp only [Nat.shiftRight_eq_div_pow]
  omega

/-- Re-packing an assembled word recovers the reduced bytes. -/
theorem put_of_beUint32 (b0 b1 b2 b3 : Nat) :
    sm4.putUint32 (sm4.beUint32 b0 b1 b2 b3) = [b0 % 256, b1 % 256, b2 % 256, b3 % 256] := by
  rw [beUint32_arith]
  unfold sm4.putUint32
  simp only [Nat.shiftRight_eq_div_pow]
  norm_num
  omega

/-- The little-endian word assembly of rc5.go as plain arithmetic. -/
theorem leUint32_arith (b0 b1 b2 b3 : Nat) :
    rc5.leUint32 b0 b1 b2 b3 =
      (b3 % 256) * 16777216 + (b2 % 256) * 65536 + (b1 % 256) * 256 + b0 % 256 := by
  unfold rc5.leUint32
  have e1 : (b0 % 256) ||| ((b1 % 256) <<< 8) = (b1 % 256) * 256 + b0 % 256 := by
    rw [Nat.or_comm]; exact or_shift_add _ _ 8 (by omega)
  rw [e1]
  have h1 : (b1 % 256) * 256 + b0 % 256 < 2 ^ 16 := by omega
  have e2 : ((b1 % 256) * 256 + b0 % 256) ||| ((b2 % 256) <<< 16) =
      (b2 % 256) * 65536 + ((b1 % 256) * 256 + b0 % 256) := by
    rw [Nat.or_comm]; exact or_shift_add _ _ 16 h1
  rw [e2]
  have e3 : ((b2 % 256) * 65536 + ((b1 % 256) * 256 + b0 % 256)) ||| ((b3 % 256) <<< 24) =
      (b3 % 256) * 16777216 + ((b2 % 256) * 65536 + ((b1 % 256) * 256 + b0 % 256)) := by
    rw [Nat.or_comm]; exact or_shift_add _ _ 24 (by omega)
  rw [e3]
  ring

/-- Little-endian words are 32-bit values. -/
theorem leUint32_lt (b0 b1 b2 b3 : Nat) : rc5.leUint32 b0 b1 b2 b3 < 4294967296 := by
  rw [leUint32_arith]; omega

/-- Unpacking a 32-bit word little-endian and re-assembling it is the
    identity. -/
theorem leUint32_of_put (w : Nat) (hw : w < 4294967296) :
    rc5.leUint32 (w % 256) ((w >>> 8) % 256) ((w >>> 16) % 256) ((w >>> 24) % 256) = w := by
  rw [leUint32_arith]
  simp only [Nat.shiftRight_eq_div_pow]
  omega

/-- Re-packing an assembled little-endian word recovers the reduced bytes. -/
theorem lePut_of_leUint32 (b0 b1 b2 b3 : Nat) :
    rc5.lePutUint32 (rc5.leUint32 b0 b1 b2 b3) = [b0 % 256, b1 % 256, b2 % 256, b3 % 256] := by
  rw [leUint32_arith]
  unfold rc5.lePutUint32
  simp only [Nat.shiftRight_eq_div_pow]
  norm_num
  omega

/-- Rotation keeps 32-bit values 32-bit. -/
theorem rotl32_lt (x n : Nat) (hx : x < 4294967296) : rotl32 x n < 4294967296 := by
  unfold rotl32
  have h1 : (x <<< (n % 32)) % 4294967296 < 4294967296 := Nat.mod_lt _ (by norm_num)
  have h2 : x >>> (32 - n % 32) < 4294967296 := by
    rw [Nat.shiftRight_eq_div_pow]
    exact Nat.lt_of_le_of_lt (Nat.div_le_self x _) hx
  exact Nat.or_lt_two_pow (n := 32) h1 h2

/-- The left rotation as plain arithmetic: the low `32 - s` bits move up, the
    high `s` bits move down. -/
theorem rotl32_arith (x n : Nat) (hx : x < 4294967296) :
    rotl32 x n = (x % 2 ^ (32 - n % 32)) * 2 ^ (n % 32) + x / 2 ^ (32 - n % 32) := by
  unfold rotl32
  have hs : n % 32 < 32 := Nat.mod_lt _ (by norm_num)
  have hexp : (32 - n % 32) + (n % 32) = 32 := by omega
  have hsplit : (4294967296 : Nat) = 2 ^ (32 - n % 32) * 2 ^ (n % 32) := by
    rw [← pow_add, hexp]
    norm_num
  have e1 : (x <<< (n % 32)) % 4294967296 = (x % 2 ^ (32 - n % 32)) * 2 ^ (n % 32) := by
    rw [Nat.shiftLeft_eq_mul_pow, hsplit, Nat.mul_mod_mul_right]
  have hb : x >>> (32 - n % 32) < 2 ^ (n % 32) := by
    rw [Nat.shiftRight_eq_div_pow]
    rw [Nat.div_lt_iff_lt_mul (Nat.pos_pow_of_pos _ (by norm_num))]
    calc x < 4294967296 := hx
      _ = 2 ^ (n % 32) * 2 ^ (32 - n % 32) := by rw [Nat.mul_comm]; exact hsplit
  show (x <<< (n % 32) % 4294967296 ||| x >>> (32 - n % 32)) =
    x % 2 ^ (32 - n % 32) * 2 ^ (n % 32) + x / 2 ^ (32 - n % 32)
  rw [e1, ← Nat.shiftLeft_eq_mul_pow, or_shift_add _ _ _ hb,
    Nat.shiftLeft_eq_mul_pow, Nat.shiftRight_eq_div_pow]

/-- Rotation by a multiple of 32 is the identity on 32-bit values. -/
theorem rotl32_zero_amount (x s : Nat) (hx : x < 4294967296) (h0 : s % 32 = 0) :
    rotl32 x s = x := by
  rw [rotl32_arith x s hx, h0]
  norm_num
  omega

/-- A right rotation undoes a left rotation by the same amount. -/
theorem rotr32_rotl32 (x s : Nat) (hx : x < 4294967296) : rc5.rotr32 (rotl32 x s) s = x := by
  unfold rc5.rotr32
  rcases Nat.eq_zero_or_pos (s % 32) with h0 | hpos
  · rw [rotl32_zero_amount x s hx h0, h0]
    exact rotl32_zero_amount x 0 hx (by norm_num)
  · have hs : s % 32 < 32 := Nat.mod_lt _ (by norm_num)
    have ht : (32 - s % 32) % 32 = 32 - s % 32 := Nat.mod_eq_of_lt (by omega)
    rw [ht]
    have hy : rotl32 x s < 4294967296 := rotl32_lt x s hx
    rw [rotl32_arith _ _ hy, rotl32_arith x s hx, ht]
    have hsub : 32 - (32 - s % 32) = s % 32 := by omega
    rw [hsub]
    set q := x % 2 ^ (32 - s % 32) with hq
    set r := x / 2 ^ (32 - s % 32) with hr
    have hrlt : r < 2 ^ (s % 32) := by
      rw [hr, Nat.div_lt_iff_lt_mul (Nat.pos_pow_of_pos _ (by norm_num))]
      calc x < 4294967296 := hx
        _ = 2 ^ (s % 32) * 2 ^ (32 - s % 32) := by
            rw [← pow_add, show (s % 32) + (32 - s % 32) = 32 by omega]
            norm_num
    have hmod : (q * 2 ^ (s % 32) + r) % 2 ^ (s % 32) = r := by
      rw [Nat.mul_comm q, Nat.mul_add_mod, Nat.mod_eq_of_lt hrlt]
    have hdiv : (q * 2 ^ (s % 32) + r) / 2 ^ (s % 32) = q := by
      rw [Nat.mul_comm q, Nat.mul_add_div (Nat.pos_pow_of_pos _ (by norm_num)),
        Nat.div_eq_of_lt hrlt, Nat.add_zero]
    rw [hmod, hdiv]
    have hx' := Nat.div_add_mod x (2 ^ (32 - s % 32))
    rw [← hq, ← hr] at hx'
    rw [Nat.mul_comm]
    omega

/-- Go `uint32` subtraction undoes `uint32` addition. -/
theorem sub32_add32 (a s : Nat) (ha : a < 4294967296) : rc5.sub32 (add32 a s) s = a := by
  unfold rc5.sub32 add32
  omega

/-- The 8-byte big-endian assembly of des.go as plain arithmetic. -/
theorem beUint64_arith (bs : List Nat) :
    des.beUint64 bs =
      (bs.getD 0 0 % 256) * 72057594037927936 + (bs.getD 1 0 % 256) * 281474976710656 +
      (bs.getD 2 0 % 256) * 1099511627776 + (bs.getD 3 0 % 256) * 4294967296 +
      (bs.getD 4 0 % 256) * 16777216 + (bs.getD 5 0 % 256) * 65536 +
      (bs.getD 6 0 % 256) * 256 + bs.getD 7 0 % 256 := by
  unfold des.beUint64
  rw [Nat.or_assoc, Nat.or_assoc, Nat.or_assoc, Nat.or_assoc, Nat.or_assoc, Nat.or_assoc]
  rw [or_shift_add (bs.getD 6 0 % 256) _ 8 (by omega)]
  rw [or_shift_add (bs.getD 5 0 % 256) _ 16 (by omega)]
  rw [or_shift_add (bs.getD 4 0 % 256) _ 24 (by omega)]
  rw [or_shift_add (bs.getD 3 0 % 256) _ 32 (by omega)]
  rw [or_shift_add (bs.getD 2 0 % 256) _ 40 (by omega)]
  rw [or_shift_add (bs.getD 1 0 % 256) _ 48 (by omega)]
  rw [or_shift_add (bs.getD 0 0 % 256) _ 56 (by omega)]
  ring

/-- 8 assembled bytes form a 64-bit value. -/
theorem beUint64_lt (bs : List Nat) : des.beUint64 bs < 18446744073709551616 := by
  rw [beUint64_arith]; omega

/-- Unpacking a 64-bit word and re-assembling it is the identity. -/
theorem beUint64_of_put (w : Nat) (hw : w < 18446744073709551616) :
    des.beUint64 (des.putUint64 w) = w := by
  unfold des.putUint64
  rw [beUint64_arith]
  simp only [List.getD, List.get?, Nat.shiftRight_eq_div_pow]
  norm_num
  omega

/-- Re-packing an assembled 64-bit word recovers the reduced bytes. -/
theorem put_of_beUint64 (bs : List Nat) :
    des.putUint64 (des.beUint64 bs) =
      [bs.getD 0 0 % 256, bs.getD 1 0 % 256, bs.getD 2 0 % 256, bs.getD 3 0 % 256,
       bs.getD 4 0 % 256, bs.getD 5 0 % 256, bs.getD 6 0 % 256, bs.getD 7 0 % 256] := by
  rw [beUint64_arith]
  unfold des.putUint64
  simp only [Nat.shiftRight_eq_div_pow]
  norm_num
  omega

/-- Increment preserves the counter length. -/
theorem Increment_length (c : List Nat) : (Increment c).length = c.length := by
  unfold Increment
  rw [List.length_reverse]
  have h : ∀ l : List Nat, (Increment.incAux l).length = l.length := by
    intro l
    induction l with
    | nil => rfl
    | cons b rest ih =>
        unfold Increment.incAux
        by_cases h : (b + 1) % 256 = 0 <;> simp [h, ih]
  rw [h, List.length_reverse]

/-- XORBytes length. -/
theorem XORBytes_length (a b : List Nat) :
    (XORBytes a b).length = min a.length b.length := by
  unfold XORBytes
  exact List.length_zipWith _ a b

/-- Xoring the same keystream twice is the identity when the keystream is at
    least as long as the data. -/
theorem XORBytes_cancel : ∀ (a b : List Nat), a.length ≤ b.length →
    XORBytes (XORBytes a b) b = a := by
  intro a
  induction a with
  | nil => intro b _; rfl
  | cons x xs ih =>
      intro b hb
      cases b with
      | nil => simp at hb
      | cons y ys =>
          unfold XORBytes at ih ⊢
          simp only [List.zipWith]
          rw [Nat.xor_cancel_right]
          have := ih ys (by simpa using hb)
          unfold XORBytes at this
          simp [this]

/-- Copying a source of the destination length replaces the whole buffer. -/
theorem copyInto_self (dst src : List Nat) (h : src.length = dst.length) :
    modes.copyInto dst src = src := by
  unfold modes.copyInto
  rw [← h, List.take_length]
  rw [h, List.drop_length, List.append_nil]

/-- The length of a copy is the destination length. -/
theorem copyInto_length (dst src : List Nat) :
    (modes.copyInto dst src).length = dst.length := by
  unfold modes.copyInto
  simp only [List.length_append, List.length_take, List.length_drop]
  omega

/-- The last element of a list is the head of its reversal. -/
theorem getLastD_eq_headD_reverse (l : List Nat) (d : Nat) :
    l.getLastD d = l.reverse.headD d := by
  induction l generalizing d with
  | nil => rfl
  | cons x xs ih =>
      cases hxs : xs with
      | nil => simp
      | cons y ys =>
          rw [← hxs, List.getLastD_cons, ih x]
          have hne : xs.reverse ≠ [] := by simp [hxs]
          cases hrev : xs.reverse with
          | nil => exact absurd hrev hne
          | cons z zs => simp [hrev]

/-- Xor with 255 never fixes a value. -/
theorem xor255_ne (b : Nat) : 255 ^^^ b ≠ b := by
  intro h
  have h2 : (255 ^^^ b) ^^^ b = b ^^^ b := by rw [h]
  rw [Nat.xor_assoc, Nat.xor_self] at h2
  simp at h2

/-- TBCUnPadding returns any input ending in at least one byte unchanged,
    because the final byte never equals the complement being scanned for. -/
theorem tbcUnpad_fullreturn (l : List Nat) (m c : Nat) :
    paddingPkg.TBCUnPadding (l ++ List.replicate (m + 1) c) =
      some (l ++ List.replicate (m + 1) c) := by
  have hrev : (l ++ List.replicate (m + 1) c).reverse
      = c :: (List.replicate m c ++ l.reverse) := by
    rw [List.reverse_append, List.reverse_replicate, List.replicate_succ]
    simp
  have hlast : (l ++ List.replicate (m + 1) c).getLastD 0 = c := by
    rw [getLastD_eq_headD_reverse, hrev]
    rfl
  have hlen : ¬ (l ++ List.replicate (m + 1) c).length = 0 := by
    simp [List.length_append]
  simp only [paddingPkg.TBCUnPadding]
  rw [if_neg hlen, hlast, hrev]
  simp only [paddingPkg.tbcScan]
  rw [if_pos (Ne.symm (xor255_ne c)), ← hrev, List.reverse_reverse]

/-- The length added by write is the length of the data written. -/
theorem sm3_write_len (d : sm3.Digest) (p : List Nat) :
    (sm3.write d p).len = d.len + p.length := rfl

/-- C1: the claim is false.  Whenever the message length is congruent to 55
    modulo 64, checkSum computes padLen = 64, so the slice tmp[:1+padLen] of
    the 64-byte buffer is out of bounds and the Go code reaches a slice panic
    rather than returning a digest; in the embedding Sum returns none. -/
theorem C1_sm3_checkSum_oob_at_55_mod_64 (data : List Nat)
    (h : data.length % 64 = 55) : sm3.Sum data = none := by
  have hlen : (sm3.write sm3.initDigest data).len = data.length := by
    rw [sm3_write_len]
    simp [sm3.initDigest]
  have hpad : sm3.checkPadLen data.length = 64 := by
    simp only [sm3.checkPadLen, Int.ofNat_eq_coe]
    have h9 : ((data.length : Int) + 1 + 8) % 64 = 0 := by omega
    rw [h9]
    norm_num
  simp only [sm3.Sum, sm3.checkSum]
  rw [hlen, hpad]
  norm_num

/-- Concrete instance of the C1 theorem: a 55-byte message. -/
theorem C1_sm3_checkSum_oob_witness :
    (List.replicate 55 0).length % 64 = 55 ∧ sm3.Sum (List.replicate 55 0) = none :=
  ⟨by decide, C1_sm3_checkSum_oob_at_55_mod_64 (List.replicate 55 0) (by decide)⟩

/-- C5: the claim is false for TBC.  For every input and every positive block
    size, TBCUnPadding applied to TBCPadding of the input returns the whole
    padded buffer (padding bytes included), never the original data: the
    unpadding routine strips the run of bytes equal to the complement of the
    final padded byte, but the final padded byte is never equal to its own
    complement, so nothing is stripped. -/
theorem C5_tbc_unpad_returns_padded_input (data : List Nat) (B : Nat)
    (hB : 0 < B) :
    paddingPkg.TBCUnPadding (paddingPkg.TBCPadding data B) =
        some (paddingPkg.TBCPadding data B) ∧
      paddingPkg.TBCPadding data B ≠ data := by
  have hlt := Nat.mod_lt data.length hB
  obtain ⟨m, hm⟩ : ∃ m, B - data.length % B = m + 1 :=
    ⟨B - data.length % B - 1, by omega⟩
  constructor
  · simp only [paddingPkg.TBCPadding]
    rw [hm]
    exact tbcUnpad_fullreturn _ m _
  · intro hcontra
    have hcl := congrArg List.length hcontra
    simp only [paddingPkg.TBCPadding, List.length_append,
      List.length_replicate] at hcl
    omega

/-- Concrete instance of the C5 theorem: input [1] with block size 2 unpads
    to [1, 254] instead of [1]. -/
theorem C5_tbc_unpad_witness :
    0 < 2 ∧
      (paddingPkg.TBCUnPadding (paddingPkg.TBCPadding [1] 2) =
          some (paddingPkg.TBCPadding [1] 2) ∧
        paddingPkg.TBCPadding [1] 2 ≠ [1]) :=
  ⟨by decide, C5_tbc_unpad_returns_padded_input [1] 2 (by decide)⟩

/-- C6 counterexample: on the aligned input [1,2,3,4] with block size 4, both
    Zero padding implementations append a full block of four zero bytes, not
    zero bytes as the claim states. -/
theorem C6_zero_padding_counterexample :
    padding.ZeroPadding [1, 2, 3, 4] 4 = [1, 2, 3, 4, 0, 0, 0, 0] ∧
      paddingPkg.ZeroPadding [1, 2, 3, 4] 4 = [1, 2, 3, 4, 0, 0, 0, 0] := by
  decide

/-- C6 amended: for every input and every positive block size, both Zero
    padding implementations append exactly B - len % B zero bytes, a count
    between 1 and B; when the length is already a multiple of B a full block
    of B zero bytes is appended, never zero bytes. -/
theorem C6_zero_padding_appends_full_block (data : List Nat) (B : Nat)
    (hB : 0 < B) :
    padding.ZeroPadding data B = data ++ List.replicate (B - data.length % B) 0 ∧
      paddingPkg.ZeroPadding data B =
        data ++ List.replicate (B - data.length % B) 0 ∧
      1 ≤ B - data.length % B ∧ B - data.length % B ≤ B ∧
      (data.length % B = 0 → B - data.length % B = B) := by
  have hlt := Nat.mod_lt data.length hB
  refine ⟨?_, rfl, by omega, by omega, fun h0 => by omega⟩
  simp only [padding.ZeroPadding]
  rw [if_neg (by omega : ¬ B - data.length % B = 0)]

/-- Concrete instance of the C6 amended theorem at an aligned input. -/
theorem C6_zero_padding_witness :
    0 < 4 ∧
      (padding.ZeroPadding [1, 2, 3, 4] 4 =
          [1, 2, 3, 4] ++ List.replicate (4 - [1, 2, 3, 4].length % 4) 0 ∧
        paddingPkg.ZeroPadding [1, 2, 3, 4] 4 =
          [1, 2, 3, 4] ++ List.replicate (4 - [1, 2, 3, 4].length % 4) 0 ∧
        1 ≤ 4 - [1, 2, 3, 4].length % 4 ∧ 4 - [1, 2, 3, 4].length % 4 ≤ 4 ∧
        ([1, 2, 3, 4].length % 4 = 0 → 4 - [1, 2, 3, 4].length % 4 = 4)) :=
  ⟨by decide, C6_zero_padding_appends_full_block [1, 2, 3, 4] 4 (by decide)⟩

/-- C7 counterexample: on the input [1, 2] the final byte 2 satisfies
    1 <= 2 <= 2 but the fill byte 1 differs from 2; pkcs7.go rejects it while
    the consolidated package strips two bytes and returns the empty slice, so
    the two implementations do not both return an error. -/
theorem C7_pkcs7_unpad_counterexample :
    padding.PKCS7Unpadding [1, 2] = none ∧
      paddingPkg.PKCS7UnPadding [1, 2] = some [] := by
  decide

/-- C7 amended: for every input whose final byte m is a byte value with
    1 <= m <= len and whose last m bytes are not all equal to m, only the
    pkcs7.go implementation returns an error; the consolidated package never
    inspects the fill bytes and returns the input with m bytes stripped. -/
theorem C7_pkcs7_unpad_split_behavior (data : List Nat) (m : Nat)
    (hne : data ≠ []) (hm : data.getLastD 0 = m) (h1 : 1 ≤ m)
    (h2 : m ≤ data.length) (h256 : m < 256)
    (hfill : ¬ ∀ b ∈ data.drop (data.length - m), b = m) :
    padding.PKCS7Unpadding data = none ∧
      paddingPkg.PKCS7UnPadding data = some (data.take (data.length - m)) := by
  have hlen0 : ¬ data.length = 0 := fun h0 => hne (List.length_eq_zero.mp h0)
  have hmod : m % 256 = m := Nat.mod_eq_of_lt h256
  constructor
  · simp only [padding.PKCS7Unpadding]
    rw [if_neg hlen0, hm, if_neg (by omega : ¬ m > data.length)]
    have hall : ((data.drop (data.length - m)).all (fun b => b = m % 256)) = false := by
      rw [hmod]
      rcases hb : (data.drop (data.length - m)).all (fun b => b = m) with _ | _
      · rfl
      · exact absurd (fun b hbmem => of_decide_eq_true (List.all_eq_true.mp hb b hbmem)) hfill
    rw [hall]
    simp
  · simp only [paddingPkg.PKCS7UnPadding]
    rw [if_neg hlen0, hm, if_neg (by omega : ¬ m > data.length)]

/-- Concrete instance of the C7 amended theorem on the input [1, 2]. -/
theorem C7_pkcs7_unpad_witness :
    ([1, 2] : List Nat) ≠ [] ∧ ([1, 2] : List Nat).getLastD 0 = 2 ∧ 1 ≤ 2 ∧
      2 ≤ ([1, 2] : List Nat).length ∧ 2 < 256 ∧
      (¬ ∀ b ∈ ([1, 2] : List Nat).drop (([1, 2] : List Nat).length - 2), b = 2) ∧
      (padding.PKCS7Unpadding [1, 2] = none ∧
        paddingPkg.PKCS7UnPadding [1, 2] =
          some (([1, 2] : List Nat).take (([1, 2] : List Nat).length - 2))) :=
  ⟨by decide, by decide, by decide, by decide, by decide, by decide,
    C7_pkcs7_unpad_split_behavior [1, 2] 2 (by decide) (by decide) (by decide)
      (by decide) (by decide) (by decide)⟩

/-- C9: the CBC, CFB, OFB and CTR adapters in state-passing form: Encrypt and
    Decrypt calls return the receiver unchanged (the Go methods copy the
    stored IV or counter into a local register and never write the receiver
    fields), so a second call on the returned adapter with the same input
    produces the same output. -/
theorem C9_mode_adapters_keep_state (cbc : modes.CBC) (cfb : modes.CFB)
    (ofb : modes.OFB) (ctr : modes.CTR) (input : List Nat) :
    ((modes.CBC.EncryptCall cbc input).2 = cbc ∧
      (modes.CBC.DecryptCall cbc input).2 = cbc ∧
      (modes.CFB.EncryptCall cfb input).2 = cfb ∧
      (modes.CFB.DecryptCall cfb input).2 = cfb ∧
      (modes.OFB.EncryptCall ofb input).2 = ofb ∧
      (modes.OFB.DecryptCall ofb input).2 = ofb ∧
      (modes.CTR.EncryptCall ctr input).2 = ctr ∧
      (modes.CTR.DecryptCall ctr input).2 = ctr) ∧
    ((modes.CBC.EncryptCall (modes.CBC.EncryptCall cbc input).2 input).1 =
        (modes.CBC.EncryptCall cbc input).1 ∧
      (modes.CBC.DecryptCall (modes.CBC.DecryptCall cbc input).2 input).1 =
        (modes.CBC.DecryptCall cbc input).1 ∧
      (modes.CFB.EncryptCall (modes.CFB.EncryptCall cfb input).2 input).1 =
        (modes.CFB.EncryptCall cfb input).1 ∧
      (modes.CFB.DecryptCall (modes.CFB.DecryptCall cfb input).2 input).1 =
        (modes.CFB.DecryptCall cfb input).1 ∧
      (modes.OFB.EncryptCall (modes.OFB.EncryptCall ofb input).2 input).1 =
        (modes.OFB.EncryptCall ofb input).1 ∧
      (modes.OFB.DecryptCall (modes.OFB.DecryptCall ofb input).2 input).1 =
        (modes.OFB.DecryptCall ofb input).1 ∧
      (modes.CTR.EncryptCall (modes.CTR.EncryptCall ctr input).2 input).1 =
        (modes.CTR.EncryptCall ctr input).1 ∧
      (modes.CTR.DecryptCall (modes.CTR.DecryptCall ctr input).2 input).1 =
        (modes.CTR.DecryptCall ctr input).1) :=
  ⟨⟨rfl, rfl, rfl, rfl, rfl, rfl, rfl, rfl⟩,
    rfl, rfl, rfl, rfl, rfl, rfl, rfl, rfl⟩

set_option maxRecDepth 200000 in
/-- C10: SM2 Decrypt collapses the one-byte plaintext 0x00 to the empty
    slice: a successful Decrypt never returns the list [0x00] (the branch
    that recovers it returns the empty list instead), and concretely, for the
    base-point key pair d = 1 with ephemeral scalar k = 1, decrypting the
    encryption of [0x00] yields the empty list. -/
theorem C10_sm2_decrypt_collapses_zero_byte :
    (∀ (d : Nat) (ct out : List Nat), sm2.Decrypt d ct = some out → out ≠ [0]) ∧
      (sm2.Encrypt sm2.Gx sm2.Gy [0] 1).bind (sm2.Decrypt 1) = some [] := by
  constructor
  · intro d ct out h hbad
    subst hbad
    simp only [sm2.Decrypt] at h
    split at h
    · exact Option.noConfusion h
    split at h
    · exact Option.noConfusion h
    split at h
    · exact Option.noConfusion h
    obtain ⟨p2, hp2, h⟩ := Option.bind_eq_some.mp h
    split at h
    · exact Option.noConfusion h
    obtain ⟨kdf, hkdf, h⟩ := Option.bind_eq_some.mp h
    obtain ⟨c3, hc3, h⟩ := Option.bind_eq_some.mp h
    split at h
    · exact Option.noConfusion h
    split at h
    · exact absurd (Option.some.inj h) (by decide)
    · rename_i hcond
      have hx := Option.some.inj h
      rw [hx] at hcond
      exact hcond (by decide)
  · decide

set_option maxRecDepth 100000 in
/-- C8: the SM3 digest of the ASCII string abc is the specified 32-byte
    value 66c7f0f462eeedd9d1f2d46bdc10e4e24167c4875cf2f7a2297da02b8f4ba8e0. -/
theorem C8_sm3_abc_digest :
    sm3.Sum [97, 98, 99] =
      some [0x66, 0xC7, 0xF0, 0xF4, 0x62, 0xEE, 0xED, 0xD9, 0xD1, 0xF2, 0xD4,
            0x6B, 0xDC, 0x10, 0xE4, 0xE2, 0x41, 0x67, 0xC4, 0x87, 0x5C, 0xF2,
            0xF7, 0xA2, 0x29, 0x7D, 0xA0, 0x2B, 0x8F, 0x4B, 0xA8, 0xE0] := by
  decide


/-- Every list of length 16 is the list of its first sixteen entries. -/
theorem list16_eq (l : List Nat) (h : l.length = 16) :
    l = [l.getD 0 0, l.getD 1 0, l.getD 2 0, l.getD 3 0, l.getD 4 0, l.getD 5 0,
         l.getD 6 0, l.getD 7 0, l.getD 8 0, l.getD 9 0, l.getD 10 0, l.getD 11 0,
         l.getD 12 0, l.getD 13 0, l.getD 14 0, l.getD 15 0] := by
  apply List.ext_getElem
  · simp [h]
  · intro i h1 h2
    have h16 : i < 16 := by simp [h] at h1; omega
    interval_cases i <;> simp [List.getD_eq_getElem, h]

/-- Every list of length 8 is the list of its first eight entries. -/
theorem list8_eq (l : List Nat) (h : l.length = 8) :
    l = [l.getD 0 0, l.getD 1 0, l.getD 2 0, l.getD 3 0, l.getD 4 0, l.getD 5 0,
         l.getD 6 0, l.getD 7 0] := by
  apply List.ext_getElem
  · simp [h]
  · intro i h1 h2
    have h8 : i < 8 := by simp [h] at h1; omega
    interval_cases i <;> simp [List.getD_eq_getElem, h]

/-- Table lookups in a byte table stay below the bound. -/
theorem getD_lt_of_all (l : List Nat) (c i : Nat) (hc : 0 < c) (h : ∀ b ∈ l, b < c) :
    l.getD i 0 < c := by
  rcases hl : l[i]? with _ | b
  · simp [List.getD, hl, hc]
  · have hb : b ∈ l := by
      have := List.getElem?_eq_some.mp hl
      exact this.choose_spec ▸ List.getElem_mem _
    simp [List.getD, hl]
    exact h b hb

/-- A mid xor cancels: a ^^^ b ^^^ c ^^^ b = a ^^^ c. -/
theorem xor_cancel_mid (a b c : Nat) : a ^^^ b ^^^ c ^^^ b = a ^^^ c := by
  rw [Nat.xor_assoc, Nat.xor_assoc, Nat.xor_comm c b, ← Nat.xor_assoc b b c,
    Nat.xor_self, Nat.zero_xor]

/-- τ produces a 32-bit word whenever the S-box holds bytes. -/
theorem sm4_tau_lt (sbox : List Nat) (hs : ∀ b ∈ sbox, b < 256) (x : Nat) :
    sm4.tau sbox x < 4294967296 := by
  have ha := getD_lt_of_all sbox 256 ((x >>> 24) % 256) (by omega) hs
  have hb := getD_lt_of_all sbox 256 ((x >>> 16) % 256) (by omega) hs
  have hc := getD_lt_of_all sbox 256 ((x >>> 8) % 256) (by omega) hs
  have hd := getD_lt_of_all sbox 256 (x % 256) (by omega) hs
  unfold sm4.tau
  have h32 : (4294967296 : Nat) = 2 ^ 32 := by norm_num
  rw [h32]
  apply Nat.or_lt_two_pow
  apply Nat.or_lt_two_pow
  apply Nat.or_lt_two_pow
  · rw [Nat.shiftLeft_eq]; omega
  · rw [Nat.shiftLeft_eq]; omega
  · rw [Nat.shiftLeft_eq]; omega
  · omega

/-- rotateLeft keeps 32-bit words 32-bit. -/
theorem sm4_rotateLeft_lt (x n : Nat) (hx : x < 4294967296) (hn : n ≤ 32) :
    sm4.rotateLeft x n < 4294967296 := by
  unfold sm4.rotateLeft
  have h32 : (4294967296 : Nat) = 2 ^ 32 := by norm_num
  rw [h32]
  apply Nat.or_lt_two_pow
  · rw [← h32]; exact Nat.mod_lt _ (by norm_num)
  · have : x >>> (32 - n) ≤ x := by
      rw [Nat.shiftRight_eq_div_pow]; exact Nat.div_le_self _ _
    omega

/-- The sm4 round function produces 32-bit words. -/
theorem sm4_F_lt (sbox : List Nat) (hs : ∀ b ∈ sbox, b < 256) (x : Nat) :
    sm4.feistelFunction sbox x < 4294967296 := by
  unfold sm4.feistelFunction
  have ht := sm4_tau_lt sbox hs x
  have h32 : (4294967296 : Nat) = 2 ^ 32 := by norm_num
  rw [h32]
  apply Nat.xor_lt_two_pow
  apply Nat.xor_lt_two_pow
  apply Nat.xor_lt_two_pow
  apply Nat.xor_lt_two_pow
  all_goals rw [← h32]
  · exact ht
  · exact sm4_rotateLeft_lt _ _ ht (by omega)
  · exact sm4_rotateLeft_lt _ _ ht (by omega)
  · exact sm4_rotateLeft_lt _ _ ht (by omega)
  · exact sm4_rotateLeft_lt _ _ ht (by omega)

/-- The sm4 round loop keeps all four words 32-bit. -/
theorem sm4_rounds_lt (sbox : List Nat) (hs : ∀ b ∈ sbox, b < 256) (rks : List Nat)
    (z : Nat × Nat × Nat × Nat)
    (hz : z.1 < 4294967296 ∧ z.2.1 < 4294967296 ∧ z.2.2.1 < 4294967296 ∧
      z.2.2.2 < 4294967296) :
    (sm4.rounds sbox rks z).1 < 4294967296 ∧
      (sm4.rounds sbox rks z).2.1 < 4294967296 ∧
      (sm4.rounds sbox rks z).2.2.1 < 4294967296 ∧
      (sm4.rounds sbox rks z).2.2.2 < 4294967296 := by
  induction rks generalizing z with
  | nil => exact hz
  | cons k ks ih =>
      simp only [sm4.rounds, List.foldl_cons]
      have hstep : (sm4.round sbox z k).1 < 4294967296 ∧
          (sm4.round sbox z k).2.1 < 4294967296 ∧
          (sm4.round sbox z k).2.2.1 < 4294967296 ∧
          (sm4.round sbox z k).2.2.2 < 4294967296 := by
        simp only [sm4.round]
        refine ⟨hz.2.1, hz.2.2.1, hz.2.2.2, ?_⟩
        have h32 : (4294967296 : Nat) = 2 ^ 32 := by norm_num
        rw [h32]
        apply Nat.xor_lt_two_pow
        · rw [← h32]; exact hz.1
        · rw [← h32]; exact sm4_F_lt sbox hs _
      exact ih _ hstep

/-- Xor is invariant under swapping the first and third operand. -/
theorem xor_swap13 (a b c d : Nat) : a ^^^ b ^^^ c ^^^ d = c ^^^ b ^^^ a ^^^ d := by
  apply Nat.eq_of_testBit_eq
  intro i
  simp only [Nat.testBit_xor]
  cases a.testBit i <;> cases b.testBit i <;> cases c.testBit i <;> cases d.testBit i <;> rfl

/-- One sm4 round applied to the word-reversed output of a round undoes it. -/
theorem sm4_step_inv (sbox : List Nat) (z : Nat × Nat × Nat × Nat) (rk : Nat) :
    sm4.round sbox
        ((sm4.round sbox z rk).2.2.2, (sm4.round sbox z rk).2.2.1,
         (sm4.round sbox z rk).2.1, (sm4.round sbox z rk).1) rk
      = (z.2.2.2, z.2.2.1, z.2.1, z.1) := by
  simp only [sm4.round]
  rw [xor_swap13 z.2.2.2 z.2.2.1 z.2.1 rk, Nat.xor_cancel_right]

/-- Running the sm4 rounds with reversed keys on the reversed words inverts
    the forward rounds. -/
theorem sm4_chain (sbox : List Nat) (rks : List Nat) (z : Nat × Nat × Nat × Nat) :
    sm4.rounds sbox rks.reverse
        ((sm4.rounds sbox rks z).2.2.2, (sm4.rounds sbox rks z).2.2.1,
         (sm4.rounds sbox rks z).2.1, (sm4.rounds sbox rks z).1)
      = (z.2.2.2, z.2.2.1, z.2.1, z.1) := by
  induction rks using List.reverseRecOn with
  | nil => simp [sm4.rounds]
  | append_singleton ks k ih =>
      simp only [sm4.rounds, List.foldl_append, List.foldl_cons, List.foldl_nil,
        List.reverse_append, List.reverse_cons, List.reverse_nil, List.nil_append,
        List.singleton_append] at *
      rw [sm4_step_inv]
      exact ih

/-- Byte 0 of an assembled word. -/
theorem beUint32_byte0 (b0 b1 b2 b3 : Nat) :
    sm4.beUint32 b0 b1 b2 b3 >>> 24 % 256 = b0 % 256 := by
  rw [beUint32_arith]
  simp only [Nat.shiftRight_eq_div_pow]
  omega

/-- Byte 1 of an assembled word. -/
theorem beUint32_byte1 (b0 b1 b2 b3 : Nat) :
    sm4.beUint32 b0 b1 b2 b3 >>> 16 % 256 = b1 % 256 := by
  rw [beUint32_arith]
  simp only [Nat.shiftRight_eq_div_pow]
  omega

/-- Byte 2 of an assembled word. -/
theorem beUint32_byte2 (b0 b1 b2 b3 : Nat) :
    sm4.beUint32 b0 b1 b2 b3 >>> 8 % 256 = b2 % 256 := by
  rw [beUint32_arith]
  simp only [Nat.shiftRight_eq_div_pow]
  omega

/-- Byte 3 of an assembled word. -/
theorem beUint32_byte3 (b0 b1 b2 b3 : Nat) :
    sm4.beUint32 b0 b1 b2 b3 % 256 = b3 % 256 := by
  rw [beUint32_arith]
  omega

/-- SM4 round trip on one block. -/
theorem sm4_roundtrip (t : sm4.Tables) (hs : ∀ b ∈ t.sbox, b < 256) (s : sm4.SM4)
    (pt : List Nat) (hlen : pt.length = 16) (hbytes : ∀ b ∈ pt, b < 256) :
    (sm4.Encrypt t s pt).bind (sm4.Decrypt t s) = some pt := by
  simp only [sm4.Encrypt]
  rw [if_neg (by simp [hlen] : ¬ pt.length ≠ 16)]
  simp only [Option.some_bind]
  set X0 := sm4.beUint32 (pt.getD 0 0) (pt.getD 1 0) (pt.getD 2 0) (pt.getD 3 0) with hX0
  set X1 := sm4.beUint32 (pt.getD 4 0) (pt.getD 5 0) (pt.getD 6 0) (pt.getD 7 0) with hX1
  set X2 := sm4.beUint32 (pt.getD 8 0) (pt.getD 9 0) (pt.getD 10 0) (pt.getD 11 0) with hX2
  set X3 := sm4.beUint32 (pt.getD 12 0) (pt.getD 13 0) (pt.getD 14 0) (pt.getD 15 0) with hX3
  set f := sm4.rounds t.sbox (sm4.rkSeq s) (X0, X1, X2, X3) with hfdef
  have hflt := sm4_rounds_lt t.sbox hs (sm4.rkSeq s) (X0, X1, X2, X3)
    ⟨by rw [hX0]; exact beUint32_lt _ _ _ _, by rw [hX1]; exact beUint32_lt _ _ _ _,
     by rw [hX2]; exact beUint32_lt _ _ _ _, by rw [hX3]; exact beUint32_lt _ _ _ _⟩
  rw [← hfdef] at hflt
  simp only [sm4.Decrypt]
  rw [if_neg (by simp [sm4.putUint32] : ¬ (sm4.putUint32 f.2.2.2 ++ sm4.putUint32 f.2.2.1 ++
    sm4.putUint32 f.2.1 ++ sm4.putUint32 f.1).length ≠ 16)]
  simp only [sm4.putUint32, List.cons_append, List.nil_append, List.getD_cons_succ,
    List.getD_cons_zero]
  rw [beUint32_of_put _ hflt.2.2.2, beUint32_of_put _ hflt.2.2.1,
    beUint32_of_put _ hflt.2.1, beUint32_of_put _ hflt.1]
  rw [hfdef, sm4_chain]
  dsimp only
  rw [hX0, hX1, hX2, hX3]
  have hmod : ∀ i, pt.getD i 0 % 256 = pt.getD i 0 := fun i =>
    Nat.mod_eq_of_lt (getD_lt_of_all pt 256 i (by omega) hbytes)
  simp only [beUint32_byte0, beUint32_byte1, beUint32_byte2, beUint32_byte3, hmod]
  rw [← list16_eq pt hlen]

/-- Go uint32 addition is 32-bit. -/
theorem add32_lt (a b : Nat) : add32 a b < 4294967296 := Nat.mod_lt _ (by norm_num)

/-- Xor of 32-bit values is 32-bit. -/
theorem xor32_lt (a b : Nat) (ha : a < 4294967296) (hb : b < 4294967296) :
    a ^^^ b < 4294967296 := by
  have h := Nat.xor_lt_two_pow (n := 32) (by norm_num [ha] : a < 2 ^ 32)
    (by norm_num [hb] : b < 2 ^ 32)
  norm_num at h
  exact h

/-- A fold preserves an invariant its step preserves. -/
theorem foldl_pres {α ι : Type} (f : α → ι → α) (P : α → Prop)
    (hpres : ∀ z i, P z → P (f z i)) (l : List ι) (z : α) (hz : P z) :
    P (List.foldl f z l) := by
  induction l generalizing z with
  | nil => exact hz
  | cons k ks ih => exact ih _ (hpres z k hz)

/-- Folding the inverse steps over the reversed list undoes a fold, for states
    in an invariant the forward step preserves. -/
theorem foldl_inverse {α ι : Type} (f g : α → ι → α) (P : α → Prop)
    (hpres : ∀ z i, P z → P (f z i))
    (hinv : ∀ z i, P z → g (f z i) i = z)
    (l : List ι) (z : α) (hz : P z) :
    List.foldl g (List.foldl f z l) l.reverse = z := by
  induction l using List.reverseRecOn with
  | nil => rfl
  | append_singleton ks k ih =>
      rw [List.foldl_append, List.foldl_cons, List.foldl_nil, List.reverse_append]
      simp only [List.reverse_cons, List.reverse_nil, List.nil_append, List.singleton_append]
      rw [List.foldl_cons, hinv _ k (foldl_pres f P hpres ks z hz)]
      exact ih

/-- The RC5 encryption loop keeps both halves 32-bit. -/
theorem rc5_encLoop_lt (S : List Nat) (n : Nat) (AB : Nat × Nat)
    (h1 : AB.1 < 4294967296) (h2 : AB.2 < 4294967296) :
    (rc5.encLoop S n AB).1 < 4294967296 ∧ (rc5.encLoop S n AB).2 < 4294967296 := by
  simp only [rc5.encLoop]
  exact foldl_pres _ (fun z : Nat × Nat => z.1 < 4294967296 ∧ z.2 < 4294967296)
    (fun z i hz => ⟨add32_lt _ _, add32_lt _ _⟩) _ _ ⟨h1, h2⟩

/-- The RC5 decryption loop undoes the encryption loop. -/
theorem rc5_chain (S : List Nat) (n : Nat) (AB : Nat × Nat)
    (h1 : AB.1 < 4294967296) (h2 : AB.2 < 4294967296) :
    rc5.decLoop S n (rc5.encLoop S n AB) = AB := by
  simp only [rc5.encLoop, rc5.decLoop]
  refine foldl_inverse _ _ (fun z => z.1 < 4294967296 ∧ z.2 < 4294967296) ?_ ?_ _ AB ⟨h1, h2⟩
  · intro z i hz
    exact ⟨add32_lt _ _, add32_lt _ _⟩
  · intro z i hz
    obtain ⟨a, b⟩ := z
    obtain ⟨hza, hzb⟩ := hz
    dsimp only
    set A1 := add32 (rotl32 (a ^^^ b) (b % 32)) (S.getD (2 * i) 0) with hA1def
    set B1 := add32 (rotl32 (b ^^^ A1) (A1 % 32)) (S.getD (2 * i + 1) 0) with hB1def
    have hA1lt : A1 < 4294967296 := by rw [hA1def]; exact add32_lt _ _
    have hB2 : rc5.rotr32 (rc5.sub32 B1 (S.getD (2 * i + 1) 0)) (A1 % 32) ^^^ A1 = b := by
      rw [hB1def, sub32_add32 _ _ (rotl32_lt _ _ (xor32_lt _ _ hzb hA1lt)),
        rotr32_rotl32 _ _ (xor32_lt _ _ hzb hA1lt), Nat.xor_cancel_right]
    rw [hB2]
    have hA2 : rc5.rotr32 (rc5.sub32 A1 (S.getD (2 * i) 0)) (b % 32) ^^^ b = a := by
      rw [hA1def, sub32_add32 _ _ (rotl32_lt _ _ (xor32_lt _ _ hza hzb)),
        rotr32_rotl32 _ _ (xor32_lt _ _ hza hzb), Nat.xor_cancel_right]
    rw [hA2]

/-- Byte 0 of a little-endian assembled word. -/
theorem leUint32_byte0 (b0 b1 b2 b3 : Nat) :
    rc5.leUint32 b0 b1 b2 b3 % 256 = b0 % 256 := by
  rw [leUint32_arith]; omega

/-- Byte 1 of a little-endian assembled word. -/
theorem leUint32_byte1 (b0 b1 b2 b3 : Nat) :
    rc5.leUint32 b0 b1 b2 b3 >>> 8 % 256 = b1 % 256 := by
  rw [leUint32_arith]
  simp only [Nat.shiftRight_eq_div_pow]
  omega

/-- Byte 2 of a little-endian assembled word. -/
theorem leUint32_byte2 (b0 b1 b2 b3 : Nat) :
    rc5.leUint32 b0 b1 b2 b3 >>> 16 % 256 = b2 % 256 := by
  rw [leUint32_arith]
  simp only [Nat.shiftRight_eq_div_pow]
  omega

/-- Byte 3 of a little-endian assembled word. -/
theorem leUint32_byte3 (b0 b1 b2 b3 : Nat) :
    rc5.leUint32 b0 b1 b2 b3 >>> 24 % 256 = b3 % 256 := by
  rw [leUint32_arith]
  simp only [Nat.shiftRight_eq_div_pow]
  omega

/-- RC5 round trip on one block. -/
theorem rc5_roundtrip (r : rc5.RC5) (block : List Nat) (hlen : block.length = 8)
    (hbytes : ∀ b ∈ block, b < 256) :
    (rc5.Encrypt r block).bind (rc5.Decrypt r) = some block := by
  simp only [rc5.Encrypt]
  rw [if_neg (by simp [hlen] : ¬ block.length ≠ 8)]
  simp only [Option.some_bind]
  set A := rc5.leUint32 (block.getD 0 0) (block.getD 1 0) (block.getD 2 0) (block.getD 3 0)
    with hA
  set B := rc5.leUint32 (block.getD 4 0) (block.getD 5 0) (block.getD 6 0) (block.getD 7 0)
    with hB
  set f := rc5.encLoop r.subKeys r.rounds
    (add32 A (r.subKeys.getD 0 0), add32 B (r.subKeys.getD 1 0)) with hf
  have hflt : f.1 < 4294967296 ∧ f.2 < 4294967296 := by
    rw [hf]; exact rc5_encLoop_lt _ _ _ (add32_lt _ _) (add32_lt _ _)
  simp only [rc5.Decrypt]
  rw [if_neg (by simp [rc5.lePutUint32] :
    ¬ (rc5.lePutUint32 f.1 ++ rc5.lePutUint32 f.2).length ≠ 8)]
  simp only [rc5.lePutUint32, List.cons_append, List.nil_append, List.getD_cons_succ,
    List.getD_cons_zero]
  rw [leUint32_of_put _ hflt.1, leUint32_of_put _ hflt.2]
  rw [hf, rc5_chain _ _ _ (add32_lt _ _) (add32_lt _ _)]
  dsimp only
  rw [sub32_add32 _ _ (by rw [hA]; exact leUint32_lt _ _ _ _),
    sub32_add32 _ _ (by rw [hB]; exact leUint32_lt _ _ _ _)]
  rw [hA, hB]
  have hmod : ∀ i, block.getD i 0 % 256 = block.getD i 0 := fun i =>
    Nat.mod_eq_of_lt (getD_lt_of_all block 256 i (by omega) hbytes)
  simp only [leUint32_byte0, leUint32_byte1, leUint32_byte2, leUint32_byte3, hmod]
  rw [← list8_eq block hlen]

/-- The twofish right rotation is rotl32 by 31. -/
theorem ror1_eq_rotl (w : Nat) : twofish.ror1 w = rotl32 w 31 := by
  unfold twofish.ror1 rotl32
  norm_num [Nat.or_comm]

/-- The twofish left rotation is rotl32 by 1. -/
theorem rol1_eq_rotl (w : Nat) : twofish.rol1 w = rotl32 w 1 := by
  unfold twofish.rol1 rotl32
  norm_num

/-- ror1 keeps 32-bit words 32-bit. -/
theorem ror1_lt (w : Nat) (hw : w < 4294967296) : twofish.ror1 w < 4294967296 := by
  rw [ror1_eq_rotl]; exact rotl32_lt _ _ hw

/-- rol1 keeps 32-bit words 32-bit. -/
theorem rol1_lt (w : Nat) (hw : w < 4294967296) : twofish.rol1 w < 4294967296 := by
  rw [rol1_eq_rotl]; exact rotl32_lt _ _ hw

/-- ror1 undoes rol1 on 32-bit words. -/
theorem ror1_rol1 (w : Nat) (hw : w < 4294967296) : twofish.ror1 (twofish.rol1 w) = w := by
  rw [ror1_eq_rotl, rol1_eq_rotl]
  have h : rotl32 (rotl32 w 1) 31 = rc5.rotr32 (rotl32 w 1) 1 := by
    unfold rc5.rotr32
    norm_num
  rw [h, rotr32_rotl32 _ _ hw]

/-- rol1 undoes ror1 on 32-bit words. -/
theorem rol1_ror1 (w : Nat) (hw : w < 4294967296) : twofish.rol1 (twofish.ror1 w) = w := by
  rw [ror1_eq_rotl, rol1_eq_rotl]
  have h : rotl32 (rotl32 w 31) 1 = rc5.rotr32 (rotl32 w 31) 31 := by
    unfold rc5.rotr32
    norm_num
  rw [h, rotr32_rotl32 _ _ hw]

/-- One twofish double round is undone by the matching decryption double
    round. -/
theorem twofish_pair_inv (t : twofish.Twofish) (w0 w1 w2 w3 kk : Nat)
    (h0 : w0 < 4294967296) (h1 : w1 < 4294967296) (h2 : w2 < 4294967296)
    (h3 : w3 < 4294967296) :
    twofish.decPair t (twofish.encPair t (w0, w1, w2, w3) kk) kk = (w0, w1, w2, w3) := by
  simp only [twofish.encPair]
  set t0a := twofish.g0 t w0 with ht0a
  set t1a := twofish.g1 t w1 with ht1a
  set W2 := twofish.ror1 (w2 ^^^ add32 (add32 t0a t1a) (t.k.getD kk 0)) with hW2
  set W3 := twofish.rol1 w3 ^^^ add32 (add32 t0a (2 * t1a)) (t.k.getD (kk + 1) 0) with hW3
  set t0b := twofish.g0 t W2 with ht0b
  set t1b := twofish.g1 t W3 with ht1b
  set W0 := twofish.ror1 (w0 ^^^ add32 (add32 t0b t1b) (t.k.getD (kk + 2) 0)) with hW0
  set W1 := twofish.rol1 w1 ^^^ add32 (add32 t0b (2 * t1b)) (t.k.getD (kk + 3) 0) with hW1
  simp only [twofish.decPair]
  rw [← ht0b, ← ht1b]
  rw [hW1, Nat.xor_cancel_right, ror1_rol1 w1 h1]
  rw [hW0, rol1_ror1 _ (xor32_lt _ _ h0 (add32_lt _ _)), Nat.xor_cancel_right]
  rw [← ht0a, ← ht1a]
  rw [hW3, Nat.xor_cancel_right, ror1_rol1 w3 h3]
  rw [hW2, rol1_ror1 _ (xor32_lt _ _ h2 (add32_lt _ _)), Nat.xor_cancel_right]

/-- The twofish round loop keeps all four words 32-bit. -/
theorem twofish_fold_lt (t : twofish.Twofish) (l : List Nat) (z : Nat × Nat × Nat × Nat)
    (hz : z.1 < 4294967296 ∧ z.2.1 < 4294967296 ∧ z.2.2.1 < 4294967296 ∧
      z.2.2.2 < 4294967296) :
    (List.foldl (twofish.encPair t) z l).1 < 4294967296 ∧
      (List.foldl (twofish.encPair t) z l).2.1 < 4294967296 ∧
      (List.foldl (twofish.encPair t) z l).2.2.1 < 4294967296 ∧
      (List.foldl (twofish.encPair t) z l).2.2.2 < 4294967296 := by
  refine foldl_pres _ (fun z : Nat × Nat × Nat × Nat =>
    z.1 < 4294967296 ∧ z.2.1 < 4294967296 ∧ z.2.2.1 < 4294967296 ∧
      z.2.2.2 < 4294967296) ?_ l z hz
  intro z i hz
  obtain ⟨a, b, c, d⟩ := z
  obtain ⟨ha, hb, hc, hd⟩ := hz
  simp only [twofish.encPair]
  refine ⟨ror1_lt _ (xor32_lt _ _ ha (add32_lt _ _)),
    xor32_lt _ _ (rol1_lt _ hb) (add32_lt _ _),
    ror1_lt _ (xor32_lt _ _ hc (add32_lt _ _)),
    xor32_lt _ _ (rol1_lt _ hd) (add32_lt _ _)⟩

/-- The twofish decryption rounds undo the encryption rounds. -/
theorem twofish_chain (t : twofish.Twofish) (l : List Nat) (z : Nat × Nat × Nat × Nat)
    (hz : z.1 < 4294967296 ∧ z.2.1 < 4294967296 ∧ z.2.2.1 < 4294967296 ∧
      z.2.2.2 < 4294967296) :
    List.foldl (twofish.decPair t) (List.foldl (twofish.encPair t) z l) l.reverse = z := by
  refine foldl_inverse _ _ (fun z : Nat × Nat × Nat × Nat =>
    z.1 < 4294967296 ∧ z.2.1 < 4294967296 ∧ z.2.2.1 < 4294967296 ∧
      z.2.2.2 < 4294967296) ?_ ?_ l z hz
  · intro z i hz
    have := twofish_fold_lt t [i] z hz
    simpa using this
  · intro z i hz
    obtain ⟨a, b, c, d⟩ := z
    exact twofish_pair_inv t a b c d i hz.1 hz.2.1 hz.2.2.1 hz.2.2.2

/-- The twofish byte packing agrees with the sm4 one. -/
theorem twofish_putUint32_eq : twofish.putUint32 = sm4.putUint32 := rfl

/-- Twofish round trip on one block. -/
theorem twofish_roundtrip (t : twofish.Twofish) (hk : ∀ x ∈ t.k, x < 4294967296)
    (block : List Nat) (hlen : block.length = 16) (hbytes : ∀ b ∈ block, b < 256) :
    (twofish.Encrypt t block).bind (twofish.Decrypt t) = some block := by
  have hk0 : ∀ i, t.k.getD i 0 < 4294967296 := fun i =>
    getD_lt_of_all t.k _ i (by norm_num) hk
  simp only [twofish.Encrypt]
  rw [if_neg (by simp [hlen] : ¬ block.length ≠ 16)]
  simp only [Option.some_bind]
  rw [twofish_beUint32_eq]
  set Y0 := sm4.beUint32 (block.getD 0 0) (block.getD 1 0) (block.getD 2 0) (block.getD 3 0)
    with hY0
  set Y1 := sm4.beUint32 (block.getD 4 0) (block.getD 5 0) (block.getD 6 0) (block.getD 7 0)
    with hY1
  set Y2 := sm4.beUint32 (block.getD 8 0) (block.getD 9 0) (block.getD 10 0) (block.getD 11 0)
    with hY2
  set Y3 := sm4.beUint32 (block.getD 12 0) (block.getD 13 0) (block.getD 14 0)
    (block.getD 15 0) with hY3
  set f := List.foldl (twofish.encPair t)
    (Y0 ^^^ t.k.getD 0 0, Y1 ^^^ t.k.getD 1 0, Y2 ^^^ t.k.getD 2 0, Y3 ^^^ t.k.getD 3 0)
    twofish.encOffsets with hf
  have hz : (Y0 ^^^ t.k.getD 0 0) < 4294967296 ∧ (Y1 ^^^ t.k.getD 1 0) < 4294967296 ∧
      (Y2 ^^^ t.k.getD 2 0) < 4294967296 ∧ (Y3 ^^^ t.k.getD 3 0) < 4294967296 :=
    ⟨xor32_lt _ _ (by rw [hY0]; exact beUint32_lt _ _ _ _) (hk0 0),
     xor32_lt _ _ (by rw [hY1]; exact beUint32_lt _ _ _ _) (hk0 1),
     xor32_lt _ _ (by rw [hY2]; exact beUint32_lt _ _ _ _) (hk0 2),
     xor32_lt _ _ (by rw [hY3]; exact beUint32_lt _ _ _ _) (hk0 3)⟩
  have hflt := twofish_fold_lt t twofish.encOffsets
    (Y0 ^^^ t.k.getD 0 0, Y1 ^^^ t.k.getD 1 0, Y2 ^^^ t.k.getD 2 0, Y3 ^^^ t.k.getD 3 0) hz
  rw [← hf] at hflt
  simp only [twofish.Decrypt]
  rw [twofish_putUint32_eq, twofish_beUint32_eq]
  rw [if_neg (by simp [sm4.putUint32] :
    ¬ (sm4.putUint32 (f.2.2.1 ^^^ t.k.getD 4 0) ++ sm4.putUint32 (f.2.2.2 ^^^ t.k.getD 5 0) ++
       sm4.putUint32 (f.1 ^^^ t.k.getD 6 0) ++
       sm4.putUint32 (f.2.1 ^^^ t.k.getD 7 0)).length ≠ 16)]
  simp only [sm4.putUint32, List.cons_append, List.nil_append, List.getD_cons_succ,
    List.getD_cons_zero]
  rw [beUint32_of_put _ (xor32_lt _ _ hflt.2.2.1 (hk0 4)),
    beUint32_of_put _ (xor32_lt _ _ hflt.2.2.2 (hk0 5)),
    beUint32_of_put _ (xor32_lt _ _ hflt.1 (hk0 6)),
    beUint32_of_put _ (xor32_lt _ _ hflt.2.1 (hk0 7))]
  rw [Nat.xor_cancel_right, Nat.xor_cancel_right, Nat.xor_cancel_right, Nat.xor_cancel_right]
  simp only [Prod.mk.eta]
  rw [hf, twofish_chain t twofish.encOffsets
    (Y0 ^^^ t.k.getD 0 0, Y1 ^^^ t.k.getD 1 0, Y2 ^^^ t.k.getD 2 0, Y3 ^^^ t.k.getD 3 0) hz]
  rw [Nat.xor_cancel_right, Nat.xor_cancel_right, Nat.xor_cancel_right, Nat.xor_cancel_right]
  rw [hY0, hY1, hY2, hY3]
  have hmod : ∀ i, block.getD i 0 % 256 = block.getD i 0 := fun i =>
    Nat.mod_eq_of_lt (getD_lt_of_all block 256 i (by omega) hbytes)
  simp only [beUint32_byte0, beUint32_byte1, beUint32_byte2, beUint32_byte3, hmod]
  rw [← list16_eq block hlen]

/-- A fold preserves an invariant its step preserves on the list members. -/
theorem foldl_pres_mem {α ι : Type} (f : α → ι → α) (P : α → Prop) (l : List ι)
    (hpres : ∀ z i, i ∈ l → P z → P (f z i)) (z : α) (hz : P z) :
    P (List.foldl f z l) := by
  induction l generalizing z with
  | nil => exact hz
  | cons k ks ih =>
      exact ih (fun z i hi hz => hpres z i (List.mem_cons_of_mem _ hi) hz) _
        (hpres z k (List.mem_cons_self _ _) hz)

/-- The first decryption round of blowfish undoes the output whitening and
    the extra swap of encryptBlock. -/
theorem blowfish_dec_start (b : blowfish.Boxes) (f : Nat × Nat) (k17 k16 : Nat) :
    blowfish.encRound b (f.2 ^^^ k17, f.1 ^^^ k16) k17 =
      (f.1 ^^^ k16 ^^^ blowfish.feistel b f.2, f.2) := by
  simp only [blowfish.encRound, Nat.xor_cancel_right]

/-- A middle decryption round of blowfish peels one encryption round. -/
theorem blowfish_dec_step (b : blowfish.Boxes) (z : Nat × Nat) (kp k : Nat) :
    blowfish.encRound b
        ((blowfish.encRound b z kp).1 ^^^ k ^^^ blowfish.feistel b (blowfish.encRound b z kp).2,
         (blowfish.encRound b z kp).2) k =
      (z.1 ^^^ kp ^^^ blowfish.feistel b z.2, z.2) := by
  simp only [blowfish.encRound, xor_cancel_mid, Nat.xor_cancel_right]

/-- decryptBlock undoes encryptBlock for every box state. -/
theorem blowfish_block_inv (b : blowfish.Boxes) (lr : Nat × Nat) :
    blowfish.decryptBlock b (blowfish.encryptBlock b lr) = lr := by
  simp only [blowfish.encryptBlock, blowfish.decryptBlock, blowfish.encKeys,
    blowfish.decKeys, List.foldl_cons, List.foldl_nil]
  rw [blowfish_dec_start]
  simp only [blowfish_dec_step]
  simp only [blowfish.encRound, xor_cancel_mid, Nat.xor_cancel_right]

/-- The blowfish feistel output is 32-bit. -/
theorem blowfish_feistel_lt (b : blowfish.Boxes) (x : Nat) :
    blowfish.feistel b x < 4294967296 := add32_lt _ _

/-- encryptBlock keeps both halves 32-bit when the P-array holds 32-bit
    words. -/
theorem blowfish_encryptBlock_lt (b : blowfish.Boxes) (hp : ∀ w ∈ b.p, w < 4294967296)
    (lr : Nat × Nat) (h1 : lr.1 < 4294967296) (h2 : lr.2 < 4294967296) :
    (blowfish.encryptBlock b lr).1 < 4294967296 ∧
      (blowfish.encryptBlock b lr).2 < 4294967296 := by
  have hpd : ∀ i, b.p.getD i 0 < 4294967296 := fun i =>
    getD_lt_of_all b.p _ i (by norm_num) hp
  have hkeys : ∀ x ∈ blowfish.encKeys b, x < 4294967296 := by
    intro x hx
    simp only [blowfish.encKeys, List.mem_cons, List.not_mem_nil, or_false] at hx
    rcases hx with rfl | rfl | rfl | rfl | rfl | rfl | rfl | rfl | rfl | rfl | rfl | rfl |
      rfl | rfl | rfl | rfl <;> exact hpd _
  have hfold := foldl_pres_mem (blowfish.encRound b)
    (fun z : Nat × Nat => z.1 < 4294967296 ∧ z.2 < 4294967296) (blowfish.encKeys b)
    (fun z i hi hz => ⟨xor32_lt _ _ hz.2 (blowfish_feistel_lt b _),
      xor32_lt _ _ hz.1 (hkeys i hi)⟩) lr ⟨h1, h2⟩
  simp only [blowfish.encryptBlock]
  exact ⟨xor32_lt _ _ hfold.2 (hpd 17), xor32_lt _ _ hfold.1 (hpd 16)⟩

/-- Blowfish round trip on one block. -/
theorem blowfish_roundtrip (b : blowfish.Boxes) (hp : ∀ w ∈ b.p, w < 4294967296)
    (block : List Nat) (hlen : block.length = 8) (hbytes : ∀ x ∈ block, x < 256) :
    (blowfish.Encrypt b block).bind (blowfish.Decrypt b) = some block := by
  simp only [blowfish.Encrypt]
  rw [if_neg (by simp [hlen] : ¬ block.length ≠ 8)]
  simp only [Option.some_bind]
  rw [blowfish_beUint32_eq]
  set L := sm4.beUint32 (block.getD 0 0) (block.getD 1 0) (block.getD 2 0) (block.getD 3 0)
    with hL
  set R := sm4.beUint32 (block.getD 4 0) (block.getD 5 0) (block.getD 6 0) (block.getD 7 0)
    with hR
  set f := blowfish.encryptBlock b (L, R) with hf
  have hflt : f.1 < 4294967296 ∧ f.2 < 4294967296 := by
    rw [hf]
    exact blowfish_encryptBlock_lt b hp (L, R)
      (by rw [hL]; exact beUint32_lt _ _ _ _) (by rw [hR]; exact beUint32_lt _ _ _ _)
  simp only [blowfish.Decrypt]
  have hpq : blowfish.putUint32 = sm4.putUint32 := rfl
  rw [hpq, blowfish_beUint32_eq]
  rw [if_neg (by simp [sm4.putUint32] :
    ¬ (sm4.putUint32 f.1 ++ sm4.putUint32 f.2).length ≠ 8)]
  simp only [sm4.putUint32, List.cons_append, List.nil_append, List.getD_cons_succ,
    List.getD_cons_zero]
  rw [beUint32_of_put _ hflt.1, beUint32_of_put _ hflt.2]
  simp only [Prod.mk.eta]
  rw [hf, blowfish_block_inv]
  rw [hL, hR]
  have hmod : ∀ i, block.getD i 0 % 256 = block.getD i 0 := fun i =>
    Nat.mod_eq_of_lt (getD_lt_of_all block 256 i (by omega) hbytes)
  simp only [beUint32_byte0, beUint32_byte1, beUint32_byte2, beUint32_byte3, hmod]
  rw [← list8_eq block hlen]

/-- Bit j of the constant 1. -/
theorem testBit_one_eq (m : Nat) : (1 : Nat).testBit m = decide (m = 0) := by
  cases m with
  | zero => decide
  | succ m =>
      rw [Nat.testBit_succ]
      norm_num

/-- Bit j of the accumulator of the bit-selection loop of des.go. -/
theorem permute_fold_testBit (tbl : List Nat) (width inBase input : Nat) (l : List Nat)
    (out : Nat) (j : Nat) :
    (l.foldl (fun out i =>
        if (input >>> (inBase - (tbl.getD i 0 - 1))) &&& 1 = 1 then
          out ||| (1 <<< (width - 1 - i))
        else out) out).testBit j =
      (out.testBit j ||
        l.any (fun i => decide (width - 1 - i = j) &&
          ((input >>> (inBase - (tbl.getD i 0 - 1))) &&& 1 == 1))) := by
  induction l generalizing out with
  | nil => simp
  | cons i l ih =>
      rw [List.foldl_cons, ih, List.any_cons]
      have hstep : ((if (input >>> (inBase - (tbl.getD i 0 - 1))) &&& 1 = 1 then
          out ||| (1 <<< (width - 1 - i)) else out).testBit j)
          = (out.testBit j || (decide (width - 1 - i = j) &&
            ((input >>> (inBase - (tbl.getD i 0 - 1))) &&& 1 == 1))) := by
        split
        · rename_i hc
          rw [Nat.testBit_or, Nat.testBit_shiftLeft, testBit_one_eq]
          have hb : ((input >>> (inBase - (tbl.getD i 0 - 1))) &&& 1 == 1) = true := by
            rw [hc]
            rfl
          rw [hb, Bool.and_true]
          congr 1
          rw [← Bool.decide_and, decide_eq_decide]
          omega
        · rename_i hc
          have hb : ((input >>> (inBase - (tbl.getD i 0 - 1))) &&& 1 == 1) = false := by
            simp only [beq_eq_false_iff_ne, ne_eq]
            exact hc
          rw [hb, Bool.and_false, Bool.or_false]
      rw [hstep, Bool.or_assoc]

/-- Bits at or above the width are never set by the bit-selection loop. -/
theorem permute_testBit_ge (tbl : List Nat) (width inBase input j : Nat)
    (hj : width ≤ j) : (des.permute tbl width inBase input).testBit j = false := by
  simp only [des.permute]
  rw [permute_fold_testBit]
  rw [Nat.zero_testBit, Bool.false_or]
  rw [List.any_eq_false]
  intro i hi
  rw [List.mem_range] at hi
  simp only [Bool.and_eq_true, decide_eq_true_eq, not_and]
  intro hix
  omega

/-- The output of the bit-selection loop is below 2 ^ width. -/
theorem permute_lt (tbl : List Nat) (width inBase input : Nat) :
    des.permute tbl width inBase input < 2 ^ width := by
  simp only [des.permute]
  refine foldl_pres_mem _ (fun out => out < 2 ^ width) _ ?_ 0 (Nat.two_pow_pos width)
  intro z i hi hz
  rw [List.mem_range] at hi
  split
  · refine Nat.or_lt_two_pow hz ?_
    rw [Nat.one_shiftLeft]
    exact Nat.pow_lt_pow_right (by norm_num) (by omega)
  · exact hz

/-- Bit j < 64 of a 64-bit bit-selection: the input bit the table names. -/
theorem permute64_testBit (tbl : List Nat) (input j : Nat) (hj : j < 64) :
    (des.permute tbl 64 63 input).testBit j =
      input.testBit (63 - (tbl.getD (63 - j) 0 - 1)) := by
  simp only [des.permute]
  rw [permute_fold_testBit, Nat.zero_testBit, Bool.false_or]
  have hbit : ∀ k, ((input >>> k) &&& 1 == 1) = input.testBit k := by
    intro k
    rw [Nat.testBit_to_div_mod, Nat.and_one_is_mod, Nat.shiftRight_eq_div_pow]
    cases hv : input / 2 ^ k % 2 == 1
    · simp only [beq_eq_false_iff_ne, ne_eq] at hv
      simp [hv]
    · rw [beq_iff_eq] at hv
      simp [hv]
  rcases hres : input.testBit (63 - (tbl.getD (63 - j) 0 - 1)) with _ | _
  · rw [List.any_eq_false]
    intro i hi
    rw [List.mem_range] at hi
    simp only [Bool.and_eq_true, decide_eq_true_eq]
    rintro ⟨hix, hbi⟩
    have hieq : i = 63 - j := by omega
    rw [hbit] at hbi
    rw [hieq, hres] at hbi
    exact Bool.noConfusion hbi
  · rw [List.any_eq_true]
    refine ⟨63 - j, List.mem_range.mpr (by omega), ?_⟩
    simp only [Bool.and_eq_true, decide_eq_true_eq]
    exact ⟨by omega, by rw [hbit, hres]⟩

/-- A value below 2 ^ 64 has no bits at positions 64 and higher. -/
theorem testBit_ge64_false (x j : Nat) (hx : x < 18446744073709551616) (hj : 64 ≤ j) :
    x.testBit j = false := by
  apply Nat.testBit_lt_two_pow
  calc x < 2 ^ 64 := by norm_num [hx]
  _ ≤ 2 ^ j := Nat.pow_le_pow_right (by norm_num) hj

/-- The initial permutation undoes the final permutation on 64-bit values. -/
theorem des_IP_FP (x : Nat) (hx : x < 18446744073709551616) :
    des.initialPermutation (des.finalPermutation x) = x := by
  apply Nat.eq_of_testBit_eq
  intro j
  by_cases hj : j < 64
  · simp only [des.initialPermutation, des.finalPermutation]
    rw [permute64_testBit _ _ _ hj, permute64_testBit _ _ _ (by omega)]
    congr 1
    exact (by decide : ∀ jj, jj < 64 →
      63 - (des.FPtable.getD (63 - (63 - (des.IPtable.getD (63 - jj) 0 - 1))) 0 - 1) = jj) j hj
  · simp only [des.initialPermutation, des.finalPermutation]
    rw [permute_testBit_ge _ _ _ _ _ (by omega : (64:Nat) ≤ j), testBit_ge64_false x j hx (by omega)]

/-- The final permutation undoes the initial permutation on 64-bit values. -/
theorem des_FP_IP (x : Nat) (hx : x < 18446744073709551616) :
    des.finalPermutation (des.initialPermutation x) = x := by
  apply Nat.eq_of_testBit_eq
  intro j
  by_cases hj : j < 64
  · simp only [des.initialPermutation, des.finalPermutation]
    rw [permute64_testBit _ _ _ hj, permute64_testBit _ _ _ (by omega)]
    congr 1
    exact (by decide : ∀ jj, jj < 64 →
      63 - (des.IPtable.getD (63 - (63 - (des.FPtable.getD (63 - jj) 0 - 1))) 0 - 1) = jj) j hj
  · simp only [des.initialPermutation, des.finalPermutation]
    rw [permute_testBit_ge _ _ _ _ _ (by omega : (64:Nat) ≤ j), testBit_ge64_false x j hx (by omega)]

/-- One DES round applied to the swapped output of a round undoes it. -/
theorem des_round_swap_step (F : Nat → Nat → Nat) (y : Nat × Nat) (k : Nat) :
    des.round F ((des.round F y k).2, (des.round F y k).1) k = (y.2, y.1) := by
  simp only [des.round, Nat.xor_cancel_right]

/-- The DES rounds with reversed keys on the swapped halves undo the forward
    rounds. -/
theorem des_chain (F : Nat → Nat → Nat) (ks : List Nat) (z : Nat × Nat) :
    List.foldl (des.round F)
        ((List.foldl (des.round F) z ks).2, (List.foldl (des.round F) z ks).1) ks.reverse
      = (z.2, z.1) := by
  induction ks using List.reverseRecOn with
  | nil => rfl
  | append_singleton ks k ih =>
      rw [List.foldl_append, List.foldl_cons, List.foldl_nil, List.reverse_append]
      simp only [List.reverse_cons, List.reverse_nil, List.nil_append,
        List.singleton_append, List.foldl_cons]
      rw [des_round_swap_step]
      exact ih

/-- The DES round function is a 32-bit value. -/
theorem des_F_lt (t : des.Tables) (r k : Nat) :
    des.feistelFunction t r k < 4294967296 := by
  have hgen : ∀ x, des.permute t.p 32 31 x < 4294967296 := by
    intro x
    have h := permute_lt t.p 32 31 x
    norm_num at h
    exact h
  unfold des.feistelFunction
  exact hgen _

/-- The top half of a packed 64-bit state. -/
theorem pack64_hi (a b : Nat) (hb : b < 4294967296) : ((a <<< 32) ||| b) >>> 32 = a := by
  rw [or_shift_add a b 32 (lt_of_lt_of_eq hb (by norm_num)),
    Nat.shiftRight_eq_div_pow]
  norm_num
  omega

/-- The bottom half of a packed 64-bit state. -/
theorem pack64_lo (a b : Nat) (hb : b < 4294967296) :
    ((a <<< 32) ||| b) % 4294967296 = b := by
  rw [or_shift_add a b 32 (lt_of_lt_of_eq hb (by norm_num))]
  omega

/-- A state packed from 32-bit halves is a 64-bit value. -/
theorem pack64_lt (a b : Nat) (ha : a < 4294967296) (hb : b < 4294967296) :
    ((a <<< 32) ||| b) < 18446744073709551616 := by
  rw [or_shift_add a b 32 (lt_of_lt_of_eq hb (by norm_num))]
  omega

/-- Splitting a 64-bit state into halves and re-packing is the identity. -/
theorem unpack_pack (S : Nat) (hS : S < 18446744073709551616) :
    ((((S >>> 32) % 4294967296) <<< 32) ||| (S % 4294967296)) = S := by
  have h1 : S >>> 32 < 4294967296 := by
    rw [Nat.shiftRight_eq_div_pow]
    norm_num
    omega
  rw [Nat.mod_eq_of_lt h1,
    or_shift_add _ _ 32 (lt_of_lt_of_eq (Nat.mod_lt _ (by norm_num)) (by norm_num)),
    Nat.shiftRight_eq_div_pow]
  norm_num
  omega

/-- DES round trip on one block. -/
theorem des_roundtrip (t : des.Tables) (d : des.DES) (block : List Nat)
    (hlen : block.length = 8) (hbytes : ∀ x ∈ block, x < 256) :
    (des.Encrypt t d block).bind (des.Decrypt t d) = some block := by
  simp only [des.Encrypt]
  rw [if_neg (by simp [hlen] : ¬ block.length ≠ 8)]
  simp only [Option.some_bind]
  set S := des.initialPermutation (des.beUint64 block) with hSdef
  set f := List.foldl (des.round (des.feistelFunction t))
    ((S >>> 32) % 4294967296, S % 4294967296) (des.keySeq d) with hf
  have hflt : f.1 < 4294967296 ∧ f.2 < 4294967296 := by
    rw [hf]
    exact foldl_pres _ (fun z : Nat × Nat => z.1 < 4294967296 ∧ z.2 < 4294967296)
      (fun z i hz => ⟨hz.2, xor32_lt _ _ hz.1 (des_F_lt t _ _)⟩) _ _
      ⟨Nat.mod_lt _ (by norm_num), Nat.mod_lt _ (by norm_num)⟩
  have hpack : (f.2 <<< 32) ||| f.1 < 18446744073709551616 := pack64_lt _ _ hflt.2 hflt.1
  have hFPlt : des.finalPermutation ((f.2 <<< 32) ||| f.1) < 18446744073709551616 := by
    simp only [des.finalPermutation]
    have h := permute_lt des.FPtable 64 63 ((f.2 <<< 32) ||| f.1)
    norm_num at h
    exact h
  have hSlt : S < 18446744073709551616 := by
    rw [hSdef]
    simp only [des.initialPermutation]
    have h := permute_lt des.IPtable 64 63 (des.beUint64 block)
    norm_num at h
    exact h
  simp only [des.Decrypt]
  rw [if_neg (by simp [des.putUint64] :
    ¬ (des.putUint64 (des.finalPermutation ((f.2 <<< 32) ||| f.1))).length ≠ 8)]
  rw [beUint64_of_put _ hFPlt]
  rw [des_IP_FP _ hpack]
  rw [pack64_hi _ _ hflt.1, Nat.mod_eq_of_lt hflt.2, pack64_lo _ _ hflt.1]
  rw [hf, des_chain]
  rw [unpack_pack S hSlt]
  rw [hSdef, des_FP_IP _ (beUint64_lt block)]
  rw [put_of_beUint64]
  have hmod : ∀ i, block.getD i 0 % 256 = block.getD i 0 := fun i =>
    Nat.mod_eq_of_lt (getD_lt_of_all block 256 i (by omega) hbytes)
  simp only [hmod]
  rw [← list8_eq block hlen]

/-- Xor of values below 256 stays below 256. -/
theorem xor256_lt (a b : Nat) (ha : a < 256) (hb : b < 256) : a ^^^ b < 256 := by
  have h := Nat.xor_lt_two_pow (n := 8) (by norm_num [ha] : a < 2 ^ 8)
    (by norm_num [hb] : b < 2 ^ 8)
  norm_num at h
  exact h

/-- Reduction modulo 256 distributes over xor. -/
theorem xor_mod256 (a b : Nat) : (a ^^^ b) % 256 = a % 256 ^^^ b % 256 := by
  apply Nat.eq_of_testBit_eq
  intro i
  have h256 : (256 : Nat) = 2 ^ 8 := by norm_num
  simp only [h256, Nat.testBit_mod_two_pow, Nat.testBit_xor]
  cases decide (i < 8) <;> cases a.testBit i <;> cases b.testBit i <;> rfl

/-- Pairwise regrouping of a fourfold xor. -/
theorem xor_xor_perm (a b c d : Nat) : (a ^^^ b) ^^^ (c ^^^ d) = (a ^^^ c) ^^^ (b ^^^ d) := by
  apply Nat.eq_of_testBit_eq
  intro i
  simp only [Nat.testBit_xor]
  cases a.testBit i <;> cases b.testBit i <;> cases c.testBit i <;> cases d.testBit i <;> rfl

/-- xtime is additive over xor. -/
theorem xtime_xor (x y : Nat) : aes.xtime (x ^^^ y) = aes.xtime x ^^^ aes.xtime y := by
  unfold aes.xtime
  rw [shiftLeft_xor_distrib, xor_mod256]
  rw [Nat.testBit_xor]
  rcases hx : x.testBit 7 with _ | _ <;> rcases hy : y.testBit 7 with _ | _ <;>
    rw [xor_xor_perm] <;> simp

/-- xtime stays below 256. -/
theorem xtime_lt (b : Nat) : aes.xtime b < 256 := by
  unfold aes.xtime
  refine xor256_lt _ _ (Nat.mod_lt _ (by norm_num)) ?_
  split <;> norm_num

/-- The peasant multiplication is additive over xor in its variable operand. -/
theorem gfmulAux_xor (fuel c x y : Nat) :
    aes.gfmulAux fuel c (x ^^^ y) = aes.gfmulAux fuel c x ^^^ aes.gfmulAux fuel c y := by
  induction fuel generalizing c x y with
  | zero => simp [aes.gfmulAux]
  | succ fuel ih =>
      simp only [aes.gfmulAux]
      rw [xtime_xor, ih]
      split
      · rw [xor_xor_perm]
      · rw [xor_xor_perm]
        simp

/-- gfmul is additive over xor. -/
theorem gfmul_xor (c x y : Nat) :
    aes.gfmul c (x ^^^ y) = aes.gfmul c x ^^^ aes.gfmul c y := gfmulAux_xor 8 c x y

/-- The peasant multiplication keeps bytes below 256. -/
theorem gfmulAux_lt (fuel c x : Nat) (hx : x < 256) : aes.gfmulAux fuel c x < 256 := by
  induction fuel generalizing c x with
  | zero => simp [aes.gfmulAux]
  | succ fuel ih =>
      simp only [aes.gfmulAux]
      refine xor256_lt _ _ ?_ (ih _ _ (xtime_lt x))
      split <;> omega

/-- gfmul keeps bytes below 256. -/
theorem gfmul_lt (c x : Nat) (hx : x < 256) : aes.gfmul c x < 256 := gfmulAux_lt 8 c x hx

set_option maxRecDepth 40000 in
set_option maxHeartbeats 3000000 in
/-- Transposing a four-by-four xor grid. -/
theorem xor16_regroup (x00 x01 x02 x03 x10 x11 x12 x13 x20 x21 x22 x23 x30 x31 x32 x33 : Nat) :
    (x00 ^^^ x01 ^^^ x02 ^^^ x03) ^^^ (x10 ^^^ x11 ^^^ x12 ^^^ x13) ^^^
      (x20 ^^^ x21 ^^^ x22 ^^^ x23) ^^^ (x30 ^^^ x31 ^^^ x32 ^^^ x33) =
    (x00 ^^^ x10 ^^^ x20 ^^^ x30) ^^^ (x01 ^^^ x11 ^^^ x21 ^^^ x31) ^^^
      (x02 ^^^ x12 ^^^ x22 ^^^ x32) ^^^ (x03 ^^^ x13 ^^^ x23 ^^^ x33) := by
  apply Nat.eq_of_testBit_eq
  intro i
  simp only [Nat.testBit_xor]
  generalize x00.testBit i = b00
  generalize x01.testBit i = b01
  generalize x02.testBit i = b02
  generalize x03.testBit i = b03
  generalize x10.testBit i = b10
  generalize x11.testBit i = b11
  generalize x12.testBit i = b12
  generalize x13.testBit i = b13
  generalize x20.testBit i = b20
  generalize x21.testBit i = b21
  generalize x22.testBit i = b22
  generalize x23.testBit i = b23
  generalize x30.testBit i = b30
  generalize x31.testBit i = b31
  generalize x32.testBit i = b32
  generalize x33.testBit i = b33
  revert b00 b01 b02 b03 b10 b11 b12 b13 b20 b21 b22 b23 b30 b31 b32 b33
  decide

set_option maxRecDepth 40000 in
/-- GF(2^8) dot product of inverse row 0 with forward column 0. -/
theorem aes_coef_0_0 (a : Nat) (h : a < 256) :
    aes.gfmul 14 (aes.gfmul 2 a) ^^^ aes.gfmul 11 a ^^^ aes.gfmul 13 a ^^^ aes.gfmul 9 (aes.gfmul 3 a) = a :=
  (by decide : ∀ a, a < 256 → aes.gfmul 14 (aes.gfmul 2 a) ^^^ aes.gfmul 11 a ^^^ aes.gfmul 13 a ^^^ aes.gfmul 9 (aes.gfmul 3 a) = a) a h

set_option maxRecDepth 40000 in
/-- GF(2^8) dot product of inverse row 0 with forward column 1. -/
theorem aes_coef_0_1 (a : Nat) (h : a < 256) :
    aes.gfmul 14 (aes.gfmul 3 a) ^^^ aes.gfmul 11 (aes.gfmul 2 a) ^^^ aes.gfmul 13 a ^^^ aes.gfmul 9 a = 0 :=
  (by decide : ∀ a, a < 256 → aes.gfmul 14 (aes.gfmul 3 a) ^^^ aes.gfmul 11 (aes.gfmul 2 a) ^^^ aes.gfmul 13 a ^^^ aes.gfmul 9 a = 0) a h

set_option maxRecDepth 40000 in
/-- GF(2^8) dot product of inverse row 0 with forward column 2. -/
theorem aes_coef_0_2 (a : Nat) (h : a < 256) :
    aes.gfmul 14 a ^^^ aes.gfmul 11 (aes.gfmul 3 a) ^^^ aes.gfmul 13 (aes.gfmul 2 a) ^^^ aes.gfmul 9 a = 0 :=
  (by decide : ∀ a, a < 256 → aes.gfmul 14 a ^^^ aes.gfmul 11 (aes.gfmul 3 a) ^^^ aes.gfmul 13 (aes.gfmul 2 a) ^^^ aes.gfmul 9 a = 0) a h

set_option maxRecDepth 40000 in
/-- GF(2^8) dot product of inverse row 0 with forward column 3. -/
theorem aes_coef_0_3 (a : Nat) (h : a < 256) :
    aes.gfmul 14 a ^^^ aes.gfmul 11 a ^^^ aes.gfmul 13 (aes.gfmul 3 a) ^^^ aes.gfmul 9 (aes.gfmul 2 a) = 0 :=
  (by decide : ∀ a, a < 256 → aes.gfmul 14 a ^^^ aes.gfmul 11 a ^^^ aes.gfmul 13 (aes.gfmul 3 a) ^^^ aes.gfmul 9 (aes.gfmul 2 a) = 0) a h

set_option maxRecDepth 40000 in
/-- GF(2^8) dot product of inverse row 1 with forward column 0. -/
theorem aes_coef_1_0 (a : Nat) (h : a < 256) :
    aes.gfmul 9 (aes.gfmul 2 a) ^^^ aes.gfmul 14 a ^^^ aes.gfmul 11 a ^^^ aes.gfmul 13 (aes.gfmul 3 a) = 0 :=
  (by decide : ∀ a, a < 256 → aes.gfmul 9 (aes.gfmul 2 a) ^^^ aes.gfmul 14 a ^^^ aes.gfmul 11 a ^^^ aes.gfmul 13 (aes.gfmul 3 a) = 0) a h

set_option maxRecDepth 40000 in
/-- GF(2^8) dot product of inverse row 1 with forward column 1. -/
theorem aes_coef_1_1 (a : Nat) (h : a < 256) :
    aes.gfmul 9 (aes.gfmul 3 a) ^^^ aes.gfmul 14 (aes.gfmul 2 a) ^^^ aes.gfmul 11 a ^^^ aes.gfmul 13 a = a :=
  (by decide : ∀ a, a < 256 → aes.gfmul 9 (aes.gfmul 3 a) ^^^ aes.gfmul 14 (aes.gfmul 2 a) ^^^ aes.gfmul 11 a ^^^ aes.gfmul 13 a = a) a h

set_option maxRecDepth 40000 in
/-- GF(2^8) dot product of inverse row 1 with forward column 2. -/
theorem aes_coef_1_2 (a : Nat) (h : a < 256) :
    aes.gfmul 9 a ^^^ aes.gfmul 14 (aes.gfmul 3 a) ^^^ aes.gfmul 11 (aes.gfmul 2 a) ^^^ aes.gfmul 13 a = 0 :=
  (by decide : ∀ a, a < 256 → aes.gfmul 9 a ^^^ aes.gfmul 14 (aes.gfmul 3 a) ^^^ aes.gfmul 11 (aes.gfmul 2 a) ^^^ aes.gfmul 13 a = 0) a h

set_option maxRecDepth 40000 in
/-- GF(2^8) dot product of inverse row 1 with forward column 3. -/
theorem aes_coef_1_3 (a : Nat) (h : a < 256) :
    aes.gfmul 9 a ^^^ aes.gfmul 14 a ^^^ aes.gfmul 11 (aes.gfmul 3 a) ^^^ aes.gfmul 13 (aes.gfmul 2 a) = 0 :=
  (by decide : ∀ a, a < 256 → aes.gfmul 9 a ^^^ aes.gfmul 14 a ^^^ aes.gfmul 11 (aes.gfmul 3 a) ^^^ aes.gfmul 13 (aes.gfmul 2 a) = 0) a h

set_option maxRecDepth 40000 in
/-- GF(2^8) dot product of inverse row 2 with forward column 0. -/
theorem aes_coef_2_0 (a : Nat) (h : a < 256) :
    aes.gfmul 13 (aes.gfmul 2 a) ^^^ aes.gfmul 9 a ^^^ aes.gfmul 14 a ^^^ aes.gfmul 11 (aes.gfmul 3 a) = 0 :=
  (by decide : ∀ a, a < 256 → aes.gfmul 13 (aes.gfmul 2 a) ^^^ aes.gfmul 9 a ^^^ aes.gfmul 14 a ^^^ aes.gfmul 11 (aes.gfmul 3 a) = 0) a h

set_option maxRecDepth 40000 in
/-- GF(2^8) dot product of inverse row 2 with forward column 1. -/
theorem aes_coef_2_1 (a : Nat) (h : a < 256) :
    aes.gfmul 13 (aes.gfmul 3 a) ^^^ aes.gfmul 9 (aes.gfmul 2 a) ^^^ aes.gfmul 14 a ^^^ aes.gfmul 11 a = 0 :=
  (by decide : ∀ a, a < 256 → aes.gfmul 13 (aes.gfmul 3 a) ^^^ aes.gfmul 9 (aes.gfmul 2 a) ^^^ aes.gfmul 14 a ^^^ aes.gfmul 11 a = 0) a h

set_option maxRecDepth 40000 in
/-- GF(2^8) dot product of inverse row 2 with forward column 2. -/
theorem aes_coef_2_2 (a : Nat) (h : a < 256) :
    aes.gfmul 13 a ^^^ aes.gfmul 9 (aes.gfmul 3 a) ^^^ aes.gfmul 14 (aes.gfmul 2 a) ^^^ aes.gfmul 11 a = a :=
  (by decide : ∀ a, a < 256 → aes.gfmul 13 a ^^^ aes.gfmul 9 (aes.gfmul 3 a) ^^^ aes.gfmul 14 (aes.gfmul 2 a) ^^^ aes.gfmul 11 a = a) a h

set_option maxRecDepth 40000 in
/-- GF(2^8) dot product of inverse row 2 with forward column 3. -/
theorem aes_coef_2_3 (a : Nat) (h : a < 256) :
    aes.gfmul 13 a ^^^ aes.gfmul 9 a ^^^ aes.gfmul 14 (aes.gfmul 3 a) ^^^ aes.gfmul 11 (aes.gfmul 2 a) = 0 :=
  (by decide : ∀ a, a < 256 → aes.gfmul 13 a ^^^ aes.gfmul 9 a ^^^ aes.gfmul 14 (aes.gfmul 3 a) ^^^ aes.gfmul 11 (aes.gfmul 2 a) = 0) a h

set_option maxRecDepth 40000 in
/-- GF(2^8) dot product of inverse row 3 with forward column 0. -/
theorem aes_coef_3_0 (a : Nat) (h : a < 256) :
    aes.gfmul 11 (aes.gfmul 2 a) ^^^ aes.gfmul 13 a ^^^ aes.gfmul 9 a ^^^ aes.gfmul 14 (aes.gfmul 3 a) = 0 :=
  (by decide : ∀ a, a < 256 → aes.gfmul 11 (aes.gfmul 2 a) ^^^ aes.gfmul 13 a ^^^ aes.gfmul 9 a ^^^ aes.gfmul 14 (aes.gfmul 3 a) = 0) a h

set_option maxRecDepth 40000 in
/-- GF(2^8) dot product of inverse row 3 with forward column 1. -/
theorem aes_coef_3_1 (a : Nat) (h : a < 256) :
    aes.gfmul 11 (aes.gfmul 3 a) ^^^ aes.gfmul 13 (aes.gfmul 2 a) ^^^ aes.gfmul 9 a ^^^ aes.gfmul 14 a = 0 :=
  (by decide : ∀ a, a < 256 → aes.gfmul 11 (aes.gfmul 3 a) ^^^ aes.gfmul 13 (aes.gfmul 2 a) ^^^ aes.gfmul 9 a ^^^ aes.gfmul 14 a = 0) a h

set_option maxRecDepth 40000 in
/-- GF(2^8) dot product of inverse row 3 with forward column 2. -/
theorem aes_coef_3_2 (a : Nat) (h : a < 256) :
    aes.gfmul 11 a ^^^ aes.gfmul 13 (aes.gfmul 3 a) ^^^ aes.gfmul 9 (aes.gfmul 2 a) ^^^ aes.gfmul 14 a = 0 :=
  (by decide : ∀ a, a < 256 → aes.gfmul 11 a ^^^ aes.gfmul 13 (aes.gfmul 3 a) ^^^ aes.gfmul 9 (aes.gfmul 2 a) ^^^ aes.gfmul 14 a = 0) a h

set_option maxRecDepth 40000 in
/-- GF(2^8) dot product of inverse row 3 with forward column 3. -/
theorem aes_coef_3_3 (a : Nat) (h : a < 256) :
    aes.gfmul 11 a ^^^ aes.gfmul 13 a ^^^ aes.gfmul 9 (aes.gfmul 3 a) ^^^ aes.gfmul 14 (aes.gfmul 2 a) = a :=
  (by decide : ∀ a, a < 256 → aes.gfmul 11 a ^^^ aes.gfmul 13 a ^^^ aes.gfmul 9 (aes.gfmul 3 a) ^^^ aes.gfmul 14 (aes.gfmul 2 a) = a) a h

/-- Row identities of the AES MixColumns inverse, one per output byte of a
    column.  Generated from the circulant matrices (2,3,1,1) and
    (14,11,13,9). -/
theorem aes_row_0 (a0 a1 a2 a3 : Nat) (h0 : a0 < 256) (h1 : a1 < 256)
    (h2 : a2 < 256) (h3 : a3 < 256) :
    (aes.gfmul 14 (aes.gfmul 2 a0) ^^^ aes.gfmul 14 (aes.gfmul 3 a1) ^^^
        aes.gfmul 14 a2 ^^^ aes.gfmul 14 a3) ^^^
      (aes.gfmul 11 a0 ^^^ aes.gfmul 11 (aes.gfmul 2 a1) ^^^
        aes.gfmul 11 (aes.gfmul 3 a2) ^^^ aes.gfmul 11 a3) ^^^
      (aes.gfmul 13 a0 ^^^ aes.gfmul 13 a1 ^^^ aes.gfmul 13 (aes.gfmul 2 a2) ^^^
        aes.gfmul 13 (aes.gfmul 3 a3)) ^^^
      (aes.gfmul 9 (aes.gfmul 3 a0) ^^^ aes.gfmul 9 a1 ^^^ aes.gfmul 9 a2 ^^^
        aes.gfmul 9 (aes.gfmul 2 a3)) = a0 := by
  rw [xor16_regroup]
  rw [aes_coef_0_0 a0 h0, aes_coef_0_1 a1 h1, aes_coef_0_2 a2 h2, aes_coef_0_3 a3 h3]
  simp

/-- Row 1 identity of the AES MixColumns inverse. -/
theorem aes_row_1 (a0 a1 a2 a3 : Nat) (h0 : a0 < 256) (h1 : a1 < 256)
    (h2 : a2 < 256) (h3 : a3 < 256) :
    (aes.gfmul 9 (aes.gfmul 2 a0) ^^^ aes.gfmul 9 (aes.gfmul 3 a1) ^^^ aes.gfmul 9 a2 ^^^ aes.gfmul 9 a3) ^^^
      (aes.gfmul 14 a0 ^^^ aes.gfmul 14 (aes.gfmul 2 a1) ^^^ aes.gfmul 14 (aes.gfmul 3 a2) ^^^ aes.gfmul 14 a3) ^^^
      (aes.gfmul 11 a0 ^^^ aes.gfmul 11 a1 ^^^ aes.gfmul 11 (aes.gfmul 2 a2) ^^^ aes.gfmul 11 (aes.gfmul 3 a3)) ^^^
      (aes.gfmul 13 (aes.gfmul 3 a0) ^^^ aes.gfmul 13 a1 ^^^ aes.gfmul 13 a2 ^^^ aes.gfmul 13 (aes.gfmul 2 a3)) = a1 := by
  rw [xor16_regroup]
  rw [aes_coef_1_0 a0 h0, aes_coef_1_1 a1 h1, aes_coef_1_2 a2 h2, aes_coef_1_3 a3 h3]
  simp

/-- Row 2 identity of the AES MixColumns inverse. -/
theorem aes_row_2 (a0 a1 a2 a3 : Nat) (h0 : a0 < 256) (h1 : a1 < 256)
    (h2 : a2 < 256) (h3 : a3 < 256) :
    (aes.gfmul 13 (aes.gfmul 2 a0) ^^^ aes.gfmul 13 (aes.gfmul 3 a1) ^^^ aes.gfmul 13 a2 ^^^ aes.gfmul 13 a3) ^^^
      (aes.gfmul 9 a0 ^^^ aes.gfmul 9 (aes.gfmul 2 a1) ^^^ aes.gfmul 9 (aes.gfmul 3 a2) ^^^ aes.gfmul 9 a3) ^^^
      (aes.gfmul 14 a0 ^^^ aes.gfmul 14 a1 ^^^ aes.gfmul 14 (aes.gfmul 2 a2) ^^^ aes.gfmul 14 (aes.gfmul 3 a3)) ^^^
      (aes.gfmul 11 (aes.gfmul 3 a0) ^^^ aes.gfmul 11 a1 ^^^ aes.gfmul 11 a2 ^^^ aes.gfmul 11 (aes.gfmul 2 a3)) = a2 := by
  rw [xor16_regroup]
  rw [aes_coef_2_0 a0 h0, aes_coef_2_1 a1 h1, aes_coef_2_2 a2 h2, aes_coef_2_3 a3 h3]
  simp

/-- Row 3 identity of the AES MixColumns inverse. -/
theorem aes_row_3 (a0 a1 a2 a3 : Nat) (h0 : a0 < 256) (h1 : a1 < 256)
    (h2 : a2 < 256) (h3 : a3 < 256) :
    (aes.gfmul 11 (aes.gfmul 2 a0) ^^^ aes.gfmul 11 (aes.gfmul 3 a1) ^^^ aes.gfmul 11 a2 ^^^ aes.gfmul 11 a3) ^^^
      (aes.gfmul 13 a0 ^^^ aes.gfmul 13 (aes.gfmul 2 a1) ^^^ aes.gfmul 13 (aes.gfmul 3 a2) ^^^ aes.gfmul 13 a3) ^^^
      (aes.gfmul 9 a0 ^^^ aes.gfmul 9 a1 ^^^ aes.gfmul 9 (aes.gfmul 2 a2) ^^^ aes.gfmul 9 (aes.gfmul 3 a3)) ^^^
      (aes.gfmul 14 (aes.gfmul 3 a0) ^^^ aes.gfmul 14 a1 ^^^ aes.gfmul 14 a2 ^^^ aes.gfmul 14 (aes.gfmul 2 a3)) = a3 := by
  rw [xor16_regroup]
  rw [aes_coef_3_0 a0 h0, aes_coef_3_1 a1 h1, aes_coef_3_2 a2 h2, aes_coef_3_3 a3 h3]
  simp

/-- One column of invMixColumns undoes one column of mixColumns on bytes. -/
theorem invMixCol_mixCol (a0 a1 a2 a3 : Nat) (h0 : a0 < 256) (h1 : a1 < 256)
    (h2 : a2 < 256) (h3 : a3 < 256) :
    aes.invMixCol (aes.mixCol a0 a1 a2 a3).1 (aes.mixCol a0 a1 a2 a3).2.1
      (aes.mixCol a0 a1 a2 a3).2.2.1 (aes.mixCol a0 a1 a2 a3).2.2.2 = (a0, a1, a2, a3) := by
  simp only [aes.mixCol, aes.invMixCol, aes.MUL_2, aes.MUL_3, aes.MUL_9, aes.MUL_11,
    aes.MUL_13, aes.MUL_14]
  simp only [Nat.mod_eq_of_lt h0, Nat.mod_eq_of_lt h1, Nat.mod_eq_of_lt h2,
    Nat.mod_eq_of_lt h3]
  have hc0 : aes.gfmul 2 a0 ^^^ aes.gfmul 3 a1 ^^^ a2 ^^^ a3 < 256 :=
    xor256_lt _ _ (xor256_lt _ _ (xor256_lt _ _ (gfmul_lt _ _ h0) (gfmul_lt _ _ h1)) h2) h3
  have hc1 : a0 ^^^ aes.gfmul 2 a1 ^^^ aes.gfmul 3 a2 ^^^ a3 < 256 :=
    xor256_lt _ _ (xor256_lt _ _ (xor256_lt _ _ h0 (gfmul_lt _ _ h1)) (gfmul_lt _ _ h2)) h3
  have hc2 : a0 ^^^ a1 ^^^ aes.gfmul 2 a2 ^^^ aes.gfmul 3 a3 < 256 :=
    xor256_lt _ _ (xor256_lt _ _ (xor256_lt _ _ h0 h1) (gfmul_lt _ _ h2)) (gfmul_lt _ _ h3)
  have hc3 : aes.gfmul 3 a0 ^^^ a1 ^^^ a2 ^^^ aes.gfmul 2 a3 < 256 :=
    xor256_lt _ _ (xor256_lt _ _ (xor256_lt _ _ (gfmul_lt _ _ h0) h1) h2) (gfmul_lt _ _ h3)
  simp only [Nat.mod_eq_of_lt hc0, Nat.mod_eq_of_lt hc1, Nat.mod_eq_of_lt hc2,
    Nat.mod_eq_of_lt hc3]
  simp only [gfmul_xor]
  rw [aes_row_0 a0 a1 a2 a3 h0 h1 h2 h3, aes_row_1 a0 a1 a2 a3 h0 h1 h2 h3,
    aes_row_2 a0 a1 a2 a3 h0 h1 h2 h3, aes_row_3 a0 a1 a2 a3 h0 h1 h2 h3]

set_option maxRecDepth 40000 in
/-- Every S-box entry is a byte. -/
theorem aes_SBOX_bytes : ∀ x ∈ aes.SBOX, x < 256 := by decide

/-- The S-box lookup returns a byte. -/
theorem sbox_lt (b : Nat) : aes.sbox b < 256 :=
  getD_lt_of_all _ _ _ (by norm_num) aes_SBOX_bytes

set_option maxRecDepth 40000 in
/-- The inverse S-box undoes the S-box on bytes. -/
theorem invSbox_sbox (b : Nat) (hb : b < 256) : aes.invSbox (aes.sbox b) = b :=
  (by decide : ∀ b, b < 256 → aes.invSbox (aes.sbox b) = b) b hb

/-- Multiplication tables return bytes. -/
theorem MUL_2_lt (b : Nat) : aes.MUL_2 b < 256 := gfmul_lt _ _ (Nat.mod_lt _ (by norm_num))

/-- Multiplication tables return bytes. -/
theorem MUL_3_lt (b : Nat) : aes.MUL_3 b < 256 := gfmul_lt _ _ (Nat.mod_lt _ (by norm_num))

/-- invShiftRows undoes shiftRows. -/
theorem aes_isr_sr (s : aes.St) : aes.invShiftRows (aes.shiftRows s) = s := rfl

/-- Reading the written state bytes back is the identity. -/
theorem aes_ofList_toList (s : aes.St) : aes.St.ofList (aes.St.toList s) = s := rfl

/-- invSubBytes undoes subBytes on byte states. -/
theorem aes_isb_sb (s : aes.St) (hs : (s).b0 < 256 ∧ (s).b1 < 256 ∧ (s).b2 < 256 ∧ (s).b3 < 256 ∧ (s).b4 < 256 ∧ (s).b5 < 256 ∧ (s).b6 < 256 ∧ (s).b7 < 256 ∧ (s).b8 < 256 ∧ (s).b9 < 256 ∧ (s).b10 < 256 ∧ (s).b11 < 256 ∧ (s).b12 < 256 ∧ (s).b13 < 256 ∧ (s).b14 < 256 ∧ (s).b15 < 256) :
    aes.invSubBytes (aes.subBytes s) = s := by
  simp only [aes.subBytes, aes.invSubBytes]
  rw [invSbox_sbox _ hs.1, invSbox_sbox _ hs.2.1, invSbox_sbox _ hs.2.2.1, invSbox_sbox _ hs.2.2.2.1, invSbox_sbox _ hs.2.2.2.2.1, invSbox_sbox _ hs.2.2.2.2.2.1, invSbox_sbox _ hs.2.2.2.2.2.2.1, invSbox_sbox _ hs.2.2.2.2.2.2.2.1, invSbox_sbox _ hs.2.2.2.2.2.2.2.2.1, invSbox_sbox _ hs.2.2.2.2.2.2.2.2.2.1, invSbox_sbox _ hs.2.2.2.2.2.2.2.2.2.2.1, invSbox_sbox _ hs.2.2.2.2.2.2.2.2.2.2.2.1, invSbox_sbox _ hs.2.2.2.2.2.2.2.2.2.2.2.2.1, invSbox_sbox _ hs.2.2.2.2.2.2.2.2.2.2.2.2.2.1, invSbox_sbox _ hs.2.2.2.2.2.2.2.2.2.2.2.2.2.2.1, invSbox_sbox _ hs.2.2.2.2.2.2.2.2.2.2.2.2.2.2.2]

/-- addRoundKey is an involution. -/
theorem ark_ark (rk : List Nat) (r : Nat) (s : aes.St) :
    aes.addRoundKey rk r (aes.addRoundKey rk r s) = s := by
  simp only [aes.addRoundKey, Nat.xor_cancel_right]

/-- invMixColumns undoes mixColumns on byte states. -/
theorem aes_imc_mc (s : aes.St) (hs : (s).b0 < 256 ∧ (s).b1 < 256 ∧ (s).b2 < 256 ∧ (s).b3 < 256 ∧ (s).b4 < 256 ∧ (s).b5 < 256 ∧ (s).b6 < 256 ∧ (s).b7 < 256 ∧ (s).b8 < 256 ∧ (s).b9 < 256 ∧ (s).b10 < 256 ∧ (s).b11 < 256 ∧ (s).b12 < 256 ∧ (s).b13 < 256 ∧ (s).b14 < 256 ∧ (s).b15 < 256) :
    aes.invMixColumns (aes.mixColumns s) = s := by
  simp only [aes.mixColumns, aes.invMixColumns]
  rw [invMixCol_mixCol s.b0 s.b1 s.b2 s.b3 hs.1 hs.2.1 hs.2.2.1 hs.2.2.2.1, invMixCol_mixCol s.b4 s.b5 s.b6 s.b7 hs.2.2.2.2.1 hs.2.2.2.2.2.1 hs.2.2.2.2.2.2.1 hs.2.2.2.2.2.2.2.1, invMixCol_mixCol s.b8 s.b9 s.b10 s.b11 hs.2.2.2.2.2.2.2.2.1 hs.2.2.2.2.2.2.2.2.2.1 hs.2.2.2.2.2.2.2.2.2.2.1 hs.2.2.2.2.2.2.2.2.2.2.2.1, invMixCol_mixCol s.b12 s.b13 s.b14 s.b15 hs.2.2.2.2.2.2.2.2.2.2.2.2.1 hs.2.2.2.2.2.2.2.2.2.2.2.2.2.1 hs.2.2.2.2.2.2.2.2.2.2.2.2.2.2.1 hs.2.2.2.2.2.2.2.2.2.2.2.2.2.2.2]

/-- subBytes yields a byte state. -/
theorem subBytes_bytes (s : aes.St) : (aes.subBytes s).b0 < 256 ∧ (aes.subBytes s).b1 < 256 ∧ (aes.subBytes s).b2 < 256 ∧ (aes.subBytes s).b3 < 256 ∧ (aes.subBytes s).b4 < 256 ∧ (aes.subBytes s).b5 < 256 ∧ (aes.subBytes s).b6 < 256 ∧ (aes.subBytes s).b7 < 256 ∧ (aes.subBytes s).b8 < 256 ∧ (aes.subBytes s).b9 < 256 ∧ (aes.subBytes s).b10 < 256 ∧ (aes.subBytes s).b11 < 256 ∧ (aes.subBytes s).b12 < 256 ∧ (aes.subBytes s).b13 < 256 ∧ (aes.subBytes s).b14 < 256 ∧ (aes.subBytes s).b15 < 256 :=
  ⟨sbox_lt _, sbox_lt _, sbox_lt _, sbox_lt _, sbox_lt _, sbox_lt _, sbox_lt _, sbox_lt _, sbox_lt _, sbox_lt _, sbox_lt _, sbox_lt _, sbox_lt _, sbox_lt _, sbox_lt _, sbox_lt _⟩

/-- shiftRows keeps a byte state a byte state. -/
theorem shiftRows_bytes (s : aes.St) (hs : (s).b0 < 256 ∧ (s).b1 < 256 ∧ (s).b2 < 256 ∧ (s).b3 < 256 ∧ (s).b4 < 256 ∧ (s).b5 < 256 ∧ (s).b6 < 256 ∧ (s).b7 < 256 ∧ (s).b8 < 256 ∧ (s).b9 < 256 ∧ (s).b10 < 256 ∧ (s).b11 < 256 ∧ (s).b12 < 256 ∧ (s).b13 < 256 ∧ (s).b14 < 256 ∧ (s).b15 < 256) : (aes.shiftRows s).b0 < 256 ∧ (aes.shiftRows s).b1 < 256 ∧ (aes.shiftRows s).b2 < 256 ∧ (aes.shiftRows s).b3 < 256 ∧ (aes.shiftRows s).b4 < 256 ∧ (aes.shiftRows s).b5 < 256 ∧ (aes.shiftRows s).b6 < 256 ∧ (aes.shiftRows s).b7 < 256 ∧ (aes.shiftRows s).b8 < 256 ∧ (aes.shiftRows s).b9 < 256 ∧ (aes.shiftRows s).b10 < 256 ∧ (aes.shiftRows s).b11 < 256 ∧ (aes.shiftRows s).b12 < 256 ∧ (aes.shiftRows s).b13 < 256 ∧ (aes.shiftRows s).b14 < 256 ∧ (aes.shiftRows s).b15 < 256 :=
  ⟨hs.1, hs.2.2.2.2.2.1, hs.2.2.2.2.2.2.2.2.2.2.1, hs.2.2.2.2.2.2.2.2.2.2.2.2.2.2.2, hs.2.2.2.2.1, hs.2.2.2.2.2.2.2.2.2.1, hs.2.2.2.2.2.2.2.2.2.2.2.2.2.2.1, hs.2.2.2.1, hs.2.2.2.2.2.2.2.2.1, hs.2.2.2.2.2.2.2.2.2.2.2.2.2.1, hs.2.2.1, hs.2.2.2.2.2.2.2.1, hs.2.2.2.2.2.2.2.2.2.2.2.2.1, hs.2.1, hs.2.2.2.2.2.2.1, hs.2.2.2.2.2.2.2.2.2.2.2.1⟩

/-- mixColumns keeps a byte state a byte state. -/
theorem mixColumns_bytes (s : aes.St) (hs : (s).b0 < 256 ∧ (s).b1 < 256 ∧ (s).b2 < 256 ∧ (s).b3 < 256 ∧ (s).b4 < 256 ∧ (s).b5 < 256 ∧ (s).b6 < 256 ∧ (s).b7 < 256 ∧ (s).b8 < 256 ∧ (s).b9 < 256 ∧ (s).b10 < 256 ∧ (s).b11 < 256 ∧ (s).b12 < 256 ∧ (s).b13 < 256 ∧ (s).b14 < 256 ∧ (s).b15 < 256) : (aes.mixColumns s).b0 < 256 ∧ (aes.mixColumns s).b1 < 256 ∧ (aes.mixColumns s).b2 < 256 ∧ (aes.mixColumns s).b3 < 256 ∧ (aes.mixColumns s).b4 < 256 ∧ (aes.mixColumns s).b5 < 256 ∧ (aes.mixColumns s).b6 < 256 ∧ (aes.mixColumns s).b7 < 256 ∧ (aes.mixColumns s).b8 < 256 ∧ (aes.mixColumns s).b9 < 256 ∧ (aes.mixColumns s).b10 < 256 ∧ (aes.mixColumns s).b11 < 256 ∧ (aes.mixColumns s).b12 < 256 ∧ (aes.mixColumns s).b13 < 256 ∧ (aes.mixColumns s).b14 < 256 ∧ (aes.mixColumns s).b15 < 256 :=
  ⟨xor256_lt _ _ (xor256_lt _ _ (xor256_lt _ _ (MUL_2_lt _) (MUL_3_lt _)) hs.2.2.1) hs.2.2.2.1, xor256_lt _ _ (xor256_lt _ _ (xor256_lt _ _ hs.1 (MUL_2_lt _)) (MUL_3_lt _)) hs.2.2.2.1, xor256_lt _ _ (xor256_lt _ _ (xor256_lt _ _ hs.1 hs.2.1) (MUL_2_lt _)) (MUL_3_lt _), xor256_lt _ _ (xor256_lt _ _ (xor256_lt _ _ (MUL_3_lt _) hs.2.1) hs.2.2.1) (MUL_2_lt _), xor256_lt _ _ (xor256_lt _ _ (xor256_lt _ _ (MUL_2_lt _) (MUL_3_lt _)) hs.2.2.2.2.2.2.1) hs.2.2.2.2.2.2.2.1, xor256_lt _ _ (xor256_lt _ _ (xor256_lt _ _ hs.2.2.2.2.1 (MUL_2_lt _)) (MUL_3_lt _)) hs.2.2.2.2.2.2.2.1, xor256_lt _ _ (xor256_lt _ _ (xor256_lt _ _ hs.2.2.2.2.1 hs.2.2.2.2.2.1) (MUL_2_lt _)) (MUL_3_lt _), xor256_lt _ _ (xor256_lt _ _ (xor256_lt _ _ (MUL_3_lt _) hs.2.2.2.2.2.1) hs.2.2.2.2.2.2.1) (MUL_2_lt _), xor256_lt _ _ (xor256_lt _ _ (xor256_lt _ _ (MUL_2_lt _) (MUL_3_lt _)) hs.2.2.2.2.2.2.2.2.2.2.1) hs.2.2.2.2.2.2.2.2.2.2.2.1, xor256_lt _ _ (xor256_lt _ _ (xor256_lt _ _ hs.2.2.2.2.2.2.2.2.1 (MUL_2_lt _)) (MUL_3_lt _)) hs.2.2.2.2.2.2.2.2.2.2.2.1, xor256_lt _ _ (xor256_lt _ _ (xor256_lt _ _ hs.2.2.2.2.2.2.2.2.1 hs.2.2.2.2.2.2.2.2.2.1) (MUL_2_lt _)) (MUL_3_lt _), xor256_lt _ _ (xor256_lt _ _ (xor256_lt _ _ (MUL_3_lt _) hs.2.2.2.2.2.2.2.2.2.1) hs.2.2.2.2.2.2.2.2.2.2.1) (MUL_2_lt _), xor256_lt _ _ (xor256_lt _ _ (xor256_lt _ _ (MUL_2_lt _) (MUL_3_lt _)) hs.2.2.2.2.2.2.2.2.2.2.2.2.2.2.1) hs.2.2.2.2.2.2.2.2.2.2.2.2.2.2.2, xor256_lt _ _ (xor256_lt _ _ (xor256_lt _ _ hs.2.2.2.2.2.2.2.2.2.2.2.2.1 (MUL_2_lt _)) (MUL_3_lt _)) hs.2.2.2.2.2.2.2.2.2.2.2.2.2.2.2, xor256_lt _ _ (xor256_lt _ _ (xor256_lt _ _ hs.2.2.2.2.2.2.2.2.2.2.2.2.1 hs.2.2.2.2.2.2.2.2.2.2.2.2.2.1) (MUL_2_lt _)) (MUL_3_lt _), xor256_lt _ _ (xor256_lt _ _ (xor256_lt _ _ (MUL_3_lt _) hs.2.2.2.2.2.2.2.2.2.2.2.2.2.1) hs.2.2.2.2.2.2.2.2.2.2.2.2.2.2.1) (MUL_2_lt _)⟩

/-- addRoundKey keeps a byte state a byte state. -/
theorem addRoundKey_bytes (rk : List Nat) (r : Nat) (s : aes.St) (hs : (s).b0 < 256 ∧ (s).b1 < 256 ∧ (s).b2 < 256 ∧ (s).b3 < 256 ∧ (s).b4 < 256 ∧ (s).b5 < 256 ∧ (s).b6 < 256 ∧ (s).b7 < 256 ∧ (s).b8 < 256 ∧ (s).b9 < 256 ∧ (s).b10 < 256 ∧ (s).b11 < 256 ∧ (s).b12 < 256 ∧ (s).b13 < 256 ∧ (s).b14 < 256 ∧ (s).b15 < 256) :
    (aes.addRoundKey rk r s).b0 < 256 ∧ (aes.addRoundKey rk r s).b1 < 256 ∧ (aes.addRoundKey rk r s).b2 < 256 ∧ (aes.addRoundKey rk r s).b3 < 256 ∧ (aes.addRoundKey rk r s).b4 < 256 ∧ (aes.addRoundKey rk r s).b5 < 256 ∧ (aes.addRoundKey rk r s).b6 < 256 ∧ (aes.addRoundKey rk r s).b7 < 256 ∧ (aes.addRoundKey rk r s).b8 < 256 ∧ (aes.addRoundKey rk r s).b9 < 256 ∧ (aes.addRoundKey rk r s).b10 < 256 ∧ (aes.addRoundKey rk r s).b11 < 256 ∧ (aes.addRoundKey rk r s).b12 < 256 ∧ (aes.addRoundKey rk r s).b13 < 256 ∧ (aes.addRoundKey rk r s).b14 < 256 ∧ (aes.addRoundKey rk r s).b15 < 256 :=
  ⟨xor256_lt _ _ hs.1 (Nat.mod_lt _ (by norm_num)), xor256_lt _ _ hs.2.1 (Nat.mod_lt _ (by norm_num)), xor256_lt _ _ hs.2.2.1 (Nat.mod_lt _ (by norm_num)), xor256_lt _ _ hs.2.2.2.1 (Nat.mod_lt _ (by norm_num)), xor256_lt _ _ hs.2.2.2.2.1 (Nat.mod_lt _ (by norm_num)), xor256_lt _ _ hs.2.2.2.2.2.1 (Nat.mod_lt _ (by norm_num)), xor256_lt _ _ hs.2.2.2.2.2.2.1 (Nat.mod_lt _ (by norm_num)), xor256_lt _ _ hs.2.2.2.2.2.2.2.1 (Nat.mod_lt _ (by norm_num)), xor256_lt _ _ hs.2.2.2.2.2.2.2.2.1 (Nat.mod_lt _ (by norm_num)), xor256_lt _ _ hs.2.2.2.2.2.2.2.2.2.1 (Nat.mod_lt _ (by norm_num)), xor256_lt _ _ hs.2.2.2.2.2.2.2.2.2.2.1 (Nat.mod_lt _ (by norm_num)), xor256_lt _ _ hs.2.2.2.2.2.2.2.2.2.2.2.1 (Nat.mod_lt _ (by norm_num)), xor256_lt _ _ hs.2.2.2.2.2.2.2.2.2.2.2.2.1 (Nat.mod_lt _ (by norm_num)), xor256_lt _ _ hs.2.2.2.2.2.2.2.2.2.2.2.2.2.1 (Nat.mod_lt _ (by norm_num)), xor256_lt _ _ hs.2.2.2.2.2.2.2.2.2.2.2.2.2.2.1 (Nat.mod_lt _ (by norm_num)), xor256_lt _ _ hs.2.2.2.2.2.2.2.2.2.2.2.2.2.2.2 (Nat.mod_lt _ (by norm_num))⟩

/-- One encryption round keeps a byte state a byte state. -/
theorem encRound_bytes (rk : List Nat) (s : aes.St) (r : Nat) (hs : (s).b0 < 256 ∧ (s).b1 < 256 ∧ (s).b2 < 256 ∧ (s).b3 < 256 ∧ (s).b4 < 256 ∧ (s).b5 < 256 ∧ (s).b6 < 256 ∧ (s).b7 < 256 ∧ (s).b8 < 256 ∧ (s).b9 < 256 ∧ (s).b10 < 256 ∧ (s).b11 < 256 ∧ (s).b12 < 256 ∧ (s).b13 < 256 ∧ (s).b14 < 256 ∧ (s).b15 < 256) :
    (aes.encRound rk s r).b0 < 256 ∧ (aes.encRound rk s r).b1 < 256 ∧ (aes.encRound rk s r).b2 < 256 ∧ (aes.encRound rk s r).b3 < 256 ∧ (aes.encRound rk s r).b4 < 256 ∧ (aes.encRound rk s r).b5 < 256 ∧ (aes.encRound rk s r).b6 < 256 ∧ (aes.encRound rk s r).b7 < 256 ∧ (aes.encRound rk s r).b8 < 256 ∧ (aes.encRound rk s r).b9 < 256 ∧ (aes.encRound rk s r).b10 < 256 ∧ (aes.encRound rk s r).b11 < 256 ∧ (aes.encRound rk s r).b12 < 256 ∧ (aes.encRound rk s r).b13 < 256 ∧ (aes.encRound rk s r).b14 < 256 ∧ (aes.encRound rk s r).b15 < 256 :=
  addRoundKey_bytes rk r _ (mixColumns_bytes _ (shiftRows_bytes _ (subBytes_bytes s)))

/-- A conjugated fold inversion: folding the inverse steps over the reversed
    list on the image under a translation undoes the forward fold. -/
theorem foldl_inverse_conj {α β ι : Type} (f : α → ι → α) (g : β → ι → β) (φ : α → β)
    (P : α → Prop) (hpres : ∀ z i, P z → P (f z i))
    (hinv : ∀ z i, P z → g (φ (f z i)) i = φ z)
    (l : List ι) (z : α) (hz : P z) :
    List.foldl g (φ (List.foldl f z l)) l.reverse = φ z := by
  induction l using List.reverseRecOn with
  | nil => rfl
  | append_singleton ks k ih =>
      rw [List.foldl_append, List.foldl_cons, List.foldl_nil, List.reverse_append]
      simp only [List.reverse_cons, List.reverse_nil, List.nil_append,
        List.singleton_append, List.foldl_cons]
      rw [hinv _ k (foldl_pres f P hpres ks z hz)]
      exact ih

/-- One AES decryption round undoes one encryption round, through the final
    shift-substitute translation. -/
theorem aes_dec_enc_round (rk : List Nat) (s : aes.St) (r : Nat) (hs : (s).b0 < 256 ∧ (s).b1 < 256 ∧ (s).b2 < 256 ∧ (s).b3 < 256 ∧ (s).b4 < 256 ∧ (s).b5 < 256 ∧ (s).b6 < 256 ∧ (s).b7 < 256 ∧ (s).b8 < 256 ∧ (s).b9 < 256 ∧ (s).b10 < 256 ∧ (s).b11 < 256 ∧ (s).b12 < 256 ∧ (s).b13 < 256 ∧ (s).b14 < 256 ∧ (s).b15 < 256) :
    aes.decRound rk (aes.shiftRows (aes.subBytes (aes.encRound rk s r))) r =
      aes.shiftRows (aes.subBytes s) := by
  simp only [aes.decRound, aes.encRound]
  rw [aes_isr_sr]
  rw [aes_isb_sb _ (addRoundKey_bytes rk r _ (mixColumns_bytes _ (shiftRows_bytes _
    (subBytes_bytes s))))]
  rw [ark_ark]
  rw [aes_imc_mc _ (shiftRows_bytes _ (subBytes_bytes s))]

/-- AES round trip on one block, for any expanded key and round count. -/
theorem aes_roundtrip (a : aes.AES) (pt : List Nat) (hlen : pt.length = 16)
    (hbytes : ∀ b ∈ pt, b < 256) :
    (aes.Encrypt a pt).bind (aes.Decrypt a) = some pt := by
  simp only [aes.Encrypt]
  rw [if_neg (by simp [hlen] : ¬ pt.length ≠ 16)]
  simp only [Option.some_bind]
  set s0 := aes.addRoundKey a.roundKeys 0 (aes.St.ofList pt) with hs0
  have hs0b : (s0).b0 < 256 ∧ (s0).b1 < 256 ∧ (s0).b2 < 256 ∧ (s0).b3 < 256 ∧ (s0).b4 < 256 ∧ (s0).b5 < 256 ∧ (s0).b6 < 256 ∧ (s0).b7 < 256 ∧ (s0).b8 < 256 ∧ (s0).b9 < 256 ∧ (s0).b10 < 256 ∧ (s0).b11 < 256 ∧ (s0).b12 < 256 ∧ (s0).b13 < 256 ∧ (s0).b14 < 256 ∧ (s0).b15 < 256 := by
    rw [hs0]
    refine addRoundKey_bytes _ _ _ ?_
    exact ⟨getD_lt_of_all pt 256 _ (by norm_num) hbytes, getD_lt_of_all pt 256 _ (by norm_num) hbytes, getD_lt_of_all pt 256 _ (by norm_num) hbytes, getD_lt_of_all pt 256 _ (by norm_num) hbytes, getD_lt_of_all pt 256 _ (by norm_num) hbytes, getD_lt_of_all pt 256 _ (by norm_num) hbytes, getD_lt_of_all pt 256 _ (by norm_num) hbytes, getD_lt_of_all pt 256 _ (by norm_num) hbytes, getD_lt_of_all pt 256 _ (by norm_num) hbytes, getD_lt_of_all pt 256 _ (by norm_num) hbytes, getD_lt_of_all pt 256 _ (by norm_num) hbytes, getD_lt_of_all pt 256 _ (by norm_num) hbytes, getD_lt_of_all pt 256 _ (by norm_num) hbytes, getD_lt_of_all pt 256 _ (by norm_num) hbytes, getD_lt_of_all pt 256 _ (by norm_num) hbytes, getD_lt_of_all pt 256 _ (by norm_num) hbytes⟩
  set sf := List.foldl (aes.encRound a.roundKeys) s0 (List.range' 1 (a.rounds - 1)) with hsf
  simp only [aes.Decrypt]
  rw [if_neg (by simp [aes.St.toList] :
    ¬ (aes.St.toList (aes.addRoundKey a.roundKeys a.rounds
      (aes.shiftRows (aes.subBytes sf)))).length ≠ 16)]
  rw [aes_ofList_toList, ark_ark]
  have hchain := foldl_inverse_conj (aes.encRound a.roundKeys) (aes.decRound a.roundKeys)
    (fun s => aes.shiftRows (aes.subBytes s)) (fun s : aes.St => (s).b0 < 256 ∧ (s).b1 < 256 ∧ (s).b2 < 256 ∧ (s).b3 < 256 ∧ (s).b4 < 256 ∧ (s).b5 < 256 ∧ (s).b6 < 256 ∧ (s).b7 < 256 ∧ (s).b8 < 256 ∧ (s).b9 < 256 ∧ (s).b10 < 256 ∧ (s).b11 < 256 ∧ (s).b12 < 256 ∧ (s).b13 < 256 ∧ (s).b14 < 256 ∧ (s).b15 < 256)
    (fun z i hz => encRound_bytes a.roundKeys z i hz)
    (fun z i hz => aes_dec_enc_round a.roundKeys z i hz)
    (List.range' 1 (a.rounds - 1)) s0 hs0b
  simp only at hchain
  rw [hsf, hchain]
  rw [aes_isr_sr, aes_isb_sb _ hs0b, hs0, ark_ark]
  have htl : aes.St.toList (aes.St.ofList pt) =
      [pt.getD 0 0, pt.getD 1 0, pt.getD 2 0, pt.getD 3 0, pt.getD 4 0, pt.getD 5 0,
       pt.getD 6 0, pt.getD 7 0, pt.getD 8 0, pt.getD 9 0, pt.getD 10 0, pt.getD 11 0,
       pt.getD 12 0, pt.getD 13 0, pt.getD 14 0, pt.getD 15 0] := rfl
  rw [htl, ← list16_eq pt hlen]

/-- The simplified twofish key schedule produces 32-bit round keys. -/
theorem twofish_New_k_lt (key : List Nat) (tf : twofish.Twofish)
    (h : twofish.New key = some tf) : ∀ x ∈ tf.k, x < 4294967296 := by
  simp only [twofish.New] at h
  split at h
  · exact Option.noConfusion h
  · have heq := Option.some.inj h
    subst heq
    intro x hx
    simp only [twofish.expandKey] at hx
    rw [List.mem_map] at hx
    obtain ⟨i, _, rfl⟩ := hx
    unfold twofish.roundKeyOf
    refine foldl_pres_mem _ (fun v => v < 4294967296) _ ?_ _ (Nat.mod_lt _ (by norm_num))
    intro z j hj hz
    exact xor32_lt _ _ hz (Nat.mod_lt _ (by norm_num))

/-- C2: for each of the six block ciphers, constructed with any key the
    constructor accepts (with the internal tables of sm4, des and blowfish
    carried as parameters with their Go types' byte/word bounds), decrypting
    an encrypted block of the cipher's block size returns exactly the
    original block. -/
theorem C2_block_cipher_round_trips :
    (∀ (key : List Nat) (a : aes.AES) (pt : List Nat), aes.New key = some a →
        pt.length = 16 → (∀ b ∈ pt, b < 256) →
        (aes.Encrypt a pt).bind (aes.Decrypt a) = some pt) ∧
    (∀ (t : des.Tables) (key : List Nat) (d : des.DES) (pt : List Nat),
        des.New t key = some d → pt.length = 8 → (∀ b ∈ pt, b < 256) →
        (des.Encrypt t d pt).bind (des.Decrypt t d) = some pt) ∧
    (∀ (t : sm4.Tables) (key : List Nat) (s : sm4.SM4) (pt : List Nat),
        (∀ b ∈ t.sbox, b < 256) → sm4.New t key = some s → pt.length = 16 →
        (∀ b ∈ pt, b < 256) →
        (sm4.Encrypt t s pt).bind (sm4.Decrypt t s) = some pt) ∧
    (∀ (b : blowfish.Boxes) (pt : List Nat), (∀ w ∈ b.p, w < 4294967296) →
        pt.length = 8 → (∀ x ∈ pt, x < 256) →
        (blowfish.Encrypt b pt).bind (blowfish.Decrypt b) = some pt) ∧
    (∀ (key : List Nat) (tf : twofish.Twofish) (pt : List Nat),
        twofish.New key = some tf → pt.length = 16 → (∀ x ∈ pt, x < 256) →
        (twofish.Encrypt tf pt).bind (twofish.Decrypt tf) = some pt) ∧
    (∀ (key : List Nat) (rounds : Nat) (r : rc5.RC5) (pt : List Nat),
        rc5.NewWithParams key rounds 32 = some r → pt.length = 8 →
        (∀ x ∈ pt, x < 256) →
        (rc5.Encrypt r pt).bind (rc5.Decrypt r) = some pt) :=
  ⟨fun _ a pt _ hlen hbytes => aes_roundtrip a pt hlen hbytes,
   fun t _ d pt _ hlen hbytes => des_roundtrip t d pt hlen hbytes,
   fun t _ s pt hsb _ hlen hbytes => sm4_roundtrip t hsb s pt hlen hbytes,
   fun b pt hp hlen hbytes => blowfish_roundtrip b hp pt hlen hbytes,
   fun key tf pt hnew hlen hbytes =>
     twofish_roundtrip tf (twofish_New_k_lt key tf hnew) pt hlen hbytes,
   fun _ _ r pt _ hlen hbytes => rc5_roundtrip r pt hlen hbytes⟩

/-- Concrete instance of the C2 theorem: the blowfish conjunct on the all-empty
    box state and the block 0..7. -/
theorem C2_block_cipher_round_trips_witness :
    (∀ w ∈ (⟨[], [], [], [], []⟩ : blowfish.Boxes).p, w < 4294967296) ∧
      ([0, 1, 2, 3, 4, 5, 6, 7] : List Nat).length = 8 ∧
      (∀ x ∈ ([0, 1, 2, 3, 4, 5, 6, 7] : List Nat), x < 256) ∧
      (blowfish.Encrypt ⟨[], [], [], [], []⟩ [0, 1, 2, 3, 4, 5, 6, 7]).bind
          (blowfish.Decrypt ⟨[], [], [], [], []⟩) = some [0, 1, 2, 3, 4, 5, 6, 7] :=
  ⟨by decide, by decide, by decide,
    C2_block_cipher_round_trips.2.2.2.1 ⟨[], [], [], [], []⟩ [0, 1, 2, 3, 4, 5, 6, 7]
      (by decide) (by decide) (by decide)⟩

end GSC
